import Mathlib

/-!
Marker declutter engine of `src/data.js`.

A shallow embedding of the physics loop (`runPhysicsLoop`), the zoom and pointer handlers of
`setup`, the station initialisation of `setup`, `updateMarkers` and `createHistogramData`.

JavaScript numbers are embedded in two ways.

* In exact arithmetic: as exact elements of a linear ordered field `K` together with the special
  values the code tests for (`undefined`, `NaN`, `+Infinity`, `-Infinity`).  Rounding and
  overflow of IEEE doubles are idealised away, the special-value rules are kept.  `Math.sqrt` is
  a parameter `sqrt : K → K`; statements that depend on it being the square root say so in a
  hypothesis.  What is proved of these definitions holds of the code in exact arithmetic.
* In binary64 arithmetic: as IEEE-754 doubles (`Float64`) with every operation rounded to the
  nearest double, ties to even, as a JavaScript engine computes.  The constraint loop of
  `runPhysicsLoop` and `createHistogramData` are embedded over `Float64` in the namespace
  `Binary64`.

Object identity of nodes (`node === draggedNode`) is the node's index in `stationNodes`, every
node object being pushed onto that array exactly once.
-/

namespace AlguesVertes

/-! ## JavaScript values -/

/-- A JavaScript value held in a numeric property: `undefined`, `NaN`, an infinity, or a finite
number. -/
inductive JSVal (K : Type) where
  | undefined : JSVal K
  | nan : JSVal K
  | posInf : JSVal K
  | negInf : JSVal K
  | num (v : K) : JSVal K
  deriving DecidableEq, Repr

namespace JSVal

variable {K : Type} [LinearOrderedField K]

/-- The global `isNaN(v)`: true for `NaN` and for `undefined` (which converts to `NaN`). -/
def isNaN : JSVal K → Bool
  | undefined => true
  | nan => true
  | _ => false

/-- The value is a finite number. -/
def isFinite : JSVal K → Bool
  | num _ => true
  | _ => false

/-- JavaScript `a + b` on numbers (`undefined` converts to `NaN`). -/
def add : JSVal K → JSVal K → JSVal K
  | num a, num b => num (a + b)
  | posInf, num _ => posInf
  | num _, posInf => posInf
  | posInf, posInf => posInf
  | negInf, num _ => negInf
  | num _, negInf => negInf
  | negInf, negInf => negInf
  | _, _ => nan

/-- JavaScript unary minus. -/
def neg : JSVal K → JSVal K
  | num a => num (-a)
  | posInf => negInf
  | negInf => posInf
  | _ => nan

/-- JavaScript `a - b`. -/
def sub (a b : JSVal K) : JSVal K := add a (neg b)

/-- The product of an infinity of sign `pos` with the finite number `a`. -/
def infTimes (pos : Bool) (a : K) : JSVal K :=
  if a = 0 then nan else if (0 < a) = pos then posInf else negInf

/-- JavaScript `a * b`. -/
def mul : JSVal K → JSVal K → JSVal K
  | num a, num b => num (a * b)
  | num a, posInf => infTimes true a
  | num a, negInf => infTimes false a
  | posInf, num b => infTimes true b
  | negInf, num b => infTimes false b
  | posInf, posInf => posInf
  | negInf, negInf => posInf
  | posInf, negInf => negInf
  | negInf, posInf => negInf
  | _, _ => nan

/-- JavaScript `a / b` (signed zeros are not distinguished: a zero divisor counts as `+0`). -/
def div : JSVal K → JSVal K → JSVal K
  | num a, num b =>
    if b = 0 then (if a = 0 then nan else if 0 < a then posInf else negInf) else num (a / b)
  | num _, posInf => num 0
  | num _, negInf => num 0
  | posInf, num b => if 0 ≤ b then posInf else negInf
  | negInf, num b => if 0 ≤ b then negInf else posInf
  | _, _ => nan

/-- `Math.sqrt(v)`, for the square-root function `sqrt` on finite numbers. -/
def sqrt (sqrt : K → K) : JSVal K → JSVal K
  | num a => if a < 0 then nan else num (sqrt a)
  | posInf => posInf
  | _ => nan

/-- `Math.abs(v)`. -/
def abs : JSVal K → JSVal K
  | num a => num |a|
  | posInf => posInf
  | negInf => posInf
  | _ => nan

/-- JavaScript `a < b`: false as soon as one side is `NaN`. -/
def lt : JSVal K → JSVal K → Bool
  | num a, num b => decide (a < b)
  | negInf, num _ => true
  | negInf, posInf => true
  | num _, posInf => true
  | _, _ => false

/-- JavaScript `a > b`. -/
def gt (a b : JSVal K) : Bool := lt b a

instance : Add (JSVal K) := ⟨add⟩
instance : Sub (JSVal K) := ⟨sub⟩
instance : Mul (JSVal K) := ⟨mul⟩
instance : Div (JSVal K) := ⟨div⟩

end JSVal

open JSVal

/-! ## Nodes and global state -/

/-- One entry of `stationNodes` (the Leaflet marker itself is external; its position updates are
recorded as `PositionUpdate`s). -/
structure Node (K : Type) where
  id : String
  originalLatLng : JSVal K × JSVal K
  currentRadius : K
  vx : K
  vy : K
  prevX : JSVal K
  prevY : JSVal K
  targetX : JSVal K
  targetY : JSVal K
  x : JSVal K
  y : JSVal K

/-- A call `node.marker.setLatLng(map.layerPointToLatLng(L.point(x, y)))` for the node at index
`node` of `stationNodes`. -/
structure PositionUpdate (K : Type) where
  node : Nat
  x : JSVal K
  y : JSVal K

/-- The global variables the declutter engine reads and writes.  `map` is `none` until `setup`
has created the Leaflet map and otherwise holds its current `latLngToLayerPoint`, which
yields finite pixel coordinates;
`pendingTimers` counts the `setTimeout` callbacks of `mouseup` that have not fired yet. -/
structure World (K : Type) where
  map : Option (JSVal K × JSVal K → K × K)
  stationNodes : List (Node K)
  draggedNode : Option Nat
  isDragging : Bool
  wasDragged : Bool
  dragStartX : K
  dragStartY : K
  isZooming : Bool
  mapDraggingEnabled : Bool
  pendingTimers : Nat

/-- What one call of `runPhysicsLoop` does: the new globals, the marker position updates in the
order they were made, and whether `requestAnimationFrame(runPhysicsLoop)` was called. -/
structure TickResult (K : Type) where
  world : World K
  updates : List (PositionUpdate K)
  rescheduled : Bool

section Physics

variable {K : Type} [LinearOrderedField K]

/-- `const padding = 1.5`. -/
def padding : K := 3 / 2

/-- `const returnSpeed = 0.2`. -/
def returnSpeed : K := 1 / 5

/-- `const iterations = 8`. -/
def iterations : Nat := 8

/-- Step 1 of `runPhysicsLoop` for one node: refresh the target pixel and seed the position
when `typeof node.x === 'undefined' || isNaN(node.x)`. -/
def reproject (proj : JSVal K × JSVal K → K × K) (node : Node K) : Node K :=
  let point := proj node.originalLatLng
  let node1 := { node with targetX := num point.1, targetY := num point.2 }
  if node.x = undefined ∨ isNaN node.x = true then
    { node1 with x := node1.targetX, y := node1.targetY }
  else node1

/-- Step 2.A for one node that is not the dragged one. -/
def pullNode (node : Node K) : Node K :=
  { node with
    x := node.x + (node.targetX - node.x) * num returnSpeed
    y := node.y + (node.targetY - node.y) * num returnSpeed }

/-- Step 2.A over the nodes from index `i` on. -/
def anchorPullFrom (draggedNode : Option Nat) : Nat → List (Node K) → List (Node K)
  | _, [] => []
  | i, node :: rest =>
    (if draggedNode = some i then node else pullNode node) :: anchorPullFrom draggedNode (i + 1) rest

/-- Step 2.A: `stationNodes.forEach(node => { if (node === draggedNode) return; ... })`. -/
def anchorPull (draggedNode : Option Nat) (nodes : List (Node K)) : List (Node K) :=
  anchorPullFrom draggedNode 0 nodes

/-- The test and the arithmetic of the inner collision loop for the nodes `n1`, `n2`:
`none` when `distSq < minDist * minDist` is false, and otherwise `(moveX, moveY)`. -/
def separation (sqrt : K → K) (n1 n2 : Node K) : Option (JSVal K × JSVal K) :=
  let dx := n2.x - n1.x
  let dy := n2.y - n1.y
  let distSq := dx * dx + dy * dy
  let minDist := n1.currentRadius + n2.currentRadius + padding
  if JSVal.lt distSq (num (minDist * minDist)) = true then
    let dist0 := JSVal.sqrt sqrt distSq
    let dist := if dist0 = num 0 then num (1 / 100) else dist0
    let dx1 := if dist0 = num 0 then num (1 / 100) else dx
    let penetration := num minDist - dist
    let nx := dx1 / dist
    let ny := dy / dist
    let moveX := nx * penetration * num (1 / 2)
    let moveY := ny * penetration * num (1 / 2)
    some (moveX, moveY)
  else none

/-- The three-way assignment at the end of the inner collision loop, for the nodes `n1`, `n2` at
the indices `i`, `j`. -/
def pushApart (draggedNode : Option Nat) (i j : Nat) (n1 n2 : Node K) (move : JSVal K × JSVal K)
    (nodes : List (Node K)) : List (Node K) :=
  if draggedNode = some i then
    nodes.set j { n2 with x := n2.x + move.1 * num 2, y := n2.y + move.2 * num 2 }
  else if draggedNode = some j then
    nodes.set i { n1 with x := n1.x - move.1 * num 2, y := n1.y - move.2 * num 2 }
  else
    (nodes.set i { n1 with x := n1.x - move.1, y := n1.y - move.2 }).set j
      { n2 with x := n2.x + move.1, y := n2.y + move.2 }

/-- The body of the inner collision loop for the pair of indices `i < j`. -/
def resolvePair (sqrt : K → K) (draggedNode : Option Nat) (i j : Nat) (nodes : List (Node K)) :
    List (Node K) :=
  match nodes[i]?, nodes[j]? with
  | some n1, some n2 =>
    if n2.currentRadius = 0 then nodes
    else
      match separation sqrt n1 n2 with
      | some move => pushApart draggedNode i j n1 n2 move nodes
      | none => nodes
  | _, _ => nodes

/-- The inner collision loop `for (let j = i + 1; j < stationNodes.length; j++)`. -/
def collideWith (sqrt : K → K) (draggedNode : Option Nat) (i : Nat) (nodes : List (Node K)) :
    List (Node K) :=
  (List.range' (i + 1) (nodes.length - (i + 1))).foldl
    (fun acc j => resolvePair sqrt draggedNode i j acc) nodes

/-- One turn of the outer collision loop: skipped when `n1.currentRadius === 0`. -/
def collideStep (sqrt : K → K) (draggedNode : Option Nat) (nodes : List (Node K)) (i : Nat) :
    List (Node K) :=
  match nodes[i]? with
  | some n1 => if n1.currentRadius = 0 then nodes else collideWith sqrt draggedNode i nodes
  | none => nodes

/-- Step 2.B: the outer collision loop `for (let i = 0; i < stationNodes.length; i++)`. -/
def resolveCollisions (sqrt : K → K) (draggedNode : Option Nat) (nodes : List (Node K)) :
    List (Node K) :=
  (List.range nodes.length).foldl (collideStep sqrt draggedNode) nodes

/-- One turn of the loop `for (let k = 0; k < iterations; k++)`. -/
def relaxOnce (sqrt : K → K) (draggedNode : Option Nat) (nodes : List (Node K)) : List (Node K) :=
  resolveCollisions sqrt draggedNode (anchorPull draggedNode nodes)

/-- Step 2 of `runPhysicsLoop`: `n` turns of the constraint loop. -/
def relax (sqrt : K → K) (draggedNode : Option Nat) (n : Nat) (nodes : List (Node K)) :
    List (Node K) :=
  (relaxOnce sqrt draggedNode)^[n] nodes

/-- The test of step 3:
`Math.abs(node.x - node.prevX) > 0.1 || Math.abs(node.y - node.prevY) > 0.1`. -/
def needsUpdate (node : Node K) : Bool :=
  JSVal.gt (JSVal.abs (node.x - node.prevX)) (num (1 / 10)) ||
    JSVal.gt (JSVal.abs (node.y - node.prevY)) (num (1 / 10))

/-- Step 3 for one node: the node afterwards. -/
def commitNode (node : Node K) : Node K :=
  if needsUpdate node = true then { node with prevX := node.x, prevY := node.y } else node

/-- Step 3: the marker position updates made for the nodes from index `i` on. -/
def updatesFrom : Nat → List (Node K) → List (PositionUpdate K)
  | _, [] => []
  | i, node :: rest =>
    if needsUpdate node = true then ⟨i, node.x, node.y⟩ :: updatesFrom (i + 1) rest
    else updatesFrom (i + 1) rest

/-- A node placed exactly at its projected target pixel. -/
def atTarget (proj : JSVal K × JSVal K → K × K) (node : Node K) : Node K :=
  { node with x := num (proj node.originalLatLng).1, y := num (proj node.originalLatLng).2 }

/-- A node without its simulated position. -/
def erasePosition (node : Node K) : Node K :=
  { node with x := undefined, y := undefined }

/-- The positions and radii after steps 1 and 2 of a tick that is not suspended. -/
def relaxedNodes (sqrt : K → K) (proj : JSVal K × JSVal K → K × K) (w : World K) : List (Node K) :=
  relax sqrt w.draggedNode iterations (w.stationNodes.map (reproject proj))

/-- One call of `runPhysicsLoop`. -/
def runPhysicsLoop (sqrt : K → K) (w : World K) : TickResult K :=
  match w.map with
  | none => ⟨w, [], true⟩
  | some proj =>
    if w.stationNodes.length = 0 then ⟨w, [], true⟩
    else if w.isZooming = true then ⟨w, [], true⟩
    else
      let nodes := relaxedNodes sqrt proj w
      ⟨{ w with stationNodes := nodes.map commitNode }, updatesFrom 0 nodes, true⟩

/-- The globals after `n` consecutive calls of `runPhysicsLoop` with no event in between. -/
def ticks (sqrt : K → K) (n : Nat) (w : World K) : World K :=
  (fun v => (runPhysicsLoop sqrt v).world)^[n] w

end Physics

/-! ## Zoom and pointer handlers of `setup` -/

section Handlers

variable {K : Type} [LinearOrderedField K]

/-- The handler `map.on('zoomstart', ...)`. -/
def onZoomStart (w : World K) : World K :=
  { w with isZooming := true }

/-- The handler `map.on('zoomend', ...)`: `delete node.x` leaves `node.x` undefined. -/
def onZoomEnd (w : World K) : World K :=
  { w with
    isZooming := false
    stationNodes := w.stationNodes.map fun node => { node with x := undefined } }

/-- The handler `marker.on('mousedown', ...)` of the node at index `i`, for an event whose
`containerPoint` is `p`. -/
def markerMouseDown (i : Nat) (p : K × K) (w : World K) : World K :=
  { w with
    draggedNode := some i
    isDragging := false
    dragStartX := p.1
    dragStartY := p.2
    mapDraggingEnabled := false }

/-- The handler `map.on('mousemove', ...)` for an event with `containerPoint` `cp` and
`latlng` `latlng`: the new globals and the immediate marker move, if any.  The handler is
registered on the map, so it only ever runs once `map` is set. -/
def mapMouseMove (sqrt : K → K) (cp : K × K) (latlng : JSVal K × JSVal K) (w : World K) :
    World K × List (PositionUpdate K) :=
  match w.draggedNode, w.map with
  | some d, some proj =>
    let dx := cp.1 - w.dragStartX
    let dy := cp.2 - w.dragStartY
    let dist := sqrt (dx * dx + dy * dy)
    let dragging := if 3 < dist then true else w.isDragging
    if dragging = true then
      let p := proj latlng
      ({ w with
          isDragging := dragging
          stationNodes := w.stationNodes.modify (fun node => { node with x := num p.1, y := num p.2 }) d },
        [⟨d, num p.1, num p.2⟩])
    else ({ w with isDragging := dragging }, [])
  | _, _ => (w, [])

/-- The handler `map.on('mouseup', ...)`. -/
def mapMouseUp (w : World K) : World K :=
  match w.draggedNode with
  | some _ =>
    { w with
      wasDragged := if w.isDragging = true then true else w.wasDragged
      pendingTimers := if w.isDragging = true then w.pendingTimers + 1 else w.pendingTimers
      draggedNode := none
      isDragging := false
      mapDraggingEnabled := true }
  | none => w

/-- The callback of `setTimeout(() => { wasDragged = false; }, 100)`. -/
def timerFires (w : World K) : World K :=
  { w with wasDragged := false, pendingTimers := w.pendingTimers - 1 }

/-- What a click handler ends up doing. -/
inductive ClickAction where
  | suppressed : ClickAction
  | selectStation (i : Nat) : ClickAction
  | selectGlobal : ClickAction
  deriving DecidableEq, Repr

/-- The handler `marker.on('click', ...)` of the node at index `i`: it returns at once when
`isDragging || wasDragged`, and otherwise flies to the node and shows its station. -/
def markerClick (i : Nat) (w : World K) : ClickAction :=
  if (w.isDragging || w.wasDragged) = true then ClickAction.suppressed
  else ClickAction.selectStation i

/-- The handler `map.on('click', ...)`: it returns at once when `wasDragged`, and otherwise
flies back to the initial view and shows all stations. -/
def mapClick (w : World K) : ClickAction :=
  if w.wasDragged = true then ClickAction.suppressed else ClickAction.selectGlobal

/-- The `mousemove` events of a pointer session, in order. -/
def moveAll (sqrt : K → K) (moves : List ((K × K) × (JSVal K × JSVal K))) (w : World K) : World K :=
  moves.foldl (fun v e => (mapMouseMove sqrt e.1 e.2 v).1) w

/-- A pointer session: `mousedown` on the node at index `i` at `p0`, the `mousemove` events
`moves`, then `mouseup`. -/
def pointerSession (sqrt : K → K) (i : Nat) (p0 : K × K)
    (moves : List ((K × K) × (JSVal K × JSVal K))) (w : World K) : World K :=
  mapMouseUp (moveAll sqrt moves (markerMouseDown i p0 w))

/-- The pointer of a `mousemove` at `cp` is farther than 3 px from `p0`. -/
def movedBeyond (sqrt : K → K) (p0 cp : K × K) : Prop :=
  3 < sqrt ((cp.1 - p0.1) * (cp.1 - p0.1) + (cp.2 - p0.2) * (cp.2 - p0.2))

end Handlers

/-! ## Station initialisation of `setup` -/

section Stations

variable {K : Type} [LinearOrderedField K]

/-- The characters `String.prototype.trim` removes: white space and line terminators. -/
def isTrimChar (c : Char) : Bool :=
  let n := c.toNat
  (9 ≤ n && n ≤ 13) || n = 32 || n = 160 || n = 5760 || (8192 ≤ n && n ≤ 8202) ||
    n = 8232 || n = 8233 || n = 8239 || n = 8287 || n = 12288 || n = 65279

/-- The method `String.prototype.trim`. -/
def jsTrim (s : String) : String :=
  String.mk ((s.toList.dropWhile isTrimChar).reverse.dropWhile isTrimChar).reverse

/-- Splitting the characters at every comma; `acc` holds the current piece, reversed. -/
def splitCommaAux : List Char → List Char → List String
  | acc, [] => [String.mk acc.reverse]
  | acc, c :: cs =>
    if c = ',' then String.mk acc.reverse :: splitCommaAux [] cs else splitCommaAux (c :: acc) cs

/-- The call `line.split(",")`. -/
def splitComma (line : String) : List String :=
  splitCommaAux [] line.toList

/-- The node created for one line of `stations.csv`, or `none` when the line is skipped
(fewer than 4 columns, or a latitude or longitude that `parseFloat` reads as `NaN`). -/
def stationNode (parseFloat : String → JSVal K) (line : String) : Option (Node K) :=
  match splitComma line with
  | c0 :: c1 :: c2 :: _ :: _ =>
    let lat := parseFloat c1
    let lng := parseFloat c2
    if (isNaN lat || isNaN lng) = true then none
    else
      some
        { id := jsTrim c0
          originalLatLng := (lat, lng)
          currentRadius := 4
          vx := 0
          vy := 0
          prevX := num 0
          prevY := num 0
          targetX := undefined
          targetY := undefined
          x := undefined
          y := undefined }
  | _ => none

/-- The loop `for (let i = 1; i < stations.length; i++)` of `setup` appending to `stationNodes`. -/
def pushStations (parseFloat : String → JSVal K) : List String → List (Node K) → List (Node K)
  | [], nodes => nodes
  | line :: rest, nodes =>
    match stationNode parseFloat line with
    | some node => pushStations parseFloat rest (nodes ++ [node])
    | none => pushStations parseFloat rest nodes

/-- Station initialisation of `setup`: `stationNodes = []`, then one node per accepted line after
the header line. -/
def initStations (parseFloat : String → JSVal K) (stations : List String) : List (Node K) :=
  pushStations parseFloat (stations.drop 1) []

/-- A reader of unsigned decimal integers: on a string of decimal digits it returns what
`parseFloat` returns, on any other string `NaN`. -/
def parseDigits (s : String) : JSVal K :=
  if s.toList ≠ [] ∧ s.toList.all Char.isDigit = true then
    num ((s.toList.foldl (fun n c => 10 * n + (c.toNat - 48)) 0 : Nat) : K)
  else nan

end Stations

/-! ## Marker radii: `mapValue`, `constrainValue`, `updateMarkers` -/

section Markers

variable {K : Type} [LinearOrderedField K]

/-- The function `mapValue`. -/
def mapValue (value inMin inMax outMin outMax : K) : K :=
  if inMin = inMax then outMin
  else
    let norm := (value - inMin) / (inMax - inMin)
    norm * (outMax - outMin) + outMin

/-- The function `constrainValue`. -/
def constrainValue (value min max : K) : K :=
  Max.max min (Min.min value max)

/-- The function `getColorForConcentration`. -/
def getColorForConcentration (value : K) : String :=
  if value < 5 / 100 then "#87CC21"
  else if value < 2 / 10 then "#b5ff5e"
  else if value < 1 then "#ff91d1"
  else if value < 2 then "#e845b2"
  else "#212121"

/-- One measurement kept by `setup` (`date` is `null` when the date could not be parsed). -/
structure DataPoint (K : Type) where
  date : Option String
  time : Option String
  value : K

/-- The entry `concentrationData[id]`: the list under `"all"` and the lists under the years. -/
structure StationData (K : Type) where
  all : List (DataPoint K)
  years : String → Option (List (DataPoint K))

/-- The property read `stationData[key]`. -/
def StationData.get (d : StationData K) (key : String) : Option (List (DataPoint K)) :=
  if key = "all" then some d.all else d.years key

/-- The option object passed to `marker.setStyle`. -/
structure Style (K : Type) where
  fillColor : String
  fillOpacity : K
  radius : K
  color : String
  weight : K
  opacity : K

/-- `const GLOBAL_ID = "__all_stations__"`. -/
def GLOBAL_ID : String := "__all_stations__"

/-- `const baseRadius = 6` of `updateMarkers`. -/
def baseRadius : K := 6

/-- `const maxRadius = 20` of `updateMarkers`. -/
def maxRadius : K := 20

/-- The list `valuesToMap` that `updateMarkers` builds for the station `idStation`
(`specificDate` is `none` for `null`; an empty string is falsy as well). -/
def valuesToMap (concentrationData : String → Option (StationData K)) (selectedYear : String)
    (specificDate : Option String) (idStation : String) : List K :=
  match concentrationData idStation with
  | some stationData =>
    let objectsToProcess :=
      match specificDate with
      | some date =>
        if date = "" then (stationData.get selectedYear).getD []
        else stationData.all.filter fun d => d.date = some date
      | none => (stationData.get selectedYear).getD []
    objectsToProcess.map fun d => d.value
  | none => []

/-- The radius `updateMarkers` computes from `valuesToMap`: 5 when the list is empty, and
otherwise the value of `Math.max(...valuesToMap)` mapped and constrained. -/
def markerRadius : List K → K
  | [] => 5
  | v :: vs =>
    let max := vs.foldl Max.max v
    let rCalc := mapValue max 0 1 baseRadius maxRadius
    constrainValue rCalc baseRadius 30

/-- The style `updateMarkers` computes from `valuesToMap` before the highlight of the current
station. -/
def baseStyle : List K → Style K
  | [] => ⟨"#AAAAAA", 1 / 2, 5, "#cccccc", 1, 6 / 10⟩
  | v :: vs =>
    let max := vs.foldl Max.max v
    ⟨getColorForConcentration max, 8 / 10, markerRadius (v :: vs), "white", 3 / 2, 1⟩

/-- The style passed to `marker.setStyle` for the station `idStation`. -/
def markerStyle (currentStationID : Option String) (idStation : String) (values : List K) :
    Style K :=
  let style := baseStyle values
  if some idStation = currentStationID ∧ currentStationID ≠ some GLOBAL_ID then
    { style with color := "#222", weight := 3, opacity := 1, fillOpacity := 1 }
  else style

/-- The function `updateMarkers`: the nodes with their new `currentRadius`, and the styles set
on their markers, in node order. -/
def updateMarkers (concentrationData : String → Option (StationData K))
    (currentStationID : Option String) (selectedYear : String) (specificDate : Option String)
    (nodes : List (Node K)) : List (Node K) × List (Style K) :=
  (nodes.map fun node =>
      { node with
        currentRadius := markerRadius (valuesToMap concentrationData selectedYear specificDate node.id) },
    nodes.map fun node =>
      markerStyle currentStationID node.id
        (valuesToMap concentrationData selectedYear specificDate node.id))

end Markers

/-! ## Histogram data -/

/-- The object `{ x, y, width }` returned by `createHistogramData`. -/
structure HistogramData (K : Type) where
  x : List K
  y : List Nat
  width : List K
  deriving DecidableEq

/-- The statement `binCounts[i]++` for an array index `i`. -/
def bump (binCounts : List Nat) (i : Nat) : List Nat :=
  binCounts.modify (fun c => c + 1) i

/-! ## IEEE-754 binary64 arithmetic

The definitions above compute with exact numbers.  The ones of this part compute as a JavaScript
engine does: every JavaScript number is an IEEE-754 binary64 value (a "double"), and `+`, `-`,
`*`, `/` and `Math.sqrt` return the exact result rounded to the nearest double, ties to even.
-/

/-- An IEEE-754 binary64 value: `NaN`, an infinity, or a finite value.  Every finite double is an
integer multiple of the least subnormal `2^-1074`: `fin neg n` is the value `n * 2^-1074`, negated
when `neg` is set, so that `fin true 0` is `-0`.  The doubles are the `fin neg n` in which `n` is
below `2^2098` and has at most 53 significant bits. -/
inductive Float64 where
  | nan : Float64
  | inf (neg : Bool) : Float64
  | fin (neg : Bool) (n : Nat) : Float64
  deriving DecidableEq, Repr

namespace Float64

/-- Binary search for the position of the leading bit of `q`, `k` bits of the position being still
to find and `b` holding the bits found so far. -/
def log2From : Nat → Nat → Nat → Nat
  | 0, _, b => b
  | k + 1, q, b => log2From k q (if 2 ^ (b + 2 ^ k) ≤ q then b + 2 ^ k else b)

/-- The position of the leading bit of `q`: the greatest `b` with `2 ^ b ≤ q`, for
`1 ≤ q < 2 ^ 65536` (every quotient met in double arithmetic is far below that bound). -/
def log2 (q : Nat) : Nat := log2From 16 q 0

/-- The integer nearest to `a / d`, the even one of the two when `a / d` lies half-way. -/
def roundEven (a d : Nat) : Nat :=
  let q := a / d
  let r := a % d
  if 2 * r < d then q else if d < 2 * r then q + 1 else if q % 2 = 0 then q else q + 1

/-- The double nearest to the exact value `a / d * 2^-1074` with sign `neg`, ties to even: the
result keeps the 53 leading bits (`s` is the number of bits dropped; none are dropped below
`2^53` units, the range of the subnormals and of the smallest normal doubles), and a result from
`2^1024` on is an infinity. -/
def round (neg : Bool) (a d : Nat) : Float64 :=
  let s := log2 (a / d) - 52
  let m := roundEven a (d * 2 ^ s)
  if 2 ^ 2098 ≤ m * 2 ^ s then inf neg else fin neg (m * 2 ^ s)

/-- The double nearest to the fraction `num / den`: the value of a numeric literal. -/
def ofRat (num den : Nat) : Float64 := round false (num * 2 ^ 1074) den

/-- JavaScript `a + b`.  A zero sum of two finite numbers is `+0`, unless both are `-0`. -/
def add : Float64 → Float64 → Float64
  | fin s a, fin t b =>
    if s = t then round s (a + b) 1
    else if b < a then round s (a - b) 1
    else if a < b then round t (b - a) 1
    else fin false 0
  | inf s, inf t => if s = t then inf s else nan
  | inf s, fin _ _ => inf s
  | fin _ _, inf t => inf t
  | _, _ => nan

/-- JavaScript unary minus. -/
def neg : Float64 → Float64
  | fin s a => fin (!s) a
  | inf s => inf (!s)
  | nan => nan

/-- JavaScript `a - b`. -/
def sub (a b : Float64) : Float64 := add a (neg b)

/-- JavaScript `a * b`. -/
def mul : Float64 → Float64 → Float64
  | fin s a, fin t b => round (xor s t) (a * b) (2 ^ 1074)
  | inf s, inf t => inf (xor s t)
  | inf s, fin t b => if b = 0 then nan else inf (xor s t)
  | fin s a, inf t => if a = 0 then nan else inf (xor s t)
  | _, _ => nan

/-- JavaScript `a / b`. -/
def div : Float64 → Float64 → Float64
  | fin s a, fin t b =>
    if b = 0 then (if a = 0 then nan else inf (xor s t)) else round (xor s t) (a * 2 ^ 1074) b
  | inf s, fin t _ => inf (xor s t)
  | fin s _, inf t => fin (xor s t) 0
  | _, _ => nan

/-- Bit by bit, the greatest `r` with `r * r ≤ n`, the bits from position `k` on being fixed. -/
def sqrtBits : Nat → Nat → Nat → Nat
  | 0, _, r => r
  | k + 1, n, r => sqrtBits k n (if (r + 2 ^ k) * (r + 2 ^ k) ≤ n then r + 2 ^ k else r)

/-- The integer square root: the greatest `r` with `r * r ≤ n`. -/
def isqrt (n : Nat) : Nat := sqrtBits (log2 n / 2 + 1) n 0

/-- `Math.sqrt(v)`, correctly rounded: the root of `a * 2^-1074` is `√(a * 2^1074)` units; `r` is
that root in halves of a unit, rounded down, and the added `1` records that the root is not
exactly `r` halves, which is all that rounding to the nearest double needs to know (the doubles
and the mid-points between neighbouring doubles are whole numbers of halves). -/
def sqrt : Float64 → Float64
  | fin s a =>
    if a = 0 then fin s 0
    else if s = true then nan
    else
      let r := isqrt (a * 2 ^ 1076)
      round false (2 * r + (if r * r = a * 2 ^ 1076 then 0 else 1)) 4
  | inf false => inf false
  | _ => nan

/-- `Math.abs(v)`. -/
def abs : Float64 → Float64
  | fin _ a => fin false a
  | inf _ => inf false
  | nan => nan

/-- A finite double in units of `2^-1074`, as an integer. -/
def toInt (neg : Bool) (n : Nat) : Int :=
  if neg = true then -(n : Int) else (n : Int)

/-- JavaScript `a < b`: false as soon as one side is `NaN`; `-0` and `+0` are equal. -/
def lt : Float64 → Float64 → Bool
  | fin s a, fin t b => decide (toInt s a < toInt t b)
  | inf true, fin _ _ => true
  | inf true, inf false => true
  | fin _ _, inf false => true
  | _, _ => false

/-- JavaScript `a === b` on numbers. -/
def eq : Float64 → Float64 → Bool
  | fin s a, fin t b => decide (toInt s a = toInt t b)
  | inf s, inf t => decide (s = t)
  | _, _ => false

/-- JavaScript `a <= b`. -/
def le (a b : Float64) : Bool := lt a b || eq a b

/-- JavaScript `a > b`. -/
def gt (a b : Float64) : Bool := lt b a

/-- The global `isFinite(v)` on numbers. -/
def isFinite : Float64 → Bool
  | fin _ _ => true
  | _ => false

/-- `Math.max(a, b)`: `NaN` when one argument is `NaN`, and `+0` counts as larger than `-0`. -/
def max (a b : Float64) : Float64 :=
  if a = nan ∨ b = nan then nan
  else if lt a b = true then b
  else if lt b a = true then a
  else if a = fin true 0 then b
  else a

/-- `Math.floor(v)`. -/
def floor : Float64 → Float64
  | fin false n => fin false (n / 2 ^ 1074 * 2 ^ 1074)
  | fin true n => fin true ((n + (2 ^ 1074 - 1)) / 2 ^ 1074 * 2 ^ 1074)
  | v => v

/-- `Math.ceil(v)`. -/
def ceil : Float64 → Float64
  | fin false n => fin false ((n + (2 ^ 1074 - 1)) / 2 ^ 1074 * 2 ^ 1074)
  | fin true n => fin true (n / 2 ^ 1074 * 2 ^ 1074)
  | v => v

/-- The array index that a number denotes as a property key, if it denotes one: a non-negative
integer (`-0` is the key `"0"`). -/
def toIndex : Float64 → Option Nat
  | fin s n => if n % 2 ^ 1074 = 0 ∧ (s = false ∨ n = 0) then some (n / 2 ^ 1074) else none
  | _ => none

/-- The value is a finite number that is not negative (`-0` included). -/
def isNonneg : Float64 → Bool
  | fin s n => !s || decide (n = 0)
  | _ => false

/-- The value is a finite double greater than 0. -/
def isPositive : Float64 → Bool
  | fin false n => decide (0 < n) && decide (n < 2 ^ 2098)
  | _ => false

instance : Add Float64 := ⟨add⟩
instance : Sub Float64 := ⟨sub⟩
instance : Mul Float64 := ⟨mul⟩
instance : Div Float64 := ⟨div⟩
instance : Neg Float64 := ⟨neg⟩
instance (n : Nat) : OfNat Float64 n := ⟨ofRat n 1⟩
instance : OfScientific Float64 :=
  ⟨fun mantissa exponentSign decimalExponent =>
    if exponentSign = true then ofRat mantissa (10 ^ decimalExponent)
    else ofRat (mantissa * 10 ^ decimalExponent) 1⟩

end Float64

/-! ## The constraint loop and `createHistogramData` in binary64 arithmetic -/

namespace Binary64

/-- The fields of an entry of `stationNodes` that the constraint loop of `runPhysicsLoop` reads
or writes, as doubles. -/
structure Node where
  currentRadius : Float64
  targetX : Float64
  targetY : Float64
  x : Float64
  y : Float64
  deriving DecidableEq, Repr

/-- `const padding = 1.5`. -/
def padding : Float64 := 1.5

/-- `const returnSpeed = 0.2`. -/
def returnSpeed : Float64 := 0.2

/-- `const iterations = 8`. -/
def iterations : Nat := 8

/-- Step 2.A for one node that is not the dragged one. -/
def pullNode (node : Node) : Node :=
  { node with
    x := node.x + (node.targetX - node.x) * returnSpeed
    y := node.y + (node.targetY - node.y) * returnSpeed }

/-- Step 2.A over the nodes from index `i` on. -/
def anchorPullFrom (draggedNode : Option Nat) : Nat → List Node → List Node
  | _, [] => []
  | i, node :: rest =>
    (if draggedNode = some i then node else pullNode node) :: anchorPullFrom draggedNode (i + 1) rest

/-- Step 2.A: `stationNodes.forEach(node => { if (node === draggedNode) return; ... })`. -/
def anchorPull (draggedNode : Option Nat) (nodes : List Node) : List Node :=
  anchorPullFrom draggedNode 0 nodes

/-- The test and the arithmetic of the inner collision loop for the nodes `n1`, `n2`:
`none` when `distSq < minDist * minDist` is false, and otherwise `(moveX, moveY)`. -/
def separation (n1 n2 : Node) : Option (Float64 × Float64) :=
  let dx := n2.x - n1.x
  let dy := n2.y - n1.y
  let distSq := dx * dx + dy * dy
  let minDist := n1.currentRadius + n2.currentRadius + padding
  if Float64.lt distSq (minDist * minDist) = true then
    let dist0 := Float64.sqrt distSq
    let dist := if Float64.eq dist0 0 = true then 0.01 else dist0
    let dx1 := if Float64.eq dist0 0 = true then 0.01 else dx
    let penetration := minDist - dist
    let nx := dx1 / dist
    let ny := dy / dist
    let moveX := nx * penetration * 0.5
    let moveY := ny * penetration * 0.5
    some (moveX, moveY)
  else none

/-- The three-way assignment at the end of the inner collision loop, for the nodes `n1`, `n2` at
the indices `i`, `j`. -/
def pushApart (draggedNode : Option Nat) (i j : Nat) (n1 n2 : Node) (move : Float64 × Float64)
    (nodes : List Node) : List Node :=
  if draggedNode = some i then
    nodes.set j { n2 with x := n2.x + move.1 * 2, y := n2.y + move.2 * 2 }
  else if draggedNode = some j then
    nodes.set i { n1 with x := n1.x - move.1 * 2, y := n1.y - move.2 * 2 }
  else
    (nodes.set i { n1 with x := n1.x - move.1, y := n1.y - move.2 }).set j
      { n2 with x := n2.x + move.1, y := n2.y + move.2 }

/-- The body of the inner collision loop for the pair of indices `i < j`. -/
def resolvePair (draggedNode : Option Nat) (i j : Nat) (nodes : List Node) : List Node :=
  match nodes[i]?, nodes[j]? with
  | some n1, some n2 =>
    if Float64.eq n2.currentRadius 0 = true then nodes
    else
      match separation n1 n2 with
      | some move => pushApart draggedNode i j n1 n2 move nodes
      | none => nodes
  | _, _ => nodes

/-- The inner collision loop `for (let j = i + 1; j < stationNodes.length; j++)`. -/
def collideWith (draggedNode : Option Nat) (i : Nat) (nodes : List Node) : List Node :=
  (List.range' (i + 1) (nodes.length - (i + 1))).foldl
    (fun acc j => resolvePair draggedNode i j acc) nodes

/-- One turn of the outer collision loop: skipped when `n1.currentRadius === 0`. -/
def collideStep (draggedNode : Option Nat) (nodes : List Node) (i : Nat) : List Node :=
  match nodes[i]? with
  | some n1 =>
    if Float64.eq n1.currentRadius 0 = true then nodes else collideWith draggedNode i nodes
  | none => nodes

/-- Step 2.B: the outer collision loop `for (let i = 0; i < stationNodes.length; i++)`. -/
def resolveCollisions (draggedNode : Option Nat) (nodes : List Node) : List Node :=
  (List.range nodes.length).foldl (collideStep draggedNode) nodes

/-- One turn of the loop `for (let k = 0; k < iterations; k++)`. -/
def relaxOnce (draggedNode : Option Nat) (nodes : List Node) : List Node :=
  resolveCollisions draggedNode (anchorPull draggedNode nodes)

/-- Step 2 of `runPhysicsLoop`: `n` turns of the constraint loop. -/
def relax (draggedNode : Option Nat) (n : Nat) (nodes : List Node) : List Node :=
  (relaxOnce draggedNode)^[n] nodes

/-- The positions after one call of `runPhysicsLoop` that is not suspended, for nodes that hold a
position and the target pixels of the current projection, and with no node dragged: step 1 then
leaves `x`, `y`, `targetX`, `targetY` as they are, and step 3 writes `prevX`, `prevY` only. -/
def tick (nodes : List Node) : List Node :=
  relax none iterations nodes

/-- The displacement of a node between two states: the larger of `Math.abs` of its displacements
along x and along y. -/
def displacement (before after : Node) : Float64 :=
  Float64.max (Float64.abs (after.x - before.x)) (Float64.abs (after.y - before.y))

/-- The largest displacement of a node between two states of the node list. -/
def largestDisplacement (before after : List Node) : Float64 :=
  (List.zipWith displacement before after).foldl Float64.max 0

/-- The body of the loop `for (const val of dataValues)`, with `min = 0`; an increment
`binCounts[k]++` whose key `k` is not an array index leaves the elements of the array alone. -/
def countValue (binSize max numBins : Float64) (binCounts : List Nat) (val : Float64) :
    List Nat :=
  if Float64.gt val 0 = true then
    let binIndex := Float64.floor ((val - 0) / binSize)
    if Float64.lt binIndex numBins = true then
      match Float64.toIndex binIndex with
      | some k => bump binCounts k
      | none => binCounts
    else if Float64.le val max = true then
      match Float64.toIndex (numBins - 1) with
      | some k => bump binCounts k
      | none => binCounts
    else binCounts
  else if Float64.eq val 0 = true then bump binCounts 0
  else binCounts

/-- The final loop: the bins with a positive count, from bin `i` on, the centre of bin `i` being
`binCenters[i] = min + (i + 0.5) * binSize`. -/
def keepBins (binSize : Float64) : Nat → List Nat → HistogramData Float64
  | _, [] => ⟨[], [], []⟩
  | i, c :: cs =>
    let rest := keepBins binSize (i + 1) cs
    if 0 < c then
      ⟨(0 + (Float64.ofRat i 1 + 0.5) * binSize) :: rest.x, c :: rest.y, binSize :: rest.width⟩
    else rest

/-- The number `numBins` that `createHistogramData` computes for a non-empty array. -/
def numBins (dataValues : List Float64) (binSize : Float64) : Float64 :=
  let min : Float64 := 0
  let dataMax := dataValues.foldl Float64.max (Float64.inf true)
  let max := Float64.max dataMax 1.1
  Float64.ceil ((max - min) / binSize)

/-- The function `createHistogramData` on an array of numbers; `none` stands for the `RangeError`
that `new Array(numBins)` throws when `numBins` exceeds `2^32 - 1`.  The limits of an engine's
resources (the memory for the arrays, the number of arguments that the call
`Math.max(...dataValues)` accepts) are not modelled. -/
def createHistogramData (dataValues : List Float64) (binSize : Float64) :
    Option (HistogramData Float64) :=
  if dataValues = [] then some ⟨[], [], []⟩
  else
    let dataMax := dataValues.foldl Float64.max (Float64.inf true)
    let max := Float64.max dataMax 1.1
    let numBins := numBins dataValues binSize
    if Float64.le numBins 0 = true ∨ Float64.isFinite numBins = false then some ⟨[], [], []⟩
    else if Float64.lt 4294967295 numBins = true then none
    else
      match Float64.toIndex numBins with
      | some length =>
        some (keepBins binSize 0
          (dataValues.foldl (countValue binSize max numBins) (List.replicate length 0)))
      | none => none

/-- Four nodes for examples, placed at their target pixels (as the first tick after `zoomend`
places them): radii 20, 5, 20, 20 and target pixels (1, 6), (6, 0), (6, 6), (3, 6). -/
def fourNodes : List Node :=
  [⟨20, 1, 6, 1, 6⟩, ⟨5, 6, 0, 6, 0⟩, ⟨20, 6, 6, 6, 6⟩, ⟨20, 3, 6, 3, 6⟩]

/-- The nodes of `fourNodes` after one tick. -/
def fourNodesAfter1 : List Node :=
  [⟨20, 1, 6, -27.172633950256245, 28.57242029403047⟩,
    ⟨5, 6, 0, 4.462564364478173, -19.707552748166822⟩,
    ⟨20, 6, 6, 39.845024780418626, 1.2929959787856435⟩,
    ⟨20, 3, 6, -1.134955194640554, 7.842136475350708⟩]

/-- The nodes of `fourNodes` after two ticks. -/
def fourNodesAfter2 : List Node :=
  [⟨20, 1, 6, -28.72176305970195, 27.19472890602553⟩,
    ⟨5, 6, 0, 5.24292804323548, -18.070913493019464⟩,
    ⟨20, 6, 6, 39.60972737074022, -1.5396402170757202⟩,
    ⟨20, 3, 6, -0.13089235427374835, 10.415824804069654⟩]

/-- The nodes of `fourNodes` after three ticks. -/
def fourNodesAfter3 : List Node :=
  [⟨20, 1, 6, -29.183243700489854, 13.529971500642203⟩,
    ⟨5, 6, 0, 3.354894174984019, -6.991728881797511⟩,
    ⟨20, 6, 6, 32.60604639760093, -11.411543474164308⟩,
    ⟨20, 3, 6, 9.222303127904901, 22.873300855319613⟩]

end Binary64

/-! ## Auxiliary notions and sample data used in the statements -/

section Samples

variable {K : Type} [LinearOrderedField K]

/-- The column `k` of a line of `stations.csv`, the empty string when the line has fewer
columns. -/
def column (line : String) (k : Nat) : String :=
  (splitComma line).getD k ""

/-- A line of `stations.csv` qualifies for a node: it has at least 4 comma-separated columns and
neither its latitude (column 1) nor its longitude (column 2) is read as `NaN`. -/
def lineAccepted (parseFloat : String → JSVal K) (line : String) : Bool :=
  decide (4 ≤ (splitComma line).length) && !isNaN (parseFloat (column line 1)) &&
    !isNaN (parseFloat (column line 2))

/-- A node is exempt from the separation step: it is the dragged one, or its radius is 0. -/
def Exempt (d : Option Nat) (nodes : List (Node K)) (k : Nat) : Prop :=
  d = some k ∨ ∃ n, nodes[k]? = some n ∧ n.currentRadius = 0

/-- A node holds finite numbers in its position and in the last rendered position. -/
def Node.Finite (n : Node K) : Prop :=
  isFinite n.x = true ∧ isFinite n.y = true ∧ isFinite n.prevX = true ∧ isFinite n.prevY = true

/-- A node of radius 0 rests at its projected target pixel. -/
def RestsAt (proj : JSVal K × JSVal K → K × K) (latlng : JSVal K × JSVal K) (n : Node K) : Prop :=
  n.currentRadius = 0 ∧ n.originalLatLng = latlng ∧ n.x = num (proj latlng).1 ∧
    n.y = num (proj latlng).2

/-- A node holds finite numbers in its position and in its target pixel. -/
def Sound (n : Node K) : Prop :=
  ∃ a b ta tb : K, n.x = num a ∧ n.y = num b ∧ n.targetX = num ta ∧ n.targetY = num tb

/-- A node as the code leaves it between events: the last rendered position is finite, and the
simulated position is either missing (`x` undefined or `NaN`) or finite. -/
def WellFormed (n : Node K) : Prop :=
  (∃ pa pb : K, n.prevX = num pa ∧ n.prevY = num pb) ∧
    (isNaN n.x = true ∨ ∃ a b : K, n.x = num a ∧ n.y = num b)

/-- The pair `n1`, `n2` is not subject to the separation step: one of the two has radius 0, or
the test `distSq < minDist * minDist` of the inner collision loop is false. -/
def Apart (sqrt : K → K) (n1 n2 : Node K) : Prop :=
  n1.currentRadius = 0 ∨ n2.currentRadius = 0 ∨ separation sqrt n1 n2 = none

/-- No pair of the list is subject to the separation step. -/
def Clear (sqrt : K → K) (nodes : List (Node K)) : Prop :=
  ∀ (i j : Nat) (n1 n2 : Node K), i < j → nodes[i]? = some n1 → nodes[j]? = some n2 →
    Apart sqrt n1 n2

/-- The separation step never fires on the way to the target pixels: after any number `j + 1`
of anchor pulls of every node of the list, no pair is subject to the separation step. -/
def ClearPath (sqrt : K → K) (nodes : List (Node K)) : Prop :=
  ∀ j : Nat, Clear sqrt (nodes.map (pullNode^[j + 1]))

/-- A node without its last rendered position. -/
def forgetPrev (node : Node K) : Node K :=
  { node with prevX := undefined, prevY := undefined }

/-- A node holds a finite position and the target pixel of the projection. -/
def Anchored (proj : JSVal K × JSVal K → K × K) (n : Node K) : Prop :=
  (∃ a b : K, n.x = num a ∧ n.y = num b) ∧ n.targetX = num (proj n.originalLatLng).1 ∧
    n.targetY = num (proj n.originalLatLng).2

/-- The factor by which one tick of 8 anchor-pulls shrinks an offset: `0.8 ^ 8`. -/
def tickFactor : K := (4 / 5) ^ 8

/-- The simulated position of the node at index `k`. -/
def positionAt (w : World K) (k : Nat) : Option (JSVal K × JSVal K) :=
  (w.stationNodes[k]?).map fun n => (n.x, n.y)

/-- The distance between two finite coordinates. -/
def axisGap : JSVal K → JSVal K → Option K
  | num a, num b => some |a - b|
  | _, _ => none

/-- The displacement of the node at index `k` between the states after `t` and after `t + 1`
ticks: the larger of its displacements along x and along y, when these positions are finite. -/
def displacement (sqrt : K → K) (w : World K) (k t : Nat) : Option K :=
  match positionAt (ticks sqrt t w) k, positionAt (ticks sqrt (t + 1) w) k with
  | some (x0, y0), some (x1, y1) =>
    match axisGap x1 x0, axisGap y1 y0 with
    | some gx, some gy => some (Max.max gx gy)
    | _, _ => none
  | _, _ => none

/-- The assumption that `sqrt` is the square root on the non-negative numbers. -/
def IsSqrt (sqrt : K → K) : Prop :=
  ∀ v : K, 0 ≤ v → 0 ≤ sqrt v ∧ sqrt v * sqrt v = v

/-- A projection for examples: longitude and latitude taken as pixel coordinates. -/
def sampleProj : JSVal K × JSVal K → K × K
  | (num lat, num lng) => (lng, lat)
  | _ => (0, 0)

/-- A node for examples, with target pixel `(tx, ty)` under `sampleProj`, radius `r` and
position `(x, y)`; the other fields as `setup` creates them. -/
def sampleNode (id : String) (tx ty r : K) (x y : JSVal K) : Node K :=
  { id := id
    originalLatLng := (num ty, num tx)
    currentRadius := r
    vx := 0
    vy := 0
    prevX := num 0
    prevY := num 0
    targetX := undefined
    targetY := undefined
    x := x
    y := y }

/-- Two nodes of radius 20 for examples, after re-projection: the first at `(x, 0)` with target
pixel `(0, 0)`, the second resting at its target pixel `(65536, 0)`. -/
def crossingPair (x : K) : List (Node K) :=
  [{ sampleNode "a" 0 0 20 (num x) (num 0) with targetX := num 0, targetY := num 0 },
    { sampleNode "b" 65536 0 20 (num 65536) (num 0) with targetX := num 65536, targetY := num 0 }]

/-- Two nodes of radius 20 for examples, 100 px apart: the first at (10, 0) with target pixel
(0, 0), the second at (110, 0) with target pixel (100, 0). -/
def distantPair : List (Node K) :=
  [sampleNode "a" 0 0 20 (num 10) (num 0), sampleNode "b" 100 0 20 (num 110) (num 0)]

/-- Globals for examples: the map is ready, no zoom and no drag is under way. -/
def sampleWorld (nodes : List (Node K)) : World K :=
  { map := some sampleProj
    stationNodes := nodes
    draggedNode := none
    isDragging := false
    wasDragged := false
    dragStartX := 0
    dragStartY := 0
    isZooming := false
    mapDraggingEnabled := true
    pendingTimers := 0 }

end Samples

/-! ## Arithmetic on finite values -/

section Lemmas

set_option linter.unusedSectionVars false

variable {K : Type} [LinearOrderedField K]

@[simp] theorem num_add_num (a b : K) : (num a + num b : JSVal K) = num (a + b) := rfl

@[simp] theorem num_sub_num (a b : K) : (num a - num b : JSVal K) = num (a - b) := by
  show JSVal.add (num a) (JSVal.neg (num b)) = num (a - b)
  simp [JSVal.add, JSVal.neg, sub_eq_add_neg]

@[simp] theorem num_mul_num (a b : K) : (num a * num b : JSVal K) = num (a * b) := rfl

theorem num_div_num (a b : K) (hb : b ≠ 0) : (num a / num b : JSVal K) = num (a / b) := by
  show JSVal.div (num a) (num b) = num (a / b)
  simp [JSVal.div, hb]

@[simp] theorem lt_num_num (a b : K) : JSVal.lt (num a) (num b) = decide (a < b) := rfl

@[simp] theorem gt_num_num (a b : K) : JSVal.gt (num a) (num b) = decide (b < a) := rfl

@[simp] theorem abs_num (a : K) : JSVal.abs (num a) = num |a| := rfl

theorem sqrt_num (sqrt : K → K) (a : K) (ha : 0 ≤ a) : JSVal.sqrt sqrt (num a) = num (sqrt a) := by
  simp [JSVal.sqrt, not_lt.mpr ha]

/-! ## Frame lemmas for the relaxation loops -/

theorem anchorPullFrom_getElem? (d : Option Nat) (nodes : List (Node K)) (s k : Nat) :
    (anchorPullFrom d s nodes)[k]? =
      (nodes[k]?).map fun n => if d = some (s + k) then n else pullNode n := by
  induction nodes generalizing s k with
  | nil => simp [anchorPullFrom]
  | cons n rest ih =>
    cases k with
    | zero => simp [anchorPullFrom]
    | succ k =>
      simp only [anchorPullFrom, List.getElem?_cons_succ, ih]
      have : s + 1 + k = s + (k + 1) := by omega
      rw [this]

theorem anchorPull_getElem? (d : Option Nat) (nodes : List (Node K)) (k : Nat) :
    (anchorPull d nodes)[k]? = (nodes[k]?).map fun n => if d = some k then n else pullNode n := by
  simpa using anchorPullFrom_getElem? d nodes 0 k

theorem anchorPullFrom_length (d : Option Nat) (nodes : List (Node K)) (s : Nat) :
    (anchorPullFrom d s nodes).length = nodes.length := by
  induction nodes generalizing s with
  | nil => rfl
  | cons n rest ih => simp [anchorPullFrom, ih]

theorem anchorPull_length (d : Option Nat) (nodes : List (Node K)) :
    (anchorPull d nodes).length = nodes.length :=
  anchorPullFrom_length d nodes 0

theorem pushApart_length (d : Option Nat) (i j : Nat) (n1 n2 : Node K) (move : JSVal K × JSVal K)
    (nodes : List (Node K)) : (pushApart d i j n1 n2 move nodes).length = nodes.length := by
  unfold pushApart
  split_ifs <;> simp

theorem pushApart_other (d : Option Nat) (i j k : Nat) (n1 n2 : Node K) (move : JSVal K × JSVal K)
    (nodes : List (Node K)) (hi : k ≠ i) (hj : k ≠ j) :
    (pushApart d i j n1 n2 move nodes)[k]? = nodes[k]? := by
  unfold pushApart
  split_ifs <;> simp [List.getElem?_set_ne, Ne.symm hi, Ne.symm hj]

theorem pushApart_dragged (i j k : Nat) (n1 n2 : Node K) (move : JSVal K × JSVal K)
    (nodes : List (Node K)) (hij : i ≠ j) :
    (pushApart (some k) i j n1 n2 move nodes)[k]? = nodes[k]? := by
  unfold pushApart
  split_ifs with h1 h2
  · have : k = i := Option.some.inj h1
    subst this
    simp [List.getElem?_set_ne, Ne.symm hij]
  · have : k = j := Option.some.inj h2
    subst this
    simp [List.getElem?_set_ne, hij]
  · have hi : k ≠ i := fun h => h1 (by rw [h])
    have hj : k ≠ j := fun h => h2 (by rw [h])
    simp [List.getElem?_set_ne, Ne.symm hi, Ne.symm hj]

theorem resolvePair_length (sqrt : K → K) (d : Option Nat) (i j : Nat) (nodes : List (Node K)) :
    (resolvePair sqrt d i j nodes).length = nodes.length := by
  unfold resolvePair
  split
  · split_ifs
    · rfl
    · split
      · exact pushApart_length _ _ _ _ _ _ _
      · rfl
  · rfl

/-- A pair resolution leaves every node other than the two of the pair as it is. -/
theorem resolvePair_other (sqrt : K → K) (d : Option Nat) (i j k : Nat) (nodes : List (Node K))
    (hi : k ≠ i) (hj : k ≠ j) : (resolvePair sqrt d i j nodes)[k]? = nodes[k]? := by
  unfold resolvePair
  split
  · split_ifs
    · rfl
    · split
      · exact pushApart_other _ _ _ _ _ _ _ _ hi hj
      · rfl
  · rfl

/-- A pair resolution leaves the dragged node as it is. -/
theorem resolvePair_dragged (sqrt : K → K) (k i j : Nat) (nodes : List (Node K)) (hij : i ≠ j) :
    (resolvePair sqrt (some k) i j nodes)[k]? = nodes[k]? := by
  unfold resolvePair
  split
  · split_ifs
    · rfl
    · split
      · exact pushApart_dragged _ _ _ _ _ _ _ hij
      · rfl
  · rfl

/-- A pair resolution leaves its second node as it is when that node has radius 0. -/
theorem resolvePair_zero_right (sqrt : K → K) (d : Option Nat) (i j : Nat) (nodes : List (Node K))
    (n : Node K) (hn : nodes[j]? = some n) (hr : n.currentRadius = 0) :
    resolvePair sqrt d i j nodes = nodes := by
  unfold resolvePair
  split
  · next n1 n2 h1 h2 =>
    rw [hn] at h2
    cases h2
    simp [hr]
  · rfl

theorem resolvePair_exempt (sqrt : K → K) (d : Option Nat) (i j k : Nat) (nodes : List (Node K))
    (hij : i ≠ j) (hki : k ≠ i) (hk : Exempt d nodes k) :
    (resolvePair sqrt d i j nodes)[k]? = nodes[k]? := by
  rcases hk with hk | ⟨n, hn, hr⟩
  · subst hk
    exact resolvePair_dragged sqrt k i j nodes hij
  · by_cases hj : k = j
    · subst hj
      rw [resolvePair_zero_right sqrt d i k nodes n hn hr]
    · exact resolvePair_other sqrt d i j k nodes hki hj

theorem foldl_getElem?_eq {α : Type} (f : List α → Nat → List α) (k : Nat) (l : List α)
    (js : List Nat)
    (h : ∀ acc j, j ∈ js → acc[k]? = l[k]? → (f acc j)[k]? = l[k]?) :
    (js.foldl f l)[k]? = l[k]? := by
  suffices H : ∀ acc : List α, acc[k]? = l[k]? → (js.foldl f acc)[k]? = l[k]? from H l rfl
  induction js with
  | nil => intro acc hacc; simpa using hacc
  | cons j js ih =>
    intro acc hacc
    simp only [List.foldl_cons]
    exact ih (fun acc2 j2 hj2 h2 => h acc2 j2 (List.mem_cons_of_mem _ hj2) h2) _
      (h acc j (List.mem_cons_self _ _) hacc)

theorem exempt_congr (d : Option Nat) (l acc : List (Node K)) (k : Nat) (h : acc[k]? = l[k]?)
    (hk : Exempt d l k) : Exempt d acc k := by
  rcases hk with hk | ⟨n, hn, hr⟩
  · exact Or.inl hk
  · exact Or.inr ⟨n, by rw [h, hn], hr⟩

theorem collideWith_dragged (sqrt : K → K) (i k : Nat) (nodes : List (Node K)) :
    (collideWith sqrt (some k) i nodes)[k]? = nodes[k]? := by
  unfold collideWith
  apply foldl_getElem?_eq
  intro acc j hj hacc
  have hij : i ≠ j := by
    have := (List.mem_range'_1.mp hj).1
    omega
  rw [resolvePair_dragged sqrt k i j acc hij, hacc]

theorem collideWith_exempt (sqrt : K → K) (d : Option Nat) (i k : Nat) (nodes : List (Node K))
    (hki : k ≠ i) (hk : Exempt d nodes k) :
    (collideWith sqrt d i nodes)[k]? = nodes[k]? := by
  unfold collideWith
  apply foldl_getElem?_eq
  intro acc j hj hacc
  have hij : i ≠ j := by
    have := (List.mem_range'_1.mp hj).1
    omega
  rw [resolvePair_exempt sqrt d i j k acc hij hki (exempt_congr d nodes acc k hacc hk), hacc]

theorem collideStep_exempt (sqrt : K → K) (d : Option Nat) (i k : Nat) (nodes : List (Node K))
    (hk : Exempt d nodes k) : (collideStep sqrt d nodes i)[k]? = nodes[k]? := by
  unfold collideStep
  split
  · next n1 h1 =>
    split_ifs with hr
    · rfl
    · by_cases hki : k = i
      · subst hki
        rcases hk with hk | ⟨n, hn, hr0⟩
        · subst hk
          exact collideWith_dragged sqrt k k nodes
        · rw [h1] at hn
          cases hn
          exact absurd hr0 hr
      · exact collideWith_exempt sqrt d i k nodes hki hk
  · rfl

theorem resolveCollisions_exempt (sqrt : K → K) (d : Option Nat) (k : Nat) (nodes : List (Node K))
    (hk : Exempt d nodes k) : (resolveCollisions sqrt d nodes)[k]? = nodes[k]? := by
  unfold resolveCollisions
  apply foldl_getElem?_eq
  intro acc i _ hacc
  rw [collideStep_exempt sqrt d i k acc (exempt_congr d nodes acc k hacc hk), hacc]

/-! ## Suspended ticks (C2) -/

theorem runPhysicsLoop_suspended (sqrt : K → K) (w : World K)
    (h : w.isZooming = true ∨ w.map = none ∨ w.stationNodes = []) :
    runPhysicsLoop sqrt w = ⟨w, [], true⟩ := by
  unfold runPhysicsLoop
  cases hm : w.map with
  | none => rfl
  | some proj =>
    rcases h with h | h | h
    · simp [h]
    · rw [hm] at h
      cases h
    · simp [h]

/-- C2: a tick that runs while `isZooming` is true, or before the map is ready, or with an empty
node list, changes nothing in the globals (so no node's `x`, `y`, `targetX`, `targetY`, `prevX`
or `prevY`), makes no marker position update, and reschedules the next tick. -/
theorem suspended_tick_is_noop (sqrt : K → K) (w : World K)
    (h : w.isZooming = true ∨ w.map = none ∨ w.stationNodes = []) :
    (runPhysicsLoop sqrt w).world = w ∧ (runPhysicsLoop sqrt w).updates = [] ∧
      (runPhysicsLoop sqrt w).rescheduled = true := by
  rw [runPhysicsLoop_suspended sqrt w h]
  exact ⟨rfl, rfl, rfl⟩

/-- C2 at a concrete input: a tick during a zoom over one fresh node. -/
theorem suspended_tick_is_noop_witness :
    (runPhysicsLoop Rat.sqrt
          (onZoomStart (sampleWorld [sampleNode "a" (10 : ℚ) 20 4 undefined undefined]))).world =
        onZoomStart (sampleWorld [sampleNode "a" (10 : ℚ) 20 4 undefined undefined]) ∧
      (runPhysicsLoop Rat.sqrt
          (onZoomStart (sampleWorld [sampleNode "a" (10 : ℚ) 20 4 undefined undefined]))).updates =
        [] ∧
      (runPhysicsLoop Rat.sqrt
          (onZoomStart
            (sampleWorld [sampleNode "a" (10 : ℚ) 20 4 undefined undefined]))).rescheduled = true :=
  suspended_tick_is_noop Rat.sqrt _ (Or.inl rfl)

/-! ## Re-seeding after a zoom (C3) -/

/-- A tick that is not suspended: the nodes are relaxed, then committed. -/
theorem runPhysicsLoop_active (sqrt : K → K) (proj : JSVal K × JSVal K → K × K) (w : World K)
    (hmap : w.map = some proj) (hne : w.stationNodes ≠ []) (hz : w.isZooming = false) :
    runPhysicsLoop sqrt w =
      ⟨{ w with stationNodes := (relaxedNodes sqrt proj w).map commitNode },
        updatesFrom 0 (relaxedNodes sqrt proj w), true⟩ := by
  unfold runPhysicsLoop
  rw [hmap]
  simp only [List.length_eq_zero, hne, hz, if_false, Bool.false_eq_true]

theorem reproject_erased_x (proj : JSVal K × JSVal K → K × K) (n : Node K) :
    reproject proj { n with x := undefined } = reproject proj (atTarget proj n) := by
  simp [reproject, atTarget, JSVal.isNaN]

theorem relaxedNodes_congr (sqrt : K → K) (proj : JSVal K × JSVal K → K × K) (v w : World K)
    (hd : v.draggedNode = w.draggedNode)
    (hs : v.stationNodes.map (reproject proj) = w.stationNodes.map (reproject proj)) :
    relaxedNodes sqrt proj v = relaxedNodes sqrt proj w := by
  unfold relaxedNodes
  rw [hd, hs]

theorem relaxedNodes_onZoomEnd (sqrt : K → K) (proj : JSVal K × JSVal K → K × K) (w : World K) :
    relaxedNodes sqrt proj (onZoomEnd w) =
      relaxedNodes sqrt proj
        { w with isZooming := false, stationNodes := w.stationNodes.map (atTarget proj) } := by
  apply relaxedNodes_congr
  · rfl
  · simp only [onZoomEnd, List.map_map]
    apply List.map_congr_left
    intro n _
    exact reproject_erased_x proj n

theorem runPhysicsLoop_onZoomEnd (sqrt : K → K) (proj : JSVal K × JSVal K → K × K) (w : World K)
    (hmap : w.map = some proj) (hne : w.stationNodes ≠ []) :
    (runPhysicsLoop sqrt (onZoomEnd w)).world.stationNodes =
        (runPhysicsLoop sqrt
          { w with isZooming := false, stationNodes := w.stationNodes.map (atTarget proj) }).world.stationNodes ∧
      (runPhysicsLoop sqrt (onZoomEnd w)).updates =
        (runPhysicsLoop sqrt
          { w with isZooming := false, stationNodes := w.stationNodes.map (atTarget proj) }).updates := by
  have h2 : (onZoomEnd w).stationNodes ≠ [] := by
    simpa [onZoomEnd] using hne
  have h3 : w.stationNodes.map (atTarget proj) ≠ [] := by
    simpa using hne
  rw [runPhysicsLoop_active sqrt proj (onZoomEnd w) hmap h2 rfl,
    runPhysicsLoop_active sqrt proj
      { w with isZooming := false, stationNodes := w.stationNodes.map (atTarget proj) } hmap h3 rfl,
    relaxedNodes_onZoomEnd]
  exact ⟨rfl, rfl⟩

/-- C3: once the map is ready, the tick that follows the `zoomend` handler ends with the nodes
and makes the marker updates of a tick started, outside any zoom, with every node exactly at its
freshly projected target pixel; hence two states that differ only in the simulated `x` and `y`
of their nodes end that tick with the same nodes and the same updates. -/
theorem tick_after_zoomend_reseeds (sqrt : K → K) (proj : JSVal K × JSVal K → K × K) (w : World K)
    (hmap : w.map = some proj) (hne : w.stationNodes ≠ []) :
    ((runPhysicsLoop sqrt (onZoomEnd w)).world.stationNodes =
        (runPhysicsLoop sqrt
          { w with isZooming := false, stationNodes := w.stationNodes.map (atTarget proj) }).world.stationNodes ∧
      (runPhysicsLoop sqrt (onZoomEnd w)).updates =
        (runPhysicsLoop sqrt
          { w with isZooming := false, stationNodes := w.stationNodes.map (atTarget proj) }).updates) ∧
    ∀ nodes : List (Node K), nodes.map erasePosition = w.stationNodes.map erasePosition →
      (runPhysicsLoop sqrt (onZoomEnd { w with stationNodes := nodes })).world.stationNodes =
          (runPhysicsLoop sqrt (onZoomEnd w)).world.stationNodes ∧
        (runPhysicsLoop sqrt (onZoomEnd { w with stationNodes := nodes })).updates =
          (runPhysicsLoop sqrt (onZoomEnd w)).updates := by
  have key := runPhysicsLoop_onZoomEnd sqrt proj w hmap hne
  refine ⟨key, ?_⟩
  intro nodes hnodes
  have hne2 : nodes ≠ [] := by
    intro h
    rw [h] at hnodes
    exact hne (List.map_eq_nil_iff.mp hnodes.symm)
  have key2 := runPhysicsLoop_onZoomEnd sqrt proj { w with stationNodes := nodes } hmap hne2
  have hat : nodes.map (atTarget proj) = w.stationNodes.map (atTarget proj) := by
    have h := congrArg (List.map (atTarget proj)) hnodes
    simp only [List.map_map] at h
    exact h
  rw [key2.1, key2.2, key.1, key.2]
  constructor <;> simp only [hat]

/-- C3 at a concrete input: one node of radius 4 with target pixel (10, 20), left at (3, 5)
before the zoom. -/
theorem tick_after_zoomend_reseeds_witness :
    (sampleWorld [sampleNode "a" (10 : ℚ) 20 4 (num 3) (num 5)]).map = some sampleProj ∧
      (runPhysicsLoop Rat.sqrt
          (onZoomEnd (sampleWorld [sampleNode "a" (10 : ℚ) 20 4 (num 3) (num 5)]))).world.stationNodes =
        (runPhysicsLoop Rat.sqrt
          { sampleWorld [sampleNode "a" (10 : ℚ) 20 4 (num 3) (num 5)] with
            isZooming := false
            stationNodes :=
              (sampleWorld [sampleNode "a" (10 : ℚ) 20 4 (num 3) (num 5)]).stationNodes.map
                (atTarget sampleProj) }).world.stationNodes :=
  ⟨rfl, (tick_after_zoomend_reseeds Rat.sqrt sampleProj
    (sampleWorld [sampleNode "a" (10 : ℚ) 20 4 (num 3) (num 5)]) rfl
    (by simp [sampleWorld])).1.1⟩

/-! ## The dragged node and the nodes of radius 0 (C4, C6) -/

theorem relaxOnce_dragged (sqrt : K → K) (k : Nat) (nodes : List (Node K)) :
    (relaxOnce sqrt (some k) nodes)[k]? = nodes[k]? := by
  unfold relaxOnce
  rw [resolveCollisions_exempt sqrt (some k) k _ (Or.inl rfl), anchorPull_getElem?]
  cases nodes[k]? <;> simp

theorem iterate_getElem?_eq {α : Type} (f : List α → List α) (k : Nat) (v : Option α)
    (h : ∀ l : List α, l[k]? = v → (f l)[k]? = v) (n : Nat) (l : List α) (hl : l[k]? = v) :
    (f^[n] l)[k]? = v := by
  induction n generalizing l with
  | zero => simpa using hl
  | succ n ih =>
    rw [Function.iterate_succ_apply]
    exact ih (f l) (h l hl)

theorem relax_dragged (sqrt : K → K) (k n : Nat) (nodes : List (Node K)) :
    (relax sqrt (some k) n nodes)[k]? = nodes[k]? := by
  unfold relax
  apply iterate_getElem?_eq _ k _ _ n nodes rfl
  intro l hl
  rw [relaxOnce_dragged, hl]

theorem commitNode_x (n : Node K) : (commitNode n).x = n.x := by
  unfold commitNode
  split_ifs <;> rfl

theorem commitNode_y (n : Node K) : (commitNode n).y = n.y := by
  unfold commitNode
  split_ifs <;> rfl

theorem commitNode_currentRadius (n : Node K) : (commitNode n).currentRadius = n.currentRadius := by
  unfold commitNode
  split_ifs <;> rfl

theorem commitNode_originalLatLng (n : Node K) :
    (commitNode n).originalLatLng = n.originalLatLng := by
  unfold commitNode
  split_ifs <;> rfl

theorem reproject_initialised (proj : JSVal K × JSVal K → K × K) (n : Node K)
    (hx : n.x ≠ undefined) (hnan : isNaN n.x = false) :
    reproject proj n =
      { n with targetX := num (proj n.originalLatLng).1, targetY := num (proj n.originalLatLng).2 } := by
  simp [reproject, hx, hnan]

/-- C4: when `draggedNode` is a node whose position is initialised (`x` neither undefined nor
`NaN`), a call of `runPhysicsLoop` leaves that node's simulated `x` and `y` as they were,
whatever the other nodes are and whatever it overlaps. -/
theorem dragged_node_keeps_position (sqrt : K → K) (w : World K) (k : Nat) (n : Node K)
    (hd : w.draggedNode = some k) (hk : w.stationNodes[k]? = some n)
    (hx : n.x ≠ undefined) (hnan : isNaN n.x = false) :
    ∃ n1 : Node K, (runPhysicsLoop sqrt w).world.stationNodes[k]? = some n1 ∧
      n1.x = n.x ∧ n1.y = n.y := by
  have hne : w.stationNodes ≠ [] := by
    intro h
    rw [h] at hk
    simp at hk
  by_cases hz : w.isZooming = true
  · rw [runPhysicsLoop_suspended sqrt w (Or.inl hz)]
    exact ⟨n, hk, rfl, rfl⟩
  · cases hm : w.map with
    | none =>
      rw [runPhysicsLoop_suspended sqrt w (Or.inr (Or.inl hm))]
      exact ⟨n, hk, rfl, rfl⟩
    | some proj =>
      rw [runPhysicsLoop_active sqrt proj w hm hne (by simpa using hz)]
      have h1 : (relaxedNodes sqrt proj w)[k]? = some (reproject proj n) := by
        unfold relaxedNodes
        rw [hd, relax_dragged, List.getElem?_map, hk]
        rfl
      refine ⟨commitNode (reproject proj n), ?_, ?_, ?_⟩
      · simp only [List.getElem?_map, h1, Option.map_some']
      · rw [commitNode_x, reproject_initialised proj n hx hnan]
      · rw [commitNode_y, reproject_initialised proj n hx hnan]

/-- C4 at a concrete input: the dragged node overlaps a second node at the same target pixel. -/
theorem dragged_node_keeps_position_witness :
    ∃ n1 : Node ℚ,
      (runPhysicsLoop Rat.sqrt
          { sampleWorld
              [sampleNode "a" (10 : ℚ) 20 4 (num 3) (num 5),
                sampleNode "b" (10 : ℚ) 20 4 (num 4) (num 5)] with
            draggedNode := some 0 }).world.stationNodes[0]? = some n1 ∧
        n1.x = num 3 ∧ n1.y = num 5 :=
  dragged_node_keeps_position Rat.sqrt _ 0 (sampleNode "a" (10 : ℚ) 20 4 (num 3) (num 5))
    rfl rfl (by simp [sampleNode]) rfl

theorem pullNode_at_target (n : Node K) (a b : K) (hx : n.x = num a) (hy : n.y = num b)
    (htx : n.targetX = num a) (hty : n.targetY = num b) : pullNode n = n := by
  cases n
  simp only at hx hy htx hty
  subst hx hy htx hty
  simp [pullNode]

theorem relaxOnce_zero_radius (sqrt : K → K) (d : Option Nat) (k : Nat) (n : Node K) (a b : K)
    (hr : n.currentRadius = 0) (hx : n.x = num a) (hy : n.y = num b)
    (htx : n.targetX = num a) (hty : n.targetY = num b)
    (nodes : List (Node K)) (hk : nodes[k]? = some n) :
    (relaxOnce sqrt d nodes)[k]? = some n := by
  have hp : (anchorPull d nodes)[k]? = some n := by
    rw [anchorPull_getElem?, hk]
    simp [pullNode_at_target n a b hx hy htx hty]
  unfold relaxOnce
  rw [resolveCollisions_exempt sqrt d k _ (Or.inr ⟨n, hp, hr⟩), hp]

theorem relax_zero_radius (sqrt : K → K) (d : Option Nat) (k : Nat) (n : Node K) (a b : K)
    (hr : n.currentRadius = 0) (hx : n.x = num a) (hy : n.y = num b)
    (htx : n.targetX = num a) (hty : n.targetY = num b)
    (m : Nat) (nodes : List (Node K)) (hk : nodes[k]? = some n) :
    (relax sqrt d m nodes)[k]? = some n := by
  unfold relax
  exact iterate_getElem?_eq _ k _
    (fun l hl => relaxOnce_zero_radius sqrt d k n a b hr hx hy htx hty l hl) m nodes hk

theorem runPhysicsLoop_restsAt (sqrt : K → K) (proj : JSVal K × JSVal K → K × K) (w : World K)
    (k : Nat) (latlng : JSVal K × JSVal K) (hmap : w.map = some proj)
    (h : ∃ n, w.stationNodes[k]? = some n ∧ RestsAt proj latlng n) :
    (runPhysicsLoop sqrt w).world.map = some proj ∧
      ∃ n, (runPhysicsLoop sqrt w).world.stationNodes[k]? = some n ∧ RestsAt proj latlng n := by
  obtain ⟨n, hk, hr, hl, hx, hy⟩ := h
  have hne : w.stationNodes ≠ [] := by
    intro h
    rw [h] at hk
    simp at hk
  by_cases hz : w.isZooming = true
  · rw [runPhysicsLoop_suspended sqrt w (Or.inl hz)]
    exact ⟨hmap, n, hk, hr, hl, hx, hy⟩
  · rw [runPhysicsLoop_active sqrt proj w hmap hne (by simpa using hz)]
    refine ⟨hmap, ?_⟩
    have hrep : reproject proj n =
        { n with targetX := num (proj latlng).1, targetY := num (proj latlng).2 } := by
      rw [reproject_initialised proj n (by rw [hx]; simp) (by rw [hx]; rfl), hl]
    have h1 : (relaxedNodes sqrt proj w)[k]? = some (reproject proj n) := by
      unfold relaxedNodes
      apply relax_zero_radius sqrt _ k (reproject proj n) (proj latlng).1 (proj latlng).2
      · rw [hrep]; exact hr
      · rw [hrep]; exact hx
      · rw [hrep]; exact hy
      · rw [hrep]
      · rw [hrep]
      · rw [List.getElem?_map, hk]; rfl
    refine ⟨commitNode (reproject proj n), ?_, ?_, ?_, ?_, ?_⟩
    · simp only [List.getElem?_map, h1, Option.map_some']
    · rw [commitNode_currentRadius, hrep]; exact hr
    · rw [commitNode_originalLatLng, hrep]; exact hl
    · rw [commitNode_x, hrep]; exact hx
    · rw [commitNode_y, hrep]; exact hy

theorem ticks_restsAt (sqrt : K → K) (proj : JSVal K × JSVal K → K × K) (k : Nat)
    (latlng : JSVal K × JSVal K) (t : Nat) (w : World K) (hmap : w.map = some proj)
    (h : ∃ n, w.stationNodes[k]? = some n ∧ RestsAt proj latlng n) :
    ∃ n, (ticks sqrt t w).stationNodes[k]? = some n ∧ RestsAt proj latlng n := by
  unfold ticks
  induction t generalizing w with
  | zero => simpa using h
  | succ t ih =>
    rw [Function.iterate_succ_apply]
    have := runPhysicsLoop_restsAt sqrt proj w k latlng hmap h
    exact ih _ this.1 this.2

/-- C6: once the map is ready, a node of radius 0 whose simulated position is its target pixel
is still at that pixel after any number of ticks with the same projection, whatever the other
nodes are and whichever node is dragged; in particular two such nodes with the same anchor stay
coincident at the projection of that anchor. -/
theorem zero_radius_node_stays_at_target (sqrt : K → K) (proj : JSVal K × JSVal K → K × K)
    (w : World K) (hmap : w.map = some proj) (k : Nat) (n : Node K)
    (hk : w.stationNodes[k]? = some n) (hr : n.currentRadius = 0)
    (hx : n.x = num (proj n.originalLatLng).1) (hy : n.y = num (proj n.originalLatLng).2)
    (t : Nat) :
    (∃ n1 : Node K, (ticks sqrt t w).stationNodes[k]? = some n1 ∧
      n1.x = num (proj n.originalLatLng).1 ∧ n1.y = num (proj n.originalLatLng).2) ∧
    ∀ (k2 : Nat) (n2 : Node K), w.stationNodes[k2]? = some n2 → n2.currentRadius = 0 →
      n2.originalLatLng = n.originalLatLng → n2.x = n.x → n2.y = n.y →
      ∃ n1 m2 : Node K, (ticks sqrt t w).stationNodes[k]? = some n1 ∧
        (ticks sqrt t w).stationNodes[k2]? = some m2 ∧ m2.x = n1.x ∧ m2.y = n1.y ∧
        n1.x = num (proj n.originalLatLng).1 ∧ n1.y = num (proj n.originalLatLng).2 := by
  obtain ⟨n1, h1, -, -, h1x, h1y⟩ :=
    ticks_restsAt sqrt proj k n.originalLatLng t w hmap ⟨n, hk, hr, rfl, hx, hy⟩
  refine ⟨⟨n1, h1, h1x, h1y⟩, ?_⟩
  intro k2 n2 hk2 hr2 hl2 hx2 hy2
  obtain ⟨m2, h2, -, -, h2x, h2y⟩ :=
    ticks_restsAt sqrt proj k2 n.originalLatLng t w hmap
      ⟨n2, hk2, hr2, hl2, by rw [hx2, hx], by rw [hy2, hy]⟩
  exact ⟨n1, m2, h1, h2, by rw [h2x, h1x], by rw [h2y, h1y], h1x, h1y⟩

/-- C6 at a concrete input: a node of radius 0 at its target pixel (10, 20), overlapped by a
node of radius 4, after three ticks. -/
theorem zero_radius_node_stays_at_target_witness :
    ∃ n1 : Node ℚ,
      (ticks Rat.sqrt 3
          (sampleWorld
            [sampleNode "a" (10 : ℚ) 20 0 (num 10) (num 20),
              sampleNode "b" (11 : ℚ) 20 4 (num 11) (num 20)])).stationNodes[0]? = some n1 ∧
        n1.x = num 10 ∧ n1.y = num 20 :=
  (zero_radius_node_stays_at_target Rat.sqrt sampleProj
    (sampleWorld
      [sampleNode "a" (10 : ℚ) 20 0 (num 10) (num 20),
        sampleNode "b" (11 : ℚ) 20 4 (num 11) (num 20)])
    rfl 0 (sampleNode "a" (10 : ℚ) 20 0 (num 10) (num 20)) rfl rfl rfl rfl 3).1

/-! ## Re-seeding of malformed positions (C10) -/

/-- C10 as stated fails: a node whose `y` is `NaN` while its `x` is a number is not re-seeded
by the re-projection step, and neither is a node whose `x` is infinite; the non-finite
coordinate is among the nodes handed to the relaxation iterations. -/
theorem malformed_position_not_reseeded :
    (((sampleWorld
          [sampleNode "a" (10 : ℚ) 20 4 (num 3) nan,
            sampleNode "b" (30 : ℚ) 20 4 posInf (num 5)]).stationNodes.map
        (reproject sampleProj)).map fun n => (n.x, n.y)) =
      [(num 3, nan), (posInf, num 5)] := by
  simp [sampleWorld, sampleNode, reproject, JSVal.isNaN]

/-- C10 as amended: the re-projection step re-seeds both `x` and `y` to the target pixel exactly
for the nodes whose `x` is undefined or `NaN`; every other node keeps its `x` and `y`. -/
theorem reproject_reseeds_iff (proj : JSVal K × JSVal K → K × K) (n : Node K) :
    ((n.x = undefined ∨ n.x = nan) →
      (reproject proj n).x = num (proj n.originalLatLng).1 ∧
        (reproject proj n).y = num (proj n.originalLatLng).2) ∧
    (¬ (n.x = undefined ∨ n.x = nan) →
      (reproject proj n).x = n.x ∧ (reproject proj n).y = n.y) := by
  constructor
  · rintro (h | h) <;> simp [reproject, h, JSVal.isNaN]
  · intro h
    have h1 : n.x ≠ undefined := fun e => h (Or.inl e)
    have h2 : isNaN n.x = false := by
      cases hx : n.x <;> simp_all [JSVal.isNaN]
    rw [reproject_initialised proj n h1 h2]
    exact ⟨rfl, rfl⟩

/-- C10 as amended, at concrete inputs: a node freshly deleted `x` is re-seeded to (10, 20). -/
theorem reproject_reseeds_iff_witness :
    (reproject sampleProj (sampleNode "a" (10 : ℚ) 20 4 undefined (num 5))).x = num 10 ∧
      (reproject sampleProj (sampleNode "a" (10 : ℚ) 20 4 undefined (num 5))).y = num 20 :=
  (reproject_reseeds_iff sampleProj (sampleNode "a" (10 : ℚ) 20 4 undefined (num 5))).1
    (Or.inl rfl)

/-! ## Finite positions stay finite -/

theorem separation_num (sqrt : K → K) (n1 n2 : Node K) (x1 y1 x2 y2 : K)
    (h1x : n1.x = num x1) (h1y : n1.y = num y1) (h2x : n2.x = num x2) (h2y : n2.y = num y2) :
    separation sqrt n1 n2 =
      if (x2 - x1) * (x2 - x1) + (y2 - y1) * (y2 - y1) <
          (n1.currentRadius + n2.currentRadius + padding) *
            (n1.currentRadius + n2.currentRadius + padding) then
        some
          (num ((if sqrt ((x2 - x1) * (x2 - x1) + (y2 - y1) * (y2 - y1)) = 0 then 1 / 100
                else x2 - x1) /
              (if sqrt ((x2 - x1) * (x2 - x1) + (y2 - y1) * (y2 - y1)) = 0 then 1 / 100
                else sqrt ((x2 - x1) * (x2 - x1) + (y2 - y1) * (y2 - y1))) *
              (n1.currentRadius + n2.currentRadius + padding -
                (if sqrt ((x2 - x1) * (x2 - x1) + (y2 - y1) * (y2 - y1)) = 0 then 1 / 100
                  else sqrt ((x2 - x1) * (x2 - x1) + (y2 - y1) * (y2 - y1)))) *
              (1 / 2)),
            num ((y2 - y1) /
              (if sqrt ((x2 - x1) * (x2 - x1) + (y2 - y1) * (y2 - y1)) = 0 then 1 / 100
                else sqrt ((x2 - x1) * (x2 - x1) + (y2 - y1) * (y2 - y1))) *
              (n1.currentRadius + n2.currentRadius + padding -
                (if sqrt ((x2 - x1) * (x2 - x1) + (y2 - y1) * (y2 - y1)) = 0 then 1 / 100
                  else sqrt ((x2 - x1) * (x2 - x1) + (y2 - y1) * (y2 - y1)))) *
              (1 / 2)))
      else none := by
  have hv : 0 ≤ (x2 - x1) * (x2 - x1) + (y2 - y1) * (y2 - y1) :=
    add_nonneg (mul_self_nonneg _) (mul_self_nonneg _)
  unfold separation
  simp only [h1x, h1y, h2x, h2y, num_sub_num, num_mul_num, num_add_num, lt_num_num,
    decide_eq_true_eq, sqrt_num sqrt _ hv, JSVal.num.injEq]
  split_ifs with hlt h0
  · simp only [num_div_num _ _ (by norm_num : (1 / 100 : K) ≠ 0), num_sub_num, num_mul_num]
  · simp only [num_div_num _ _ h0, num_sub_num, num_mul_num]
  · rfl

theorem separation_finite (sqrt : K → K) (n1 n2 : Node K) (h1 : Sound n1) (h2 : Sound n2) :
    separation sqrt n1 n2 = none ∨ ∃ mx my : K, separation sqrt n1 n2 = some (num mx, num my) := by
  obtain ⟨x1, y1, -, -, h1x, h1y, -, -⟩ := h1
  obtain ⟨x2, y2, -, -, h2x, h2y, -, -⟩ := h2
  rw [separation_num sqrt n1 n2 x1 y1 x2 y2 h1x h1y h2x h2y]
  by_cases hlt : (x2 - x1) * (x2 - x1) + (y2 - y1) * (y2 - y1) <
      (n1.currentRadius + n2.currentRadius + padding) *
        (n1.currentRadius + n2.currentRadius + padding)
  · rw [if_pos hlt]
    exact Or.inr ⟨_, _, rfl⟩
  · rw [if_neg hlt]
    exact Or.inl rfl

theorem pullNode_sound (n : Node K) (h : Sound n) : Sound (pullNode n) := by
  obtain ⟨a, b, ta, tb, hx, hy, htx, hty⟩ := h
  exact ⟨a + (ta - a) * returnSpeed, b + (tb - b) * returnSpeed, ta, tb,
    by simp [pullNode, hx, htx], by simp [pullNode, hy, hty], htx, hty⟩

theorem anchorPullFrom_sound (d : Option Nat) (s : Nat) (nodes : List (Node K))
    (h : ∀ n ∈ nodes, Sound n) : ∀ n ∈ anchorPullFrom d s nodes, Sound n := by
  induction nodes generalizing s with
  | nil => simp [anchorPullFrom]
  | cons m rest ih =>
    intro n hn
    simp only [anchorPullFrom, List.mem_cons] at hn
    rcases hn with hn | hn
    · subst hn
      split_ifs
      · exact h m (List.mem_cons_self _ _)
      · exact pullNode_sound m (h m (List.mem_cons_self _ _))
    · exact ih (s + 1) (fun n hn => h n (List.mem_cons_of_mem _ hn)) n hn

theorem mem_set_sound (nodes : List (Node K)) (i : Nat) (m : Node K)
    (h : ∀ n ∈ nodes, Sound n) (hm : Sound m) : ∀ n ∈ nodes.set i m, Sound n := by
  intro n hn
  rcases List.mem_or_eq_of_mem_set hn with hn | hn
  · exact h n hn
  · rw [hn]; exact hm

theorem pushApart_sound (d : Option Nat) (i j : Nat) (n1 n2 : Node K) (mx my : K)
    (nodes : List (Node K)) (h : ∀ n ∈ nodes, Sound n) (h1 : Sound n1) (h2 : Sound n2) :
    ∀ n ∈ pushApart d i j n1 n2 (num mx, num my) nodes, Sound n := by
  obtain ⟨x1, y1, ta1, tb1, h1x, h1y, h1tx, h1ty⟩ := h1
  obtain ⟨x2, y2, ta2, tb2, h2x, h2y, h2tx, h2ty⟩ := h2
  unfold pushApart
  split_ifs
  · exact mem_set_sound _ _ _ h
      ⟨x2 + mx * 2, y2 + my * 2, ta2, tb2, by simp [h2x], by simp [h2y], h2tx, h2ty⟩
  · exact mem_set_sound _ _ _ h
      ⟨x1 - mx * 2, y1 - my * 2, ta1, tb1, by simp [h1x], by simp [h1y], h1tx, h1ty⟩
  · exact mem_set_sound _ _ _
      (mem_set_sound _ _ _ h ⟨x1 - mx, y1 - my, ta1, tb1, by simp [h1x], by simp [h1y], h1tx, h1ty⟩)
      ⟨x2 + mx, y2 + my, ta2, tb2, by simp [h2x], by simp [h2y], h2tx, h2ty⟩

theorem resolvePair_sound (sqrt : K → K) (d : Option Nat) (i j : Nat) (nodes : List (Node K))
    (h : ∀ n ∈ nodes, Sound n) : ∀ n ∈ resolvePair sqrt d i j nodes, Sound n := by
  unfold resolvePair
  split
  · next n1 n2 hi hj =>
    have h1 : Sound n1 := h n1 (List.getElem?_mem hi)
    have h2 : Sound n2 := h n2 (List.getElem?_mem hj)
    split_ifs
    · exact h
    · rcases separation_finite sqrt n1 n2 h1 h2 with hs | ⟨mx, my, hs⟩
      · rw [hs]; exact h
      · rw [hs]; exact pushApart_sound d i j n1 n2 mx my nodes h h1 h2
  · exact h

theorem foldl_invariant {α β : Type} (P : α → Prop) (f : α → β → α)
    (h : ∀ acc b, P acc → P (f acc b)) (l : List β) (a : α) (ha : P a) : P (l.foldl f a) := by
  induction l generalizing a with
  | nil => exact ha
  | cons b l ih => exact ih (f a b) (h a b ha)

theorem collideWith_sound (sqrt : K → K) (d : Option Nat) (i : Nat) (nodes : List (Node K))
    (h : ∀ n ∈ nodes, Sound n) : ∀ n ∈ collideWith sqrt d i nodes, Sound n := by
  unfold collideWith
  exact foldl_invariant (fun l => ∀ n ∈ l, Sound n) _
    (fun acc j hacc => resolvePair_sound sqrt d i j acc hacc) _ nodes h

theorem collideStep_sound (sqrt : K → K) (d : Option Nat) (i : Nat) (nodes : List (Node K))
    (h : ∀ n ∈ nodes, Sound n) : ∀ n ∈ collideStep sqrt d nodes i, Sound n := by
  unfold collideStep
  split
  · split_ifs
    · exact h
    · exact collideWith_sound sqrt d i nodes h
  · exact h

theorem resolveCollisions_sound (sqrt : K → K) (d : Option Nat) (nodes : List (Node K))
    (h : ∀ n ∈ nodes, Sound n) : ∀ n ∈ resolveCollisions sqrt d nodes, Sound n := by
  unfold resolveCollisions
  exact foldl_invariant (fun l => ∀ n ∈ l, Sound n) _
    (fun acc i hacc => collideStep_sound sqrt d i acc hacc) _ nodes h

theorem relaxOnce_sound (sqrt : K → K) (d : Option Nat) (nodes : List (Node K))
    (h : ∀ n ∈ nodes, Sound n) : ∀ n ∈ relaxOnce sqrt d nodes, Sound n :=
  resolveCollisions_sound sqrt d _ (anchorPullFrom_sound d 0 nodes h)

theorem relax_sound (sqrt : K → K) (d : Option Nat) (m : Nat) (nodes : List (Node K))
    (h : ∀ n ∈ nodes, Sound n) : ∀ n ∈ relax sqrt d m nodes, Sound n := by
  unfold relax
  induction m generalizing nodes with
  | zero => simpa using h
  | succ m ih =>
    rw [Function.iterate_succ_apply]
    exact ih _ (relaxOnce_sound sqrt d nodes h)

theorem reproject_sound (proj : JSVal K × JSVal K → K × K) (n : Node K)
    (h : isNaN n.x = true ∨ (isFinite n.x = true ∧ isFinite n.y = true)) :
    Sound (reproject proj n) := by
  rcases h with h | ⟨hx, hy⟩
  · exact ⟨(proj n.originalLatLng).1, (proj n.originalLatLng).2, (proj n.originalLatLng).1,
      (proj n.originalLatLng).2, by simp [reproject, h], by simp [reproject, h],
      by simp [reproject, h], by simp [reproject, h]⟩
  · cases hxv : n.x <;> rw [hxv] at hx <;> simp [JSVal.isFinite] at hx
    cases hyv : n.y <;> rw [hyv] at hy <;> simp [JSVal.isFinite] at hy
    rename_i a b
    refine ⟨a, b, (proj n.originalLatLng).1, (proj n.originalLatLng).2, ?_, ?_, ?_, ?_⟩ <;>
      simp [reproject, hxv, hyv, JSVal.isNaN]

/-! ## The relaxation only moves positions -/

theorem set_of_getElem? {α : Type} (l : List α) (i : Nat) (a : α) (h : l[i]? = some a) :
    l.set i a = l := by
  apply List.ext_getElem?
  intro k
  rw [List.getElem?_set]
  split_ifs with h1 h2
  · rw [← h1, h]
  · rw [← h1]
    exact (List.getElem?_eq_none (not_lt.mp h2)).symm
  · rfl

theorem map_erase_set (nodes : List (Node K)) (i : Nat) (n m : Node K) (h : nodes[i]? = some n)
    (hm : erasePosition m = erasePosition n) :
    (nodes.set i m).map erasePosition = nodes.map erasePosition := by
  rw [List.map_set, hm]
  apply set_of_getElem?
  rw [List.getElem?_map, h]
  rfl

theorem anchorPullFrom_erase (d : Option Nat) (s : Nat) (nodes : List (Node K)) :
    (anchorPullFrom d s nodes).map erasePosition = nodes.map erasePosition := by
  induction nodes generalizing s with
  | nil => rfl
  | cons n rest ih =>
    simp only [anchorPullFrom, List.map_cons, ih]
    split_ifs <;> rfl

theorem pushApart_erase (d : Option Nat) (i j : Nat) (n1 n2 : Node K) (move : JSVal K × JSVal K)
    (nodes : List (Node K)) (hi : nodes[i]? = some n1) (hj : nodes[j]? = some n2) (hij : i ≠ j) :
    (pushApart d i j n1 n2 move nodes).map erasePosition = nodes.map erasePosition := by
  unfold pushApart
  split_ifs
  · exact map_erase_set nodes j n2 _ hj rfl
  · exact map_erase_set nodes i n1 _ hi rfl
  · refine Eq.trans (map_erase_set _ j n2 _ ?_ rfl) (map_erase_set nodes i n1 _ hi rfl)
    rw [List.getElem?_set_ne hij]
    exact hj

theorem resolvePair_erase (sqrt : K → K) (d : Option Nat) (i j : Nat) (nodes : List (Node K))
    (hij : i ≠ j) :
    (resolvePair sqrt d i j nodes).map erasePosition = nodes.map erasePosition := by
  unfold resolvePair
  split
  · next n1 n2 hi hj =>
    split_ifs
    · rfl
    · split
      · exact pushApart_erase d i j n1 n2 _ nodes hi hj hij
      · rfl
  · rfl

theorem foldl_invariant_mem {α β : Type} (P : α → Prop) (f : α → β → α) (l : List β)
    (h : ∀ acc b, b ∈ l → P acc → P (f acc b)) (a : α) (ha : P a) : P (l.foldl f a) := by
  induction l generalizing a with
  | nil => exact ha
  | cons b l ih =>
    exact ih (fun acc c hc => h acc c (List.mem_cons_of_mem _ hc)) (f a b)
      (h a b (List.mem_cons_self _ _) ha)

theorem collideWith_erase (sqrt : K → K) (d : Option Nat) (i : Nat) (nodes : List (Node K)) :
    (collideWith sqrt d i nodes).map erasePosition = nodes.map erasePosition := by
  unfold collideWith
  apply foldl_invariant_mem (fun l => l.map erasePosition = nodes.map erasePosition) _ _ _ nodes rfl
  intro acc j hj hacc
  have hij : i ≠ j := by
    have := (List.mem_range'_1.mp hj).1
    omega
  show (resolvePair sqrt d i j acc).map erasePosition = nodes.map erasePosition
  rw [resolvePair_erase sqrt d i j acc hij, hacc]

theorem collideStep_erase (sqrt : K → K) (d : Option Nat) (i : Nat) (nodes : List (Node K)) :
    (collideStep sqrt d nodes i).map erasePosition = nodes.map erasePosition := by
  unfold collideStep
  split
  · split_ifs
    · rfl
    · exact collideWith_erase sqrt d i nodes
  · rfl

theorem resolveCollisions_erase (sqrt : K → K) (d : Option Nat) (nodes : List (Node K)) :
    (resolveCollisions sqrt d nodes).map erasePosition = nodes.map erasePosition := by
  unfold resolveCollisions
  apply foldl_invariant (fun l => l.map erasePosition = nodes.map erasePosition) _ _ _ nodes rfl
  intro acc i hacc
  show (collideStep sqrt d acc i).map erasePosition = nodes.map erasePosition
  rw [collideStep_erase, hacc]

theorem relaxOnce_erase (sqrt : K → K) (d : Option Nat) (nodes : List (Node K)) :
    (relaxOnce sqrt d nodes).map erasePosition = nodes.map erasePosition := by
  unfold relaxOnce anchorPull
  rw [resolveCollisions_erase, anchorPullFrom_erase]

theorem relax_erase (sqrt : K → K) (d : Option Nat) (m : Nat) (nodes : List (Node K)) :
    (relax sqrt d m nodes).map erasePosition = nodes.map erasePosition := by
  unfold relax
  induction m generalizing nodes with
  | zero => rfl
  | succ m ih => rw [Function.iterate_succ_apply, ih, relaxOnce_erase]

/-- What the relaxation leaves of a node: everything but `x` and `y`. -/
theorem relax_getElem?_erase (sqrt : K → K) (d : Option Nat) (m : Nat) (nodes : List (Node K))
    (i : Nat) (n1 : Node K) (h : (relax sqrt d m nodes)[i]? = some n1) :
    ∃ n : Node K, nodes[i]? = some n ∧ erasePosition n1 = erasePosition n := by
  have h1 := congrArg (fun l => l[i]?) (relax_erase sqrt d m nodes)
  simp only [List.getElem?_map, h, Option.map_some'] at h1
  cases hn : nodes[i]? with
  | none => rw [hn] at h1; cases h1
  | some n =>
    rw [hn] at h1
    exact ⟨n, rfl, Option.some.inj h1⟩

theorem relax_length (sqrt : K → K) (d : Option Nat) (m : Nat) (nodes : List (Node K)) :
    (relax sqrt d m nodes).length = nodes.length := by
  have := congrArg List.length (relax_erase sqrt d m nodes)
  simpa using this

/-! ## Emission of position updates (C7) -/

theorem mem_updatesFrom (s : Nat) (nodes : List (Node K)) (u : PositionUpdate K) :
    u ∈ updatesFrom s nodes ↔
      ∃ i n, nodes[i]? = some n ∧ needsUpdate n = true ∧ u = ⟨s + i, n.x, n.y⟩ := by
  induction nodes generalizing s with
  | nil => simp [updatesFrom]
  | cons m rest ih =>
    have hstep : u ∈ updatesFrom (s + 1) rest →
        ∃ i n, (m :: rest)[i]? = some n ∧ needsUpdate n = true ∧ u = ⟨s + i, n.x, n.y⟩ := by
      intro hu
      obtain ⟨i, n, hi, hn, he⟩ := (ih (s + 1)).mp hu
      refine ⟨i + 1, n, by simpa using hi, hn, ?_⟩
      rw [he]
      congr 1
      omega
    unfold updatesFrom
    constructor
    · intro hu
      split_ifs at hu with hm
      · rcases List.mem_cons.mp hu with hu | hu
        · exact ⟨0, m, by simp, hm, hu⟩
        · exact hstep hu
      · exact hstep hu
    · rintro ⟨i, n, hi, hn, he⟩
      cases i with
      | zero =>
        simp only [List.getElem?_cons_zero, Option.some.injEq] at hi
        subst hi
        rw [if_pos hn, he]
        exact List.mem_cons_self _ _
      | succ i =>
        have hrest : u ∈ updatesFrom (s + 1) rest :=
          (ih (s + 1)).mpr ⟨i, n, by simpa using hi, hn, by rw [he]; congr 1; omega⟩
        split_ifs
        · exact List.mem_cons_of_mem _ hrest
        · exact hrest

theorem updatesFrom_sorted (s : Nat) (nodes : List (Node K)) :
    ((updatesFrom s nodes).map fun u => u.node).Pairwise (· < ·) := by
  induction nodes generalizing s with
  | nil => simp [updatesFrom]
  | cons m rest ih =>
    unfold updatesFrom
    split_ifs
    · rw [List.map_cons, List.pairwise_cons]
      refine ⟨?_, ih (s + 1)⟩
      intro k hk
      obtain ⟨u, hu, rfl⟩ := List.mem_map.mp hk
      obtain ⟨i, n, -, -, he⟩ := (mem_updatesFrom (s + 1) rest u).mp hu
      rw [he]
      show s < s + 1 + i
      omega
    · exact ih (s + 1)

theorem needsUpdate_num (n : Node K) (a b pa pb : K) (hx : n.x = num a) (hy : n.y = num b)
    (hpx : n.prevX = num pa) (hpy : n.prevY = num pb) :
    needsUpdate n = true ↔ 1 / 10 < |a - pa| ∨ 1 / 10 < |b - pb| := by
  simp [needsUpdate, hx, hy, hpx, hpy]

theorem reproject_prev (proj : JSVal K × JSVal K → K × K) (n : Node K) :
    (reproject proj n).prevX = n.prevX ∧ (reproject proj n).prevY = n.prevY := by
  unfold reproject
  split_ifs <;> exact ⟨rfl, rfl⟩

theorem relaxedNodes_wellFormed (sqrt : K → K) (proj : JSVal K × JSVal K → K × K) (w : World K)
    (hw : ∀ n ∈ w.stationNodes, WellFormed n) (n : Node K) (hn : n ∈ relaxedNodes sqrt proj w) :
    ∃ a b pa pb : K, n.x = num a ∧ n.y = num b ∧ n.prevX = num pa ∧ n.prevY = num pb := by
  have hsound : ∀ m ∈ w.stationNodes.map (reproject proj), Sound m := by
    intro m hm
    obtain ⟨m0, hm0, rfl⟩ := List.mem_map.mp hm
    apply reproject_sound
    rcases (hw m0 hm0).2 with h | ⟨a, b, hx, hy⟩
    · exact Or.inl h
    · exact Or.inr ⟨by rw [hx]; rfl, by rw [hy]; rfl⟩
  obtain ⟨a, b, -, -, hx, hy, -, -⟩ := relax_sound sqrt w.draggedNode iterations _ hsound n hn
  obtain ⟨i, hi⟩ := List.mem_iff_getElem?.mp hn
  obtain ⟨m, hm, he⟩ := relax_getElem?_erase sqrt w.draggedNode iterations _ i n hi
  rw [List.getElem?_map] at hm
  cases hm0 : w.stationNodes[i]? with
  | none => rw [hm0] at hm; cases hm
  | some m0 =>
    rw [hm0] at hm
    have hm' : m = reproject proj m0 := (Option.some.inj hm).symm
    obtain ⟨⟨pa, pb, hpa, hpb⟩, -⟩ := hw m0 (List.getElem?_mem hm0)
    have hpx : n.prevX = m.prevX := by
      show (erasePosition n).prevX = (erasePosition m).prevX
      rw [he]
    have hpy : n.prevY = m.prevY := by
      show (erasePosition n).prevY = (erasePosition m).prevY
      rw [he]
    refine ⟨a, b, pa, pb, hx, hy, ?_, ?_⟩
    · rw [hpx, hm', (reproject_prev proj m0).1, hpa]
    · rw [hpy, hm', (reproject_prev proj m0).2, hpb]

/-- C7: in a tick that is not suspended, with `R` the nodes after the relaxation:
a marker update is made for the node at index `i` exactly when the test
`Math.abs(x - prevX) > 0.1 || Math.abs(y - prevY) > 0.1` holds for it, and then `prevX`, `prevY`
become its `x`, `y`, while a node that fails the test is left as it is; no node gets two
updates; each update carries the node's relaxed position; on finite values the test is
`|x - prevX| > 0.1` or `|y - prevY| > 0.1`; and when every node starts well formed, every node
ends the tick with finite values such that `|x - prevX| ≤ 0.1` and `|y - prevY| ≤ 0.1`. -/
theorem emission_threshold (sqrt : K → K) (proj : JSVal K × JSVal K → K × K) (w : World K)
    (hmap : w.map = some proj) (hne : w.stationNodes ≠ []) (hz : w.isZooming = false) :
    (∀ (i : Nat) (n : Node K), (relaxedNodes sqrt proj w)[i]? = some n →
      ((∃ u ∈ (runPhysicsLoop sqrt w).updates, u.node = i) ↔ needsUpdate n = true) ∧
      (needsUpdate n = true →
        (runPhysicsLoop sqrt w).world.stationNodes[i]? =
          some { n with prevX := n.x, prevY := n.y }) ∧
      (needsUpdate n = false → (runPhysicsLoop sqrt w).world.stationNodes[i]? = some n)) ∧
    ((runPhysicsLoop sqrt w).updates.map fun u => u.node).Nodup ∧
    (∀ u ∈ (runPhysicsLoop sqrt w).updates, ∃ n : Node K,
      (relaxedNodes sqrt proj w)[u.node]? = some n ∧ u.x = n.x ∧ u.y = n.y) ∧
    (∀ (n : Node K) (a b pa pb : K), n.x = num a → n.y = num b → n.prevX = num pa →
      n.prevY = num pb → (needsUpdate n = true ↔ 1 / 10 < |a - pa| ∨ 1 / 10 < |b - pb|)) ∧
    ((∀ n ∈ w.stationNodes, WellFormed n) →
      ∀ n ∈ (runPhysicsLoop sqrt w).world.stationNodes, ∃ a b pa pb : K,
        n.x = num a ∧ n.y = num b ∧ n.prevX = num pa ∧ n.prevY = num pb ∧
          |a - pa| ≤ 1 / 10 ∧ |b - pb| ≤ 1 / 10) := by
  rw [runPhysicsLoop_active sqrt proj w hmap hne hz]
  have hwf := relaxedNodes_wellFormed sqrt proj w
  generalize relaxedNodes sqrt proj w = R at hwf ⊢
  refine ⟨?_, ?_, ?_, ?_, ?_⟩
  · intro i n hi
    refine ⟨?_, ?_, ?_⟩
    · constructor
      · rintro ⟨u, hu, rfl⟩
        obtain ⟨j, m, hj, hm, he⟩ := (mem_updatesFrom 0 R u).mp hu
        have hji : u.node = j := by rw [he]; simp
        rw [hji, hj] at hi
        rw [← Option.some.inj hi]
        exact hm
      · intro hn
        exact ⟨⟨0 + i, n.x, n.y⟩, (mem_updatesFrom 0 R _).mpr ⟨i, n, hi, hn, rfl⟩, by simp⟩
    · intro hn
      simp only [List.getElem?_map, hi, Option.map_some', commitNode, hn, if_true]
    · intro hn
      simp only [List.getElem?_map, hi, Option.map_some', commitNode, hn, Bool.false_eq_true,
        if_false]
  · exact (updatesFrom_sorted 0 R).imp (fun h => Nat.ne_of_lt h)
  · intro u hu
    obtain ⟨j, m, hj, -, he⟩ := (mem_updatesFrom 0 R u).mp hu
    refine ⟨m, ?_, ?_, ?_⟩
    · rw [he]; simpa using hj
    · rw [he]
    · rw [he]
  · intro n a b pa pb hx hy hpx hpy
    exact needsUpdate_num n a b pa pb hx hy hpx hpy
  · intro hw n hn
    obtain ⟨m, hm, rfl⟩ := List.mem_map.mp hn
    obtain ⟨a, b, pa, pb, hx, hy, hpx, hpy⟩ := hwf hw m hm
    by_cases hu : needsUpdate m = true
    · refine ⟨a, b, a, b, ?_, ?_, ?_, ?_, ?_, ?_⟩
      · rw [commitNode_x, hx]
      · rw [commitNode_y, hy]
      · simp [commitNode, hu, hx]
      · simp [commitNode, hu, hy]
      · simp
      · simp
    · have hu2 := hu
      rw [needsUpdate_num m a b pa pb hx hy hpx hpy, not_or, not_lt, not_lt] at hu2
      refine ⟨a, b, pa, pb, ?_, ?_, ?_, ?_, hu2.1, hu2.2⟩
      · rw [commitNode_x, hx]
      · rw [commitNode_y, hy]
      · simp [commitNode, hu, hpx]
      · simp [commitNode, hu, hpy]

/-- C7 at a concrete input: one fresh node of radius 4 with target pixel (10, 20). -/
theorem emission_threshold_witness :
    ((runPhysicsLoop Rat.sqrt
        (sampleWorld [sampleNode "a" (10 : ℚ) 20 4 undefined undefined])).updates.map
      fun u => u.node).Nodup :=
  (emission_threshold Rat.sqrt sampleProj
    (sampleWorld [sampleNode "a" (10 : ℚ) 20 4 undefined undefined]) rfl
    (by simp [sampleWorld]) rfl).2.1

/-! ## Drag threshold and click suppression (C5) -/

theorem mapMouseMove_fields (sqrt : K → K) (cp : K × K) (latlng : JSVal K × JSVal K)
    (v : World K) (i : Nat) (proj : JSVal K × JSVal K → K × K)
    (hd : v.draggedNode = some i) (hm : v.map = some proj) :
    (mapMouseMove sqrt cp latlng v).1.draggedNode = some i ∧
      (mapMouseMove sqrt cp latlng v).1.map = some proj ∧
      (mapMouseMove sqrt cp latlng v).1.dragStartX = v.dragStartX ∧
      (mapMouseMove sqrt cp latlng v).1.dragStartY = v.dragStartY ∧
      (mapMouseMove sqrt cp latlng v).1.wasDragged = v.wasDragged ∧
      ((mapMouseMove sqrt cp latlng v).1.isDragging = true ↔
        v.isDragging = true ∨ movedBeyond sqrt (v.dragStartX, v.dragStartY) cp) := by
  unfold mapMouseMove movedBeyond
  rw [hd, hm]
  by_cases h3 : 3 < sqrt ((cp.1 - v.dragStartX) * (cp.1 - v.dragStartX) +
      (cp.2 - v.dragStartY) * (cp.2 - v.dragStartY))
  · simp [h3, hd, hm]
  · by_cases hdr : v.isDragging = true
    · simp [h3, hdr, hd, hm]
    · simp [h3, hdr, hd, hm]

theorem moveAll_fields (sqrt : K → K) (i : Nat) (proj : JSVal K × JSVal K → K × K) (p0 : K × K)
    (moves : List ((K × K) × (JSVal K × JSVal K))) (v : World K)
    (hd : v.draggedNode = some i) (hm : v.map = some proj)
    (hx : v.dragStartX = p0.1) (hy : v.dragStartY = p0.2) :
    (moveAll sqrt moves v).draggedNode = some i ∧
      (moveAll sqrt moves v).wasDragged = v.wasDragged ∧
      ((moveAll sqrt moves v).isDragging = true ↔
        v.isDragging = true ∨ ∃ e ∈ moves, movedBeyond sqrt p0 e.1) := by
  induction moves generalizing v with
  | nil => simp [moveAll, hd]
  | cons e rest ih =>
    obtain ⟨h1, h2, h3, h4, h5, h6⟩ := mapMouseMove_fields sqrt e.1 e.2 v i proj hd hm
    have hp : (v.dragStartX, v.dragStartY) = p0 := by rw [hx, hy]
    rw [hp] at h6
    obtain ⟨g1, g2, g3⟩ := ih (mapMouseMove sqrt e.1 e.2 v).1 h1 h2 (by rw [h3, hx]) (by rw [h4, hy])
    have hfold : moveAll sqrt (e :: rest) v = moveAll sqrt rest (mapMouseMove sqrt e.1 e.2 v).1 := rfl
    rw [hfold]
    refine ⟨g1, by rw [g2, h5], ?_⟩
    rw [g3, h6]
    simp only [List.mem_cons, exists_eq_or_imp]
    tauto

theorem pointerSession_wasDragged (sqrt : K → K) (i : Nat) (p0 : K × K)
    (moves : List ((K × K) × (JSVal K × JSVal K))) (w : World K)
    (proj : JSVal K × JSVal K → K × K) (hm : w.map = some proj) (hw : w.wasDragged = false) :
    (pointerSession sqrt i p0 moves w).isDragging = false ∧
      (pointerSession sqrt i p0 moves w).draggedNode = none ∧
      ((pointerSession sqrt i p0 moves w).wasDragged = true ↔
        ∃ e ∈ moves, movedBeyond sqrt p0 e.1) := by
  obtain ⟨h1, h2, h3⟩ := moveAll_fields sqrt i proj p0 moves (markerMouseDown i p0 w) rfl hm rfl rfl
  have h2 : (moveAll sqrt moves (markerMouseDown i p0 w)).wasDragged = false := by
    rw [h2]; exact hw
  have h3 : (moveAll sqrt moves (markerMouseDown i p0 w)).isDragging = true ↔
      ∃ e ∈ moves, movedBeyond sqrt p0 e.1 := by
    rw [h3]
    simp [markerMouseDown]
  unfold pointerSession mapMouseUp
  rw [h1]
  refine ⟨rfl, rfl, ?_⟩
  rw [← h3]
  simp only [h2]
  cases (moveAll sqrt moves (markerMouseDown i p0 w)).isDragging <;> simp

/-- C5: for a pointer session that starts, once the map is ready, with `wasDragged` false and
consists of a `mousedown` on the node at index `i` at `p0`, any `mousemove` events and a
`mouseup`: afterwards `wasDragged` is true exactly when some move was farther than 3 px from
`p0`; the marker's click handler then selects the node exactly when every move stayed within
3 px, and otherwise both the marker click and the map click are suppressed. -/
theorem drag_threshold_decides_click (sqrt : K → K) (i : Nat) (p0 : K × K)
    (moves : List ((K × K) × (JSVal K × JSVal K))) (w : World K)
    (proj : JSVal K × JSVal K → K × K) (hm : w.map = some proj) (hw : w.wasDragged = false) :
    ((pointerSession sqrt i p0 moves w).wasDragged = true ↔
        ∃ e ∈ moves, movedBeyond sqrt p0 e.1) ∧
      (markerClick i (pointerSession sqrt i p0 moves w) = ClickAction.selectStation i ↔
        ∀ e ∈ moves, ¬ movedBeyond sqrt p0 e.1) ∧
      ((∃ e ∈ moves, movedBeyond sqrt p0 e.1) →
        markerClick i (pointerSession sqrt i p0 moves w) = ClickAction.suppressed ∧
          mapClick (pointerSession sqrt i p0 moves w) = ClickAction.suppressed) := by
  obtain ⟨h1, -, h3⟩ := pointerSession_wasDragged sqrt i p0 moves w proj hm hw
  refine ⟨h3, ?_, ?_⟩
  · unfold markerClick
    rw [h1]
    by_cases hd : (pointerSession sqrt i p0 moves w).wasDragged = true
    · have := h3.mp hd
      simp only [hd, Bool.or_true, if_true]
      constructor
      · intro h; cases h
      · intro h
        obtain ⟨e, he, hmv⟩ := this
        exact absurd hmv (h e he)
    · have hn : ¬ ∃ e ∈ moves, movedBeyond sqrt p0 e.1 := fun h => hd (h3.mpr h)
      simp only [Bool.not_eq_true] at hd
      simp only [hd, Bool.or_false, Bool.false_eq_true, if_false, true_iff]
      intro e he hmv
      exact hn ⟨e, he, hmv⟩
  · intro h
    have hd := h3.mpr h
    unfold markerClick mapClick
    simp [hd]

/-- C5 at a concrete input: a session on node 0 with one move 1 px away and one 5 px away. -/
theorem drag_threshold_decides_click_witness :
    (pointerSession Rat.sqrt 0 ((5 : ℚ), 5) [((6, 5), (num 0, num 0)), ((10, 5), (num 0, num 0))]
        (sampleWorld [sampleNode "a" (10 : ℚ) 20 4 (num 3) (num 5)])).wasDragged = true ↔
      ∃ e ∈ [(((6 : ℚ), (5 : ℚ)), ((num 0 : JSVal ℚ), (num 0 : JSVal ℚ))), ((10, 5), (num 0, num 0))],
        movedBeyond Rat.sqrt ((5 : ℚ), 5) e.1 :=
  (drag_threshold_decides_click Rat.sqrt 0 ((5 : ℚ), 5) _
    (sampleWorld [sampleNode "a" (10 : ℚ) 20 4 (num 3) (num 5)]) sampleProj rfl rfl).1

/-! ## Station initialisation (C9) -/

theorem pushStations_eq (parseFloat : String → JSVal K) (lines : List String)
    (nodes : List (Node K)) :
    pushStations parseFloat lines nodes = nodes ++ lines.filterMap (stationNode parseFloat) := by
  induction lines generalizing nodes with
  | nil => simp [pushStations]
  | cons line rest ih =>
    unfold pushStations
    cases h : stationNode parseFloat line with
    | none => simp [ih, List.filterMap_cons, h]
    | some node => simp [ih, List.filterMap_cons, h]

/-- C9 as stated fails: a stations file whose two data rows carry the same id yields two nodes
with that id. -/
theorem duplicate_station_id_kept :
    (initStations (parseDigits : String → JSVal ℚ)
        ["id,lat,lng,nom", "S1,48,3,Plage A", "S1,49,4,Plage B"]).map (fun n => n.id) =
      ["S1", "S1"] := by
  decide

theorem stationNode_eq (parseFloat : String → JSVal K) (line : String) :
    stationNode parseFloat line =
      if lineAccepted parseFloat line = true then
        some
          { id := jsTrim (column line 0)
            originalLatLng := (parseFloat (column line 1), parseFloat (column line 2))
            currentRadius := 4
            vx := 0
            vy := 0
            prevX := num 0
            prevY := num 0
            targetX := undefined
            targetY := undefined
            x := undefined
            y := undefined }
      else none := by
  unfold stationNode lineAccepted column
  cases h : splitComma line with
  | nil => simp
  | cons c0 l1 =>
    cases l1 with
    | nil => simp
    | cons c1 l2 =>
      cases l2 with
      | nil => simp
      | cons c2 l3 =>
        cases l3 with
        | nil => simp
        | cons c3 rest =>
          simp only [List.getD_cons_zero, List.getD_cons_succ, List.length_cons]
          by_cases h1 : isNaN (parseFloat c1) = true
          · simp [h1]
          · by_cases h2 : isNaN (parseFloat c2) = true
            · simp [h2]
            · simp [h1, h2]

theorem filterMap_ite {α β : Type} (p : α → Bool) (f : α → β) (l : List α) :
    l.filterMap (fun a => if p a = true then some (f a) else none) = (l.filter p).map f := by
  induction l with
  | nil => rfl
  | cons a l ih =>
    by_cases h : p a = true
    · simp [List.filterMap_cons, List.filter_cons, h, ih]
    · simp [List.filterMap_cons, List.filter_cons, h, ih]

/-- C9 as amended: station initialisation appends exactly one node for every line after the
header that has at least 4 columns and whose latitude and longitude are not read as `NaN`, in
file order and whether or not its id is already held by a node: the node list is the list of
the qualifying lines, each turned into a fresh node with the trimmed first column as id. So the
ids of the nodes are the trimmed first columns of the qualifying lines, repetitions included,
and there are as many nodes as qualifying lines. -/
theorem initStations_keeps_every_accepted_line (parseFloat : String → JSVal K)
    (stations : List String) :
    initStations parseFloat stations =
        ((stations.drop 1).filter (lineAccepted parseFloat)).map (fun line =>
          { id := jsTrim (column line 0)
            originalLatLng := (parseFloat (column line 1), parseFloat (column line 2))
            currentRadius := 4
            vx := 0
            vy := 0
            prevX := num 0
            prevY := num 0
            targetX := undefined
            targetY := undefined
            x := undefined
            y := undefined }) ∧
      (initStations parseFloat stations).map (fun n => n.id) =
        ((stations.drop 1).filter (lineAccepted parseFloat)).map (fun line =>
          jsTrim (column line 0)) ∧
      (initStations parseFloat stations).length =
        ((stations.drop 1).filter (lineAccepted parseFloat)).length := by
  have key : initStations parseFloat stations =
      ((stations.drop 1).filter (lineAccepted parseFloat)).map (fun line =>
        ({ id := jsTrim (column line 0)
           originalLatLng := (parseFloat (column line 1), parseFloat (column line 2))
           currentRadius := 4
           vx := 0
           vy := 0
           prevX := num 0
           prevY := num 0
           targetX := undefined
           targetY := undefined
           x := undefined
           y := undefined } : Node K)) := by
    unfold initStations
    rw [pushStations_eq, List.nil_append, ← filterMap_ite]
    congr 1
    funext line
    exact stationNode_eq parseFloat line
  refine ⟨key, ?_, ?_⟩
  · rw [key, List.map_map]
    rfl
  · rw [key, List.length_map]

/-! ## Marker radii (C11) -/

/-- C11 as stated fails: for a station without any measurement `updateMarkers` sets
`currentRadius` to 5, not 0. -/
theorem no_data_radius_is_five :
    ((updateMarkers (fun _ => none) none "2023" none
        [sampleNode "a" (10 : ℚ) 20 4 undefined undefined]).1.map fun n => n.currentRadius) =
      [5] := by
  simp [updateMarkers, valuesToMap, markerRadius]

theorem markerRadius_bounds (v : K) (vs : List K) :
    6 ≤ markerRadius (v :: vs) ∧ markerRadius (v :: vs) ≤ 30 := by
  simp only [markerRadius, constrainValue, baseRadius]
  constructor
  · exact le_max_left _ _
  · exact max_le (by norm_num) (min_le_right _ _)

/-- C11 as amended: `updateMarkers` keeps the nodes in place and changes only `currentRadius`;
a node whose station has no measurement under the active year or date filter gets the
radius 5, and a node with at least one measurement gets a radius between 6 and 30. -/
theorem updateMarkers_radius (concentrationData : String → Option (StationData K))
    (currentStationID : Option String) (selectedYear : String) (specificDate : Option String)
    (nodes : List (Node K)) (i : Nat) (n : Node K) (hn : nodes[i]? = some n) :
    ∃ r : K,
      (updateMarkers concentrationData currentStationID selectedYear specificDate nodes).1[i]? =
          some { n with currentRadius := r } ∧
        (valuesToMap concentrationData selectedYear specificDate n.id = [] → r = 5) ∧
        (valuesToMap concentrationData selectedYear specificDate n.id ≠ [] → 6 ≤ r ∧ r ≤ 30) := by
  refine ⟨markerRadius (valuesToMap concentrationData selectedYear specificDate n.id), ?_, ?_, ?_⟩
  · simp [updateMarkers, List.getElem?_map, hn]
  · intro h
    rw [h]
    rfl
  · intro h
    cases hv : valuesToMap concentrationData selectedYear specificDate n.id with
    | nil => exact absurd hv h
    | cons v vs => exact markerRadius_bounds v vs

/-- C11 as amended, at a concrete input: a station with the single measurement 0.5 in 2023. -/
theorem updateMarkers_radius_witness :
    ∃ r : ℚ,
      (updateMarkers
          (fun id => if id = "a" then some ⟨[⟨none, none, 1 / 2⟩], fun _ => none⟩ else none)
          none "all" none [sampleNode "a" (10 : ℚ) 20 4 undefined undefined]).1[0]? =
          some { sampleNode "a" (10 : ℚ) 20 4 undefined undefined with currentRadius := r } ∧
        (valuesToMap
            (fun id => if id = "a" then some ⟨[⟨none, none, (1 / 2 : ℚ)⟩], fun _ => none⟩ else none)
            "all" none (sampleNode "a" (10 : ℚ) 20 4 undefined undefined).id = [] → r = 5) ∧
        (valuesToMap
            (fun id => if id = "a" then some ⟨[⟨none, none, (1 / 2 : ℚ)⟩], fun _ => none⟩ else none)
            "all" none (sampleNode "a" (10 : ℚ) 20 4 undefined undefined).id ≠ [] →
          6 ≤ r ∧ r ≤ 30) :=
  updateMarkers_radius _ none "all" none _ 0 _ rfl

end Lemmas

/-! ## The histogram loses no value (C16) -/

section HistogramLemmas

theorem bump_length (l : List Nat) (i : Nat) : (bump l i).length = l.length := by
  simp [bump]

theorem bump_sum (l : List Nat) (i : Nat) (h : i < l.length) : (bump l i).sum = l.sum + 1 := by
  unfold bump
  induction l generalizing i with
  | nil => simp at h
  | cons c cs ih =>
    cases i with
    | zero => simp [List.modify]; omega
    | succ i =>
      have hi : i < cs.length := by simpa using h
      have := ih i hi
      simp only [List.modify_succ_cons, List.sum_cons, this]
      omega

/-! ### Rounding to the nearest double -/

namespace Float64

theorem log2From_le (k q b : Nat) (h : 2 ^ b ≤ q) : 2 ^ log2From k q b ≤ q := by
  induction k generalizing b with
  | zero => exact h
  | succ k ih =>
    simp only [log2From]
    split_ifs with hc
    · exact ih _ hc
    · exact ih _ h

theorem log2From_lt (k q b : Nat) (h : q < 2 ^ (b + 2 ^ k)) : q < 2 ^ (log2From k q b + 1) := by
  induction k generalizing b with
  | zero => simpa [log2From] using h
  | succ k ih =>
    simp only [log2From]
    split_ifs with hc
    · apply ih
      have e : b + 2 ^ k + 2 ^ k = b + 2 ^ (k + 1) := by rw [pow_succ]; omega
      rw [e]
      exact h
    · exact ih _ (not_le.mp hc)

theorem log2_le (q : Nat) (h : 1 ≤ q) : 2 ^ log2 q ≤ q :=
  log2From_le 16 q 0 (by simpa using h)

theorem log2_lt (q : Nat) (h : q < 2 ^ 2 ^ 16) : q < 2 ^ (log2 q + 1) :=
  log2From_lt 16 q 0 (by rw [Nat.zero_add]; exact h)

theorem roundEven_ge (a d : Nat) : a / d ≤ roundEven a d := by
  unfold roundEven
  simp only
  split_ifs <;> omega

theorem roundEven_of_dvd (a d : Nat) (hd : 0 < d) (h : d ∣ a) : roundEven a d = a / d := by
  unfold roundEven
  have h0 : a % d = 0 := Nat.mod_eq_zero_of_dvd h
  simp [h0, hd]

theorem round_cases (neg : Bool) (a d : Nat) :
    round neg a d = inf neg ∨ ∃ m, round neg a d = fin neg m := by
  unfold round
  simp only
  split_ifs
  · exact Or.inl rfl
  · exact Or.inr ⟨_, rfl⟩

/-- Rounding does not fall below a power of two that the exact value reaches. -/
theorem round_ge (neg : Bool) (a d k : Nat) (hd : 0 < d) (h : d * 2 ^ k ≤ a) :
    round neg a d = inf neg ∨ ∃ m, round neg a d = fin neg m ∧ 2 ^ k ≤ m := by
  unfold round
  simp only
  split_ifs with hov
  · exact Or.inl rfl
  · refine Or.inr ⟨_, rfl, ?_⟩
    generalize hs : log2 (a / d) - 52 = s
    have hk : 0 < 2 ^ k := Nat.two_pow_pos _
    have hda : d ≤ a := le_trans (Nat.le_mul_of_pos_right d hk) h
    have hq : 1 ≤ a / d := (Nat.one_le_div_iff hd).mpr hda
    have hds : d * 2 ^ s ≤ a := by
      have h1 : 2 ^ s ≤ 2 ^ log2 (a / d) :=
        Nat.pow_le_pow_right (by norm_num) (by rw [← hs]; exact Nat.sub_le _ _)
      calc d * 2 ^ s ≤ d * (a / d) := Nat.mul_le_mul_left d (h1.trans (log2_le _ hq))
        _ ≤ a := Nat.mul_div_le a d
    have hpos : 0 < d * 2 ^ s := Nat.mul_pos hd (Nat.two_pow_pos _)
    have hre := roundEven_ge a (d * 2 ^ s)
    by_cases hsk : s ≤ k
    · have h2 : 2 ^ (k - s) ≤ a / (d * 2 ^ s) := by
        rw [Nat.le_div_iff_mul_le hpos]
        calc 2 ^ (k - s) * (d * 2 ^ s) = d * (2 ^ (k - s) * 2 ^ s) := by ring
          _ = d * 2 ^ k := by rw [← pow_add, Nat.sub_add_cancel hsk]
          _ ≤ a := h
      calc 2 ^ k = 2 ^ (k - s) * 2 ^ s := by rw [← pow_add, Nat.sub_add_cancel hsk]
        _ ≤ roundEven a (d * 2 ^ s) * 2 ^ s := Nat.mul_le_mul_right _ (h2.trans hre)
    · have h1 : 1 ≤ a / (d * 2 ^ s) := (Nat.one_le_div_iff hpos).mpr hds
      calc 2 ^ k ≤ 2 ^ s := Nat.pow_le_pow_right (by norm_num) (by omega)
        _ = 1 * 2 ^ s := (one_mul _).symm
        _ ≤ roundEven a (d * 2 ^ s) * 2 ^ s := Nat.mul_le_mul_right _ (h1.trans hre)

/-- An integer below `2^53` is a double: rounding leaves it as it is. -/
theorem round_integer (neg : Bool) (j : Nat) (hj : j < 2 ^ 53) :
    round neg (j * 2 ^ 1074) 1 = fin neg (j * 2 ^ 1074) := by
  unfold round
  simp only [Nat.div_one, one_mul]
  generalize hs : log2 (j * 2 ^ 1074) - 52 = s
  have hU : 0 < 2 ^ 1074 := pow_pos (by norm_num) 1074
  have hx : j * 2 ^ 1074 < 2 ^ 1127 := by
    calc j * 2 ^ 1074 < 2 ^ 53 * 2 ^ 1074 := Nat.mul_lt_mul_of_pos_right hj hU
      _ = 2 ^ 1127 := by rw [← pow_add]
  have hs1074 : s ≤ 1074 := by
    by_cases h0 : j = 0
    · subst h0
      have : log2 (0 * 2 ^ 1074) ≤ 52 := by
        rw [Nat.zero_mul]
        decide!
      omega
    · have h1 : 1 ≤ j * 2 ^ 1074 := Nat.mul_pos (Nat.pos_of_ne_zero h0) hU
      have h2 := log2_le _ h1
      have h3 : 2 ^ log2 (j * 2 ^ 1074) < 2 ^ 1127 := lt_of_le_of_lt h2 hx
      have h4 := (Nat.pow_lt_pow_iff_right (by norm_num : 1 < 2)).mp h3
      omega
  have hdvd : 2 ^ s ∣ j * 2 ^ 1074 :=
    Dvd.dvd.mul_left (pow_dvd_pow 2 hs1074) j
  rw [roundEven_of_dvd _ _ (Nat.two_pow_pos _) hdvd, Nat.div_mul_cancel hdvd]
  have hno : ¬ 2 ^ 2098 ≤ j * 2 ^ 1074 := by
    have : (2 : Nat) ^ 1127 ≤ 2 ^ 2098 := pow_le_pow_right₀ (by norm_num) (by norm_num)
    omega
  rw [if_neg hno]

theorem zero_eq : (0 : Float64) = fin false 0 := by decide!

theorem one_eq : (1 : Float64) = fin false (2 ^ 1074) := by decide!

theorem maxLength_eq : (4294967295 : Float64) = fin false (4294967295 * 2 ^ 1074) := by decide!

theorem lit_11_eq : (1.1 : Float64) = fin false (2476979795053773 * 2 ^ 1023) := by decide!

theorem lit_11_ge : 2 ^ 1074 ≤ 2476979795053773 * 2 ^ 1023 := by decide!

theorem le_fin (s t : Bool) (a b : Nat) :
    le (fin s a) (fin t b) = decide (toInt s a ≤ toInt t b) := by
  simp only [le, lt, eq]
  by_cases h : toInt s a ≤ toInt t b
  · rcases lt_or_eq_of_le h with h1 | h1 <;> simp [h, h1]
  · have h1 : ¬ toInt s a < toInt t b := fun h2 => h (le_of_lt h2)
    have h2 : ¬ toInt s a = toInt t b := fun h2 => h (le_of_eq h2)
    simp [h, h1, h2]

theorem lt_fin (s t : Bool) (a b : Nat) :
    lt (fin s a) (fin t b) = decide (toInt s a < toInt t b) := rfl

theorem toInt_false (n : Nat) : toInt false n = (n : Int) := by simp [toInt]

theorem toInt_true (n : Nat) : toInt true n = -(n : Int) := by simp [toInt]

/-- `Math.max` of two finite numbers is one of them and bounds both. -/
theorem max_fin (s t : Bool) (a b : Nat) :
    ∃ u k, max (fin s a) (fin t b) = fin u k ∧ toInt s a ≤ toInt u k ∧
      toInt t b ≤ toInt u k := by
  unfold max
  rw [if_neg (by simp)]
  by_cases h1 : lt (fin s a) (fin t b) = true
  · rw [if_pos h1]
    rw [lt_fin] at h1
    exact ⟨t, b, rfl, le_of_lt (of_decide_eq_true h1), le_refl _⟩
  · rw [if_neg h1]
    by_cases h2 : lt (fin t b) (fin s a) = true
    · rw [if_pos h2]
      rw [lt_fin] at h2
      exact ⟨s, a, rfl, le_refl _, le_of_lt (of_decide_eq_true h2)⟩
    · rw [if_neg h2]
      rw [lt_fin] at h1 h2
      have e1 : ¬ toInt s a < toInt t b := fun h => h1 (decide_eq_true h)
      have e2 : ¬ toInt t b < toInt s a := fun h => h2 (decide_eq_true h)
      have e : toInt s a = toInt t b := le_antisymm (not_lt.mp e2) (not_lt.mp e1)
      split_ifs
      · exact ⟨t, b, rfl, le_of_eq e, le_refl _⟩
      · exact ⟨s, a, rfl, le_refl _, le_of_eq e.symm⟩

theorem foldl_max_fin (vs : List Float64) (hv : ∀ v ∈ vs, isFinite v = true) (s : Bool)
    (a : Nat) :
    ∃ u k, vs.foldl max (fin s a) = fin u k ∧ toInt s a ≤ toInt u k ∧
      ∀ t n, fin t n ∈ vs → toInt t n ≤ toInt u k := by
  induction vs generalizing s a with
  | nil => exact ⟨s, a, rfl, le_refl _, fun t n h => by simp at h⟩
  | cons v vs ih =>
    have hfin := hv v (List.mem_cons_self _ _)
    cases v with
    | nan => simp [isFinite] at hfin
    | inf _ => simp [isFinite] at hfin
    | fin t b =>
      obtain ⟨u, k, hm, h1, h2⟩ := max_fin s t a b
      obtain ⟨u1, k1, g, g1, g2⟩ := ih (fun w hw => hv w (List.mem_cons_of_mem _ hw)) u k
      refine ⟨u1, k1, ?_, le_trans h1 g1, ?_⟩
      · rw [List.foldl_cons, hm]
        exact g
      · intro t1 n1 hmem
        rcases List.mem_cons.mp hmem with h | h
        · cases h
          exact le_trans h2 g1
        · exact g2 t1 n1 h

/-- `Math.max(...values)` of one or more finite numbers is finite and bounds each of them. -/
theorem mathMax_fin (vs : List Float64) (hne : vs ≠ []) (hv : ∀ v ∈ vs, isFinite v = true) :
    ∃ u k, vs.foldl max (inf true) = fin u k ∧ ∀ t n, fin t n ∈ vs → toInt t n ≤ toInt u k := by
  cases vs with
  | nil => exact absurd rfl hne
  | cons v vs =>
    have hfin := hv v (List.mem_cons_self _ _)
    cases v with
    | nan => simp [isFinite] at hfin
    | inf _ => simp [isFinite] at hfin
    | fin t b =>
      have e : max (inf true) (fin t b) = fin t b := by
        unfold max
        rw [if_neg (by simp)]
        exact if_pos rfl
      obtain ⟨u, k, g, g1, g2⟩ :=
        foldl_max_fin vs (fun w hw => hv w (List.mem_cons_of_mem _ hw)) t b
      refine ⟨u, k, ?_, ?_⟩
      · rw [List.foldl_cons, e]
        exact g
      · intro t1 n1 hmem
        rcases List.mem_cons.mp hmem with h | h
        · cases h
          exact g1
        · exact g2 t1 n1 h

theorem sub_eq (a b : Float64) : a - b = add a (neg b) := rfl

theorem div_eq (a b : Float64) : a / b = div a b := rfl

theorem sub_zero_fin (k : Nat) (hk : 0 < k) : (fin false k - 0 : Float64) = round false k 1 := by
  rw [sub_eq, zero_eq]
  simp only [neg, add, Bool.not_false, Nat.sub_zero]
  rw [if_neg (by simp), if_pos hk]

theorem sub_one_integer (c : Nat) (h1 : 1 ≤ c) (h2 : c < 2 ^ 53) :
    (fin false (c * 2 ^ 1074) - 1 : Float64) = fin false ((c - 1) * 2 ^ 1074) := by
  rw [sub_eq, one_eq]
  have hU : 0 < 2 ^ 1074 := pow_pos (by norm_num) 1074
  generalize hUe : 2 ^ 1074 = U at hU
  rcases Nat.eq_or_lt_of_le h1 with h | h
  · subst h
    simp only [neg, add, Bool.not_false, one_mul, Nat.sub_self, zero_mul, lt_irrefl, if_false]
    rw [if_neg (by simp)]
  · have hlt : U < c * U := by
      calc U = 1 * U := (one_mul U).symm
        _ < c * U := Nat.mul_lt_mul_of_pos_right h hU
    have e : c * U - U = (c - 1) * U := by rw [Nat.sub_mul, one_mul]
    simp only [neg, add, Bool.not_false, hlt, if_true, e]
    rw [if_neg (by simp), ← hUe]
    exact round_integer false (c - 1) (by omega)

theorem toIndex_integer (i : Nat) : toIndex (fin false (i * 2 ^ 1074)) = some i := by
  have hU : 0 < 2 ^ 1074 := pow_pos (by norm_num) 1074
  unfold toIndex
  generalize 2 ^ 1074 = U at hU ⊢
  show (if i * U % U = 0 ∧ (false = false ∨ i * U = 0) then some (i * U / U) else none) = some i
  rw [if_pos ⟨Nat.mul_mod_left _ _, Or.inl rfl⟩, Nat.mul_div_cancel _ hU]

theorem fin_of_isNonneg (v : Float64) (h : isNonneg v = true) :
    ∃ s n, v = fin s n ∧ (s = false ∨ n = 0) := by
  cases v with
  | nan => simp [isNonneg] at h
  | inf _ => simp [isNonneg] at h
  | fin s n =>
    refine ⟨s, n, rfl, ?_⟩
    simpa [isNonneg] using h

theorem fin_of_isPositive (v : Float64) (h : isPositive v = true) :
    ∃ b, v = fin false b ∧ 0 < b ∧ b < 2 ^ 2098 := by
  cases v with
  | nan => simp [isPositive] at h
  | inf _ => simp [isPositive] at h
  | fin s n =>
    cases s with
    | true => simp [isPositive] at h
    | false =>
      simp only [isPositive, Bool.and_eq_true, decide_eq_true_eq] at h
      exact ⟨n, rfl, h.1, h.2⟩

/-- The quotient of a positive finite number by a positive finite number is `+Infinity` or a
finite number that is not negative. -/
theorem div_fin_cases (m b : Nat) (hb : 0 < b) :
    (fin false m / fin false b : Float64) = inf false ∨
      ∃ q, (fin false m / fin false b : Float64) = fin false q := by
  rw [div_eq]
  simp only [div, if_neg (Nat.pos_iff_ne_zero.mp hb), Bool.xor_false]
  exact round_cases false _ _

theorem le_inf_fin (t : Bool) (n : Nat) : le (inf false) (fin t n) = false := rfl

theorem lt_inf_fin (t : Bool) (n : Nat) : lt (inf false) (fin t n) = false := rfl

theorem inf_div_fin (b : Nat) : (inf false / fin false b : Float64) = inf false := rfl

theorem floor_inf : floor (inf false) = inf false := rfl

theorem ceil_inf : ceil (inf false) = inf false := rfl

end Float64

namespace Binary64

theorem keepBins_sums (binSize : Float64) (i : Nat) (counts : List Nat) :
    (keepBins binSize i counts).y.sum = counts.sum ∧
      (∀ c ∈ (keepBins binSize i counts).y, 0 < c) ∧
      (keepBins binSize i counts).x.length = (keepBins binSize i counts).y.length ∧
      (keepBins binSize i counts).width.length = (keepBins binSize i counts).y.length := by
  induction counts generalizing i with
  | nil => simp [keepBins]
  | cons c cs ih =>
    obtain ⟨h1, h2, h3, h4⟩ := ih (i + 1)
    unfold keepBins
    by_cases hc : 0 < c
    · simp only [hc, if_true, List.sum_cons, List.length_cons, h1, h3, h4, List.mem_cons]
      refine ⟨trivial, ?_, trivial, trivial⟩
      rintro d (rfl | hd)
      · exact hc
      · exact h2 d hd
    · have hc0 : c = 0 := by omega
      subst hc0
      simp only [lt_irrefl, if_false, List.sum_cons, Nat.zero_add]
      exact ⟨h1, h2, h3, h4⟩

/-- The body of the counting loop increments exactly one bin for a value that is not negative
and not above `max`. -/
theorem countValue_counts (binSize max numBins : Float64) (binCounts : List Nat) (val : Float64)
    (b c : Nat) (hb : binSize = Float64.fin false b) (hb0 : 0 < b)
    (hn : numBins = Float64.fin false (c * 2 ^ 1074)) (hc1 : 1 ≤ c) (hc2 : c ≤ 4294967295)
    (hlen : binCounts.length = c) (h0 : Float64.isNonneg val = true)
    (hmax : Float64.le val max = true) :
    (countValue binSize max numBins binCounts val).length = binCounts.length ∧
      (countValue binSize max numBins binCounts val).sum = binCounts.sum + 1 := by
  have hU : 0 < 2 ^ 1074 := pow_pos (by norm_num) 1074
  have hlast : Float64.toIndex (numBins - 1) = some (c - 1) := by
    rw [hn, Float64.sub_one_integer c hc1 (lt_of_le_of_lt hc2 (by norm_num))]
    exact Float64.toIndex_integer _
  have bumped : ∀ i, i < c →
      (bump binCounts i).length = binCounts.length ∧ (bump binCounts i).sum = binCounts.sum + 1 :=
    fun i hi => ⟨bump_length _ _, bump_sum _ _ (by rw [hlen]; exact hi)⟩
  have helse : (match Float64.toIndex (numBins - 1) with
      | some k => bump binCounts k
      | none => binCounts).length = binCounts.length ∧
      (match Float64.toIndex (numBins - 1) with
      | some k => bump binCounts k
      | none => binCounts).sum = binCounts.sum + 1 := by
    rw [hlast]
    exact bumped (c - 1) (by omega)
  obtain ⟨s, n, hv, hs⟩ := Float64.fin_of_isNonneg val h0
  unfold countValue
  by_cases hpos : Float64.gt val 0 = true
  · rw [if_pos hpos]
    simp only
    have hn0 : s = false ∧ 0 < n := by
      rw [hv, Float64.zero_eq] at hpos
      simp only [Float64.gt, Float64.lt_fin, decide_eq_true_eq, Float64.toInt_false] at hpos
      rcases hs with h | h
      · subst h
        rw [Float64.toInt_false] at hpos
        exact ⟨rfl, by exact_mod_cast hpos⟩
      · subst h
        cases s <;> simp [Float64.toInt] at hpos
    obtain ⟨hsf, hnpos⟩ := hn0
    subst hsf
    by_cases hlt : Float64.lt (Float64.floor ((val - 0) / binSize)) numBins = true
    · rw [if_pos hlt]
      rw [hv, Float64.sub_zero_fin n hnpos, hb] at hlt ⊢
      rcases Float64.round_cases false n 1 with h | ⟨m, h⟩
      · rw [h, Float64.inf_div_fin, Float64.floor_inf, hn, Float64.lt_inf_fin] at hlt
        exact absurd hlt (by simp)
      · rw [h] at hlt ⊢
        rcases Float64.div_fin_cases m b hb0 with g | ⟨q, g⟩
        · rw [g, Float64.floor_inf, hn, Float64.lt_inf_fin] at hlt
          exact absurd hlt (by simp)
        · rw [g] at hlt ⊢
          rw [hn] at hlt
          simp only [Float64.floor, Float64.lt_fin, Float64.toInt_false, decide_eq_true_eq] at hlt
          have hi : q / 2 ^ 1074 < c := by
            have : q / 2 ^ 1074 * 2 ^ 1074 < c * 2 ^ 1074 := by exact_mod_cast hlt
            exact Nat.lt_of_mul_lt_mul_right this
          simp only [Float64.floor]
          rw [Float64.toIndex_integer]
          exact bumped _ hi
    · rw [if_neg hlt, if_pos hmax]
      exact helse
  · rw [if_neg hpos]
    have hz : n = 0 := by
      rw [hv, Float64.zero_eq] at hpos
      simp only [Float64.gt, Float64.lt_fin, decide_eq_true_eq, Float64.toInt_false] at hpos
      rcases hs with h | h
      · subst h
        rw [Float64.toInt_false] at hpos
        have : ¬ 0 < n := fun hh => hpos (by exact_mod_cast hh)
        omega
      · exact h
    subst hz
    have heq : Float64.eq val 0 = true := by
      rw [hv, Float64.zero_eq]
      cases s <;> simp [Float64.eq, Float64.toInt]
    rw [if_pos heq]
    exact bumped 0 (by omega)

theorem foldl_countValue (binSize max numBins : Float64) (b c : Nat)
    (hb : binSize = Float64.fin false b) (hb0 : 0 < b)
    (hn : numBins = Float64.fin false (c * 2 ^ 1074)) (hc1 : 1 ≤ c) (hc2 : c ≤ 4294967295)
    (vals : List Float64) (h0 : ∀ v ∈ vals, Float64.isNonneg v = true)
    (hmax : ∀ v ∈ vals, Float64.le v max = true) (binCounts : List Nat)
    (hlen : binCounts.length = c) :
    (vals.foldl (countValue binSize max numBins) binCounts).sum = binCounts.sum + vals.length := by
  induction vals generalizing binCounts with
  | nil => simp
  | cons v vs ih =>
    obtain ⟨h1, h2⟩ := countValue_counts binSize max numBins binCounts v b c hb hb0 hn hc1 hc2 hlen
      (h0 v (List.mem_cons_self _ _)) (hmax v (List.mem_cons_self _ _))
    simp only [List.foldl_cons, List.length_cons]
    rw [ih (fun u hu => h0 u (List.mem_cons_of_mem _ hu))
      (fun u hu => hmax u (List.mem_cons_of_mem _ hu)) _ (by rw [h1, hlen]), h2]
    omega

/-- For values that are not negative and a positive bin size, `max` bounds every value, and
`numBins` is `+Infinity` or a positive integer. -/
theorem numBins_spec (dataValues : List Float64) (binSize : Float64) (b : Nat)
    (hne : dataValues ≠ []) (h0 : ∀ v ∈ dataValues, Float64.isNonneg v = true)
    (hb : binSize = Float64.fin false b) (hb0 : 0 < b) (hb1 : b < 2 ^ 2098) :
    (∀ v ∈ dataValues, Float64.le v
        (Float64.max (dataValues.foldl Float64.max (Float64.inf true)) 1.1) = true) ∧
      (numBins dataValues binSize = Float64.inf false ∨
        ∃ c, 1 ≤ c ∧ numBins dataValues binSize = Float64.fin false (c * 2 ^ 1074)) := by
  have hfinite : ∀ v ∈ dataValues, Float64.isFinite v = true := by
    intro v hv
    obtain ⟨s, n, e, _⟩ := Float64.fin_of_isNonneg v (h0 v hv)
    rw [e]
    rfl
  obtain ⟨u, k, hmax, hle⟩ := Float64.mathMax_fin dataValues hne hfinite
  obtain ⟨u1, k1, hM, h1, h2⟩ := Float64.max_fin u false k (2476979795053773 * 2 ^ 1023)
  have hU : 0 < 2 ^ 1074 := pow_pos (by norm_num) 1074
  have hk1 : u1 = false ∧ 2 ^ 1074 ≤ k1 := by
    have h11 := Float64.lit_11_ge
    generalize 2476979795053773 * 2 ^ 1023 = c11 at h2 h11
    generalize 2 ^ 1074 = U at hU h11 ⊢
    cases u1 with
    | true =>
      rw [Float64.toInt_false, Float64.toInt_true] at h2
      omega
    | false =>
      rw [Float64.toInt_false, Float64.toInt_false] at h2
      exact ⟨rfl, by omega⟩
  obtain ⟨hu1, hk1⟩ := hk1
  subst hu1
  constructor
  · intro v hv
    obtain ⟨s, n, e, _⟩ := Float64.fin_of_isNonneg v (h0 v hv)
    rw [hmax, Float64.lit_11_eq, hM, e, Float64.le_fin]
    rw [e] at hv
    exact decide_eq_true (le_trans (hle s n hv) h1)
  · unfold numBins
    simp only []
    rw [hmax, Float64.lit_11_eq, hM, hb, Float64.sub_zero_fin k1 (lt_of_lt_of_le hU hk1)]
    rcases Float64.round_ge false k1 1 1074 one_pos (by rw [one_mul]; exact hk1) with
      h | ⟨m, h, hm⟩
    · rw [h, Float64.inf_div_fin, Float64.ceil_inf]
      exact Or.inl rfl
    · rw [h, Float64.div_eq]
      simp only [Float64.div, if_neg (Nat.pos_iff_ne_zero.mp hb0), Bool.xor_false]
      have hbm : b * 2 ^ 0 ≤ m * 2 ^ 1074 := by
        have e1 : (2 : Nat) ^ 2098 ≤ 2 ^ 1074 * 2 ^ 1074 := by
          rw [← pow_add]
          exact pow_le_pow_right₀ (by norm_num) (by norm_num)
        have e2 : 2 ^ 1074 * 2 ^ 1074 ≤ m * 2 ^ 1074 := Nat.mul_le_mul_right _ hm
        rw [pow_zero, mul_one]
        exact le_trans (le_of_lt hb1) (le_trans e1 e2)
      rcases Float64.round_ge false (m * 2 ^ 1074) b 0 hb0 hbm with g | ⟨q, g, hq⟩
      · rw [g, Float64.ceil_inf]
        exact Or.inl rfl
      · rw [g]
        refine Or.inr ⟨(q + (2 ^ 1074 - 1)) / 2 ^ 1074, ?_, rfl⟩
        rw [pow_zero] at hq
        generalize 2 ^ 1074 = U at hU
        exact (Nat.one_le_div_iff hU).mpr (by omega)

end Binary64

/-- C16 as amended: for a non-empty list of finite numbers that are not negative and a positive
finite bin size, in the binary64 arithmetic of the code.  When the number of bins
`numBins = Math.ceil(max / binSize)` that the code computes is at most `2^32 - 1`,
`createHistogramData` returns a histogram and loses no value: the counts in `y` sum to the number
of values, every count in `y` is positive, and `x`, `y` and `width` have the same length.
Otherwise `numBins` is `Infinity` and the empty histogram is returned, or `numBins` exceeds
`2^32 - 1` and `new Array(numBins)` throws a `RangeError`. -/
theorem createHistogramData_counts_all (dataValues : List Float64) (binSize : Float64)
    (hne : dataValues ≠ []) (h0 : ∀ v ∈ dataValues, Float64.isNonneg v = true)
    (hb : Float64.isPositive binSize = true) :
    (Float64.le (Binary64.numBins dataValues binSize) 4294967295 = true →
      ∃ h, Binary64.createHistogramData dataValues binSize = some h ∧
        h.y.sum = dataValues.length ∧ (∀ c ∈ h.y, 0 < c) ∧ h.x.length = h.y.length ∧
        h.width.length = h.y.length) ∧
      (Float64.le (Binary64.numBins dataValues binSize) 4294967295 = false →
        (Binary64.numBins dataValues binSize = Float64.inf false ∧
          Binary64.createHistogramData dataValues binSize = some ⟨[], [], []⟩) ∨
        (Float64.lt 4294967295 (Binary64.numBins dataValues binSize) = true ∧
          Binary64.createHistogramData dataValues binSize = none)) := by
  obtain ⟨b, hb, hb0, hb1⟩ := Float64.fin_of_isPositive binSize hb
  obtain ⟨hle, hnb⟩ := Binary64.numBins_spec dataValues binSize b hne h0 hb hb0 hb1
  have hU : 0 < 2 ^ 1074 := pow_pos (by norm_num) 1074
  rcases hnb with hinf | ⟨c, hc1, hc⟩
  · constructor
    · intro hnum
      rw [hinf, Float64.maxLength_eq, Float64.le_inf_fin] at hnum
      cases hnum
    · intro _
      refine Or.inl ⟨hinf, ?_⟩
      unfold Binary64.createHistogramData
      rw [if_neg hne]
      simp only []
      rw [hinf]
      exact if_pos (Or.inr rfl)
  · have hcU : 0 < c * 2 ^ 1074 := Nat.mul_pos hc1 hU
    have e1 : ¬ (Float64.le (Float64.fin false (c * 2 ^ 1074)) 0 = true ∨
        Float64.isFinite (Float64.fin false (c * 2 ^ 1074)) = false) := by
      rw [Float64.zero_eq, Float64.le_fin, decide_eq_true_eq, Float64.toInt_false,
        Float64.toInt_false]
      intro h
      rcases h with h | h
      · have : c * 2 ^ 1074 ≤ 0 := by exact_mod_cast h
        omega
      · cases h
    constructor
    · intro hnum
      have hc2 : c ≤ 4294967295 := by
        rw [hc, Float64.maxLength_eq, Float64.le_fin, decide_eq_true_eq, Float64.toInt_false,
          Float64.toInt_false] at hnum
        have : c * 2 ^ 1074 ≤ 4294967295 * 2 ^ 1074 := by exact_mod_cast hnum
        exact Nat.le_of_mul_le_mul_right this hU
      have e2 : ¬ Float64.lt 4294967295 (Float64.fin false (c * 2 ^ 1074)) = true := by
        rw [Float64.maxLength_eq, Float64.lt_fin, decide_eq_true_eq, Float64.toInt_false,
          Float64.toInt_false]
        intro h
        have h1 : 4294967295 * 2 ^ 1074 < c * 2 ^ 1074 := by exact_mod_cast h
        have h2 := Nat.lt_of_mul_lt_mul_right h1
        omega
      have hsum := Binary64.foldl_countValue binSize
        (Float64.max (dataValues.foldl Float64.max (Float64.inf true)) 1.1)
        (Float64.fin false (c * 2 ^ 1074)) b c hb hb0 rfl hc1 hc2 dataValues h0 hle
        (List.replicate c 0) (by simp)
      obtain ⟨k1, k2, k3, k4⟩ := Binary64.keepBins_sums binSize 0
        (dataValues.foldl (Binary64.countValue binSize
            (Float64.max (dataValues.foldl Float64.max (Float64.inf true)) 1.1)
            (Float64.fin false (c * 2 ^ 1074))) (List.replicate c 0))
      refine ⟨_, ?_, ?_, k2, k3, k4⟩
      · unfold Binary64.createHistogramData
        rw [if_neg hne]
        simp only []
        rw [hc, if_neg e1, if_neg e2, Float64.toIndex_integer]
      · rw [k1, hsum]
        simp
    · intro hnum
      have e2 : Float64.lt 4294967295 (Float64.fin false (c * 2 ^ 1074)) = true := by
        rw [hc, Float64.maxLength_eq, Float64.le_fin, decide_eq_false_iff_not,
          Float64.toInt_false, Float64.toInt_false] at hnum
        rw [Float64.maxLength_eq, Float64.lt_fin, decide_eq_true_eq, Float64.toInt_false,
          Float64.toInt_false]
        exact not_le.mp hnum
      refine Or.inr ⟨by rw [hc]; exact e2, ?_⟩
      unfold Binary64.createHistogramData
      rw [if_neg hne]
      simp only []
      rw [hc, if_neg e1, if_pos e2]

/-- C16 as amended, at a concrete input: the values 0, 0.3 and 2 with the bin size 0.05 of the
page. -/
theorem createHistogramData_counts_all_witness :
    ∃ h, Binary64.createHistogramData [0, 0.3, 2] 0.05 = some h ∧
      h.y.sum = [(0 : Float64), 0.3, 2].length ∧ (∀ c ∈ h.y, 0 < c) ∧
      h.x.length = h.y.length ∧ h.width.length = h.y.length :=
  (createHistogramData_counts_all [0, 0.3, 2] 0.05 (by simp) (by decide!) (by decide!)).1
    (by decide!)

/-- C16 as stated fails: with the single value 1 and the positive bin size `5e-324`, `numBins`
is `Infinity` and the histogram returned is empty, so the value is lost; and with the bin size
`1e-10`, `numBins` is 11000000000 and `new Array(numBins)` throws a `RangeError`, so nothing is
returned. -/
theorem small_bin_size_loses_values :
    Float64.isPositive 5e-324 = true ∧
      Binary64.createHistogramData [1] 5e-324 = some ⟨[], [], []⟩ ∧
      Binary64.numBins [1] 5e-324 = Float64.inf false ∧
      Float64.isPositive 1e-10 = true ∧
      Binary64.createHistogramData [1] 1e-10 = none ∧
      Binary64.numBins [1] 1e-10 = 11000000000 := by
  decide!

end HistogramLemmas

section Lemmas

variable {K : Type} [LinearOrderedField K]

set_option linter.unusedSectionVars false

/-! ## Resolving one overlapping pair (C13, C14) -/

theorem resolvePair_of_separation (sqrt : K → K) (d : Option Nat) (i j : Nat)
    (nodes : List (Node K)) (n1 n2 : Node K) (move : JSVal K × JSVal K)
    (hi : nodes[i]? = some n1) (hj : nodes[j]? = some n2) (hr : n2.currentRadius ≠ 0)
    (hs : separation sqrt n1 n2 = some move) :
    resolvePair sqrt d i j nodes = pushApart d i j n1 n2 move nodes := by
  unfold resolvePair
  rw [hi, hj]
  simp only [hr, if_false, hs]

theorem resolvePair_of_no_separation (sqrt : K → K) (d : Option Nat) (i j : Nat)
    (nodes : List (Node K)) (n1 n2 : Node K)
    (hi : nodes[i]? = some n1) (hj : nodes[j]? = some n2)
    (hs : separation sqrt n1 n2 = none) :
    resolvePair sqrt d i j nodes = nodes := by
  unfold resolvePair
  rw [hi, hj]
  simp only [hs]
  split_ifs <;> rfl

/-- The move of an overlapping pair whose centres are apart. -/
theorem separation_apart (sqrt : K → K) (n1 n2 : Node K) (x1 y1 x2 y2 : K)
    (h1x : n1.x = num x1) (h1y : n1.y = num y1) (h2x : n2.x = num x2) (h2y : n2.y = num y2)
    (hlt : (x2 - x1) * (x2 - x1) + (y2 - y1) * (y2 - y1) <
      (n1.currentRadius + n2.currentRadius + padding) *
        (n1.currentRadius + n2.currentRadius + padding))
    (hs : sqrt ((x2 - x1) * (x2 - x1) + (y2 - y1) * (y2 - y1)) ≠ 0) :
    separation sqrt n1 n2 =
      some
        (num ((x2 - x1) / sqrt ((x2 - x1) * (x2 - x1) + (y2 - y1) * (y2 - y1)) *
            (n1.currentRadius + n2.currentRadius + padding -
              sqrt ((x2 - x1) * (x2 - x1) + (y2 - y1) * (y2 - y1))) * (1 / 2)),
          num ((y2 - y1) / sqrt ((x2 - x1) * (x2 - x1) + (y2 - y1) * (y2 - y1)) *
            (n1.currentRadius + n2.currentRadius + padding -
              sqrt ((x2 - x1) * (x2 - x1) + (y2 - y1) * (y2 - y1))) * (1 / 2))) := by
  rw [separation_num sqrt n1 n2 x1 y1 x2 y2 h1x h1y h2x h2y, if_pos hlt]
  simp only [hs, if_false]

/-- The move of a pair with coincident centres: the nominal separation `(0.01, 0)`. -/
theorem separation_coincident (sqrt : K → K) (hsqrt : sqrt 0 = 0) (n1 n2 : Node K) (x y : K)
    (h1x : n1.x = num x) (h1y : n1.y = num y) (h2x : n2.x = num x) (h2y : n2.y = num y)
    (hpos : 0 < n1.currentRadius + n2.currentRadius + padding) :
    separation sqrt n1 n2 =
      some (num ((n1.currentRadius + n2.currentRadius + padding - 1 / 100) * (1 / 2)), num 0) := by
  rw [separation_num sqrt n1 n2 x y x y h1x h1y h2x h2y]
  have hm : (0 : K) < (n1.currentRadius + n2.currentRadius + padding) *
      (n1.currentRadius + n2.currentRadius + padding) := mul_pos hpos hpos
  simp only [sub_self, mul_zero, add_zero, hsqrt, if_true, hm, zero_div, zero_mul]
  congr 3
  field_simp

/-- The algebra of a resolved pair: pushing the centres apart by `pen / 2` each along the
connecting axis leaves them `m` apart. -/
theorem pushed_distance (dx dy s m : K) (hs : s ≠ 0) (hss : s * s = dx * dx + dy * dy) :
    (dx + 2 * (dx / s * (m - s) * (1 / 2))) * (dx + 2 * (dx / s * (m - s) * (1 / 2))) +
        (dy + 2 * (dy / s * (m - s) * (1 / 2))) * (dy + 2 * (dy / s * (m - s) * (1 / 2))) =
      m * m := by
  have h1 : dx + 2 * (dx / s * (m - s) * (1 / 2)) = dx * m / s := by
    field_simp
    ring
  have h2 : dy + 2 * (dy / s * (m - s) * (1 / 2)) = dy * m / s := by
    field_simp
    ring
  rw [h1, h2]
  field_simp
  linear_combination (- m * m) * hss

theorem move_length (dx dy s p : K) (hs : s ≠ 0) (hss : s * s = dx * dx + dy * dy) :
    (dx / s * p) * (dx / s * p) + (dy / s * p) * (dy / s * p) = p * p := by
  field_simp
  linear_combination (- p * p) * hss

theorem lt_length_of_getElem? {α : Type} (l : List α) (i : Nat) (a : α) (h : l[i]? = some a) :
    i < l.length :=
  (List.getElem?_eq_some.mp h).1

theorem pushApart_getElem? (d : Option Nat) (i j : Nat) (n1 n2 : Node K) (mx my : K)
    (a1 b1 a2 b2 : K) (nodes : List (Node K)) (hi : nodes[i]? = some n1)
    (hj : nodes[j]? = some n2) (hij : i ≠ j) (h1x : n1.x = num a1) (h1y : n1.y = num b1)
    (h2x : n2.x = num a2) (h2y : n2.y = num b2) :
    (d ≠ some i → d ≠ some j →
      (pushApart d i j n1 n2 (num mx, num my) nodes)[i]? =
          some { n1 with x := num (a1 - mx), y := num (b1 - my) } ∧
        (pushApart d i j n1 n2 (num mx, num my) nodes)[j]? =
          some { n2 with x := num (a2 + mx), y := num (b2 + my) }) ∧
    (d = some i →
      (pushApart d i j n1 n2 (num mx, num my) nodes)[i]? = some n1 ∧
        (pushApart d i j n1 n2 (num mx, num my) nodes)[j]? =
          some { n2 with x := num (a2 + mx * 2), y := num (b2 + my * 2) }) ∧
    (d = some j →
      (pushApart d i j n1 n2 (num mx, num my) nodes)[i]? =
          some { n1 with x := num (a1 - mx * 2), y := num (b1 - my * 2) } ∧
        (pushApart d i j n1 n2 (num mx, num my) nodes)[j]? = some n2) := by
  have hil := lt_length_of_getElem? nodes i n1 hi
  have hjl := lt_length_of_getElem? nodes j n2 hj
  refine ⟨?_, ?_, ?_⟩
  · intro h1 h2
    unfold pushApart
    simp only [h1, h2, if_false, h1x, h1y, h2x, h2y, num_sub_num, num_add_num]
    constructor
    · rw [List.getElem?_set_ne (Ne.symm hij), List.getElem?_set_self hil]
    · rw [List.getElem?_set_self (by rw [List.length_set]; exact hjl)]
  · intro h1
    unfold pushApart
    simp only [h1, if_true, h2x, h2y, num_mul_num, num_add_num]
    constructor
    · rw [List.getElem?_set_ne (Ne.symm hij), hi]
    · rw [List.getElem?_set_self hjl]
  · intro h2
    subst h2
    have h1 : (some j : Option Nat) ≠ some i := fun h => hij (Option.some.inj h).symm
    unfold pushApart
    simp only [h1, if_true, if_false, h1x, h1y, num_mul_num, num_sub_num]
    constructor
    · rw [List.getElem?_set_self hil]
    · rw [List.getElem?_set_ne hij, hj]

theorem isSqrt_mul_self (sqrt : K → K) (hsqrt : IsSqrt sqrt) (m : K) (hm : 0 ≤ m) :
    sqrt (m * m) = m :=
  (mul_self_inj_of_nonneg (hsqrt (m * m) (mul_self_nonneg m)).1 hm).mp
    (hsqrt (m * m) (mul_self_nonneg m)).2

theorem resolvePair_apart_spec (sqrt : K → K) (hsqrt : IsSqrt sqrt) (d : Option Nat)
    (i j : Nat) (nodes : List (Node K)) (n1 n2 : Node K) (x1 y1 x2 y2 : K)
    (hi : nodes[i]? = some n1) (hj : nodes[j]? = some n2) (hij : i ≠ j)
    (h1x : n1.x = num x1) (h1y : n1.y = num y1) (h2x : n2.x = num x2) (h2y : n2.y = num y2)
    (hr1 : 0 < n1.currentRadius) (hr2 : 0 < n2.currentRadius)
    (hpos : 0 < sqrt ((x2 - x1) * (x2 - x1) + (y2 - y1) * (y2 - y1)))
    (hlt : sqrt ((x2 - x1) * (x2 - x1) + (y2 - y1) * (y2 - y1)) <
      n1.currentRadius + n2.currentRadius + padding) :
    ∃ ux uy pen a1 b1 a2 b2 : K,
      ux * ux + uy * uy = 1 ∧
      x2 - x1 = sqrt ((x2 - x1) * (x2 - x1) + (y2 - y1) * (y2 - y1)) * ux ∧
      y2 - y1 = sqrt ((x2 - x1) * (x2 - x1) + (y2 - y1) * (y2 - y1)) * uy ∧
      pen = n1.currentRadius + n2.currentRadius + padding -
        sqrt ((x2 - x1) * (x2 - x1) + (y2 - y1) * (y2 - y1)) ∧
      (resolvePair sqrt d i j nodes)[i]? = some { n1 with x := num a1, y := num b1 } ∧
      (resolvePair sqrt d i j nodes)[j]? = some { n2 with x := num a2, y := num b2 } ∧
      sqrt ((a2 - a1) * (a2 - a1) + (b2 - b1) * (b2 - b1)) =
        n1.currentRadius + n2.currentRadius + padding ∧
      (d ≠ some i → d ≠ some j →
        a1 = x1 - ux * (pen / 2) ∧ b1 = y1 - uy * (pen / 2) ∧
          a2 = x2 + ux * (pen / 2) ∧ b2 = y2 + uy * (pen / 2)) ∧
      (d = some i → a1 = x1 ∧ b1 = y1 ∧ a2 = x2 + ux * pen ∧ b2 = y2 + uy * pen) ∧
      (d = some j → a2 = x2 ∧ b2 = y2 ∧ a1 = x1 - ux * pen ∧ b1 = y1 - uy * pen) := by
  have hv : 0 ≤ (x2 - x1) * (x2 - x1) + (y2 - y1) * (y2 - y1) :=
    add_nonneg (mul_self_nonneg _) (mul_self_nonneg _)
  obtain ⟨-, hss⟩ := hsqrt _ hv
  generalize hs : sqrt ((x2 - x1) * (x2 - x1) + (y2 - y1) * (y2 - y1)) = s at hss hpos hlt ⊢
  have hs0 : s ≠ 0 := ne_of_gt hpos
  have hm0 : 0 ≤ n1.currentRadius + n2.currentRadius + padding := le_of_lt (lt_trans hpos hlt)
  have hvlt : (x2 - x1) * (x2 - x1) + (y2 - y1) * (y2 - y1) <
      (n1.currentRadius + n2.currentRadius + padding) *
        (n1.currentRadius + n2.currentRadius + padding) := by
    rw [← hss]
    exact mul_self_lt_mul_self (le_of_lt hpos) hlt
  have hsep := separation_apart sqrt n1 n2 x1 y1 x2 y2 h1x h1y h2x h2y hvlt (by rw [hs]; exact hs0)
  rw [hs] at hsep
  have hres := resolvePair_of_separation sqrt d i j nodes n1 n2 _ hi hj (ne_of_gt hr2) hsep
  obtain ⟨p1, p2, p3⟩ := pushApart_getElem? d i j n1 n2
    ((x2 - x1) / s * (n1.currentRadius + n2.currentRadius + padding - s) * (1 / 2))
    ((y2 - y1) / s * (n1.currentRadius + n2.currentRadius + padding - s) * (1 / 2))
    x1 y1 x2 y2 nodes hi hj hij h1x h1y h2x h2y
  have hunit : (x2 - x1) / s * ((x2 - x1) / s) + (y2 - y1) / s * ((y2 - y1) / s) = 1 := by
    field_simp
    linear_combination (-1 : K) * hss
  have hdist : ∀ a1 b1 a2 b2 : K,
      a2 - a1 = (x2 - x1) + 2 * ((x2 - x1) / s *
        (n1.currentRadius + n2.currentRadius + padding - s) * (1 / 2)) →
      b2 - b1 = (y2 - y1) + 2 * ((y2 - y1) / s *
        (n1.currentRadius + n2.currentRadius + padding - s) * (1 / 2)) →
      sqrt ((a2 - a1) * (a2 - a1) + (b2 - b1) * (b2 - b1)) =
        n1.currentRadius + n2.currentRadius + padding := by
    intro a1 b1 a2 b2 ha hb
    rw [ha, hb, pushed_distance _ _ s _ hs0 hss]
    exact isSqrt_mul_self sqrt hsqrt _ hm0
  rw [hres]
  by_cases hdi : d = some i
  · obtain ⟨q1, q2⟩ := p2 hdi
    have hdj : d ≠ some j := by
      rw [hdi]
      intro h
      exact hij (Option.some.inj h)
    refine ⟨(x2 - x1) / s, (y2 - y1) / s, _, x1, y1, _, _, hunit, by field_simp, by field_simp, rfl,
      ?_, q2, hdist _ _ _ _ (by ring) (by ring), fun h => absurd hdi h, ?_, fun h => absurd h hdj⟩
    · rw [q1]
      cases n1
      simp only at h1x h1y
      subst h1x h1y
      rfl
    · intro _
      exact ⟨rfl, rfl, by ring, by ring⟩
  · by_cases hdj : d = some j
    · obtain ⟨q1, q2⟩ := p3 hdj
      refine ⟨(x2 - x1) / s, (y2 - y1) / s, _, _, _, x2, y2, hunit, by field_simp, by field_simp,
        rfl, q1, ?_, hdist _ _ _ _ (by ring) (by ring), fun _ h => absurd hdj h,
        fun h => absurd h hdi, ?_⟩
      · rw [q2]
        cases n2
        simp only at h2x h2y
        subst h2x h2y
        rfl
      · intro _
        exact ⟨rfl, rfl, by ring, by ring⟩
    · obtain ⟨q1, q2⟩ := p1 hdi hdj
      exact ⟨(x2 - x1) / s, (y2 - y1) / s, _, _, _, _, _, hunit, by field_simp, by field_simp,
        rfl, q1, q2, hdist _ _ _ _ (by ring) (by ring),
        fun _ _ => ⟨by ring, by ring, by ring, by ring⟩, fun h => absurd h hdi,
        fun h => absurd h hdj⟩

/-- C13 as amended: in exact arithmetic, with `sqrt` the exact square root, for a pair of nodes
at the indices `i ≠ j` with finite
positions and positive radii whose centre distance `s` satisfies `0 < s < r1 + r2 + 1.5`,
resolving the pair moves the nodes only along the unit vector `(ux, uy)` of the line through
their centres and leaves the centre distance exactly `r1 + r2 + 1.5`: with `pen` the
penetration depth, each node moves by `pen / 2` when neither is dragged, and the other node
moves by `pen` when one of them is the dragged node. -/
theorem resolvePair_restores_distance (sqrt : K → K) (hsqrt : IsSqrt sqrt) (d : Option Nat)
    (i j : Nat) (nodes : List (Node K)) (n1 n2 : Node K) (x1 y1 x2 y2 : K)
    (hi : nodes[i]? = some n1) (hj : nodes[j]? = some n2) (hij : i ≠ j)
    (h1x : n1.x = num x1) (h1y : n1.y = num y1) (h2x : n2.x = num x2) (h2y : n2.y = num y2)
    (hr1 : 0 < n1.currentRadius) (hr2 : 0 < n2.currentRadius)
    (hpos : 0 < sqrt ((x2 - x1) * (x2 - x1) + (y2 - y1) * (y2 - y1)))
    (hlt : sqrt ((x2 - x1) * (x2 - x1) + (y2 - y1) * (y2 - y1)) <
      n1.currentRadius + n2.currentRadius + padding) :
    ∃ ux uy pen a1 b1 a2 b2 : K,
      ux * ux + uy * uy = 1 ∧
      x2 - x1 = sqrt ((x2 - x1) * (x2 - x1) + (y2 - y1) * (y2 - y1)) * ux ∧
      y2 - y1 = sqrt ((x2 - x1) * (x2 - x1) + (y2 - y1) * (y2 - y1)) * uy ∧
      pen = n1.currentRadius + n2.currentRadius + padding -
        sqrt ((x2 - x1) * (x2 - x1) + (y2 - y1) * (y2 - y1)) ∧
      (resolvePair sqrt d i j nodes)[i]? = some { n1 with x := num a1, y := num b1 } ∧
      (resolvePair sqrt d i j nodes)[j]? = some { n2 with x := num a2, y := num b2 } ∧
      sqrt ((a2 - a1) * (a2 - a1) + (b2 - b1) * (b2 - b1)) =
        n1.currentRadius + n2.currentRadius + padding ∧
      (d ≠ some i → d ≠ some j →
        a1 = x1 - ux * (pen / 2) ∧ b1 = y1 - uy * (pen / 2) ∧
          a2 = x2 + ux * (pen / 2) ∧ b2 = y2 + uy * (pen / 2)) ∧
      (d = some i → a1 = x1 ∧ b1 = y1 ∧ a2 = x2 + ux * pen ∧ b2 = y2 + uy * pen) ∧
      (d = some j → a2 = x2 ∧ b2 = y2 ∧ a1 = x1 - ux * pen ∧ b1 = y1 - uy * pen) :=
  resolvePair_apart_spec sqrt hsqrt d i j nodes n1 n2 x1 y1 x2 y2 hi hj hij h1x h1y h2x h2y hr1 hr2 hpos hlt

theorem isSqrt_real : IsSqrt Real.sqrt :=
  fun v hv => ⟨Real.sqrt_nonneg v, Real.mul_self_sqrt hv⟩

theorem sqrt_three_four : Real.sqrt ((3 - 0) * (3 - 0) + (4 - 0) * (4 - 0)) = 5 := by
  rw [show ((3 : ℝ) - 0) * (3 - 0) + (4 - 0) * (4 - 0) = 5 ^ 2 by norm_num]
  exact Real.sqrt_sq (by norm_num)

/-- C13 as amended, at a concrete input: two nodes of radius 20 at (0, 0) and (3, 4), neither
dragged. -/
theorem resolvePair_restores_distance_witness :
    ∃ a1 b1 a2 b2 : ℝ,
      (resolvePair Real.sqrt none 0 1
          [sampleNode "a" (0 : ℝ) 0 20 (num 0) (num 0),
            sampleNode "b" (3 : ℝ) 4 20 (num 3) (num 4)])[0]? =
        some { sampleNode "a" (0 : ℝ) 0 20 (num 0) (num 0) with x := num a1, y := num b1 } ∧
      (resolvePair Real.sqrt none 0 1
          [sampleNode "a" (0 : ℝ) 0 20 (num 0) (num 0),
            sampleNode "b" (3 : ℝ) 4 20 (num 3) (num 4)])[1]? =
        some { sampleNode "b" (3 : ℝ) 4 20 (num 3) (num 4) with x := num a2, y := num b2 } ∧
      Real.sqrt ((a2 - a1) * (a2 - a1) + (b2 - b1) * (b2 - b1)) = 20 + 20 + padding := by
  obtain ⟨-, -, -, a1, b1, a2, b2, -, -, -, -, h1, h2, h3, -⟩ :=
    resolvePair_restores_distance Real.sqrt isSqrt_real none 0 1
      [sampleNode "a" (0 : ℝ) 0 20 (num 0) (num 0), sampleNode "b" (3 : ℝ) 4 20 (num 3) (num 4)]
      (sampleNode "a" (0 : ℝ) 0 20 (num 0) (num 0)) (sampleNode "b" (3 : ℝ) 4 20 (num 3) (num 4))
      0 0 3 4 rfl rfl (by decide) rfl rfl rfl rfl
      (by simp [sampleNode]) (by simp [sampleNode])
      (by rw [sqrt_three_four]; norm_num)
      (by rw [sqrt_three_four]; simp only [sampleNode, padding]; norm_num)
  exact ⟨a1, b1, a2, b2, h1, h2, h3⟩

theorem resolvePair_coincident_spec (sqrt : K → K) (hsqrt : sqrt 0 = 0) (d : Option Nat)
    (i j : Nat) (nodes : List (Node K)) (n1 n2 : Node K) (x y : K)
    (hi : nodes[i]? = some n1) (hj : nodes[j]? = some n2) (hij : i ≠ j)
    (h1x : n1.x = num x) (h1y : n1.y = num y) (h2x : n2.x = num x) (h2y : n2.y = num y)
    (hr1 : 0 < n1.currentRadius) (hr2 : 0 < n2.currentRadius) :
    (d ≠ some i → d ≠ some j →
      (resolvePair sqrt d i j nodes)[i]? =
          some { n1 with
            x := num (x - (n1.currentRadius + n2.currentRadius + padding - 1 / 100) / 2)
            y := num y } ∧
        (resolvePair sqrt d i j nodes)[j]? =
          some { n2 with
            x := num (x + (n1.currentRadius + n2.currentRadius + padding - 1 / 100) / 2)
            y := num y }) ∧
    (d = some i →
      (resolvePair sqrt d i j nodes)[i]? = some n1 ∧
        (resolvePair sqrt d i j nodes)[j]? =
          some { n2 with
            x := num (x + (n1.currentRadius + n2.currentRadius + padding - 1 / 100))
            y := num y }) ∧
    (d = some j →
      (resolvePair sqrt d i j nodes)[i]? =
          some { n1 with
            x := num (x - (n1.currentRadius + n2.currentRadius + padding - 1 / 100))
            y := num y } ∧
        (resolvePair sqrt d i j nodes)[j]? = some n2) := by
  have hm : 0 < n1.currentRadius + n2.currentRadius + padding := by
    have : (0 : K) < padding := by unfold padding; norm_num
    linarith
  have e1 : ∀ c : K, c / 2 * 2 = c := fun c => by ring
  have e2 : ∀ c : K, c * (1 / 2) = c / 2 := fun c => by ring
  have hsep := separation_coincident sqrt hsqrt n1 n2 x y h1x h1y h2x h2y hm
  rw [e2] at hsep
  rw [resolvePair_of_separation sqrt d i j nodes n1 n2 _ hi hj (ne_of_gt hr2) hsep]
  obtain ⟨p1, p2, p3⟩ := pushApart_getElem? d i j n1 n2
    ((n1.currentRadius + n2.currentRadius + padding - 1 / 100) / 2) 0
    x y x y nodes hi hj hij h1x h1y h2x h2y
  simp only [sub_zero, add_zero, zero_mul, e1] at p1 p2 p3
  exact ⟨p1, p2, p3⟩

/-- C14: when `sqrt 0 = 0`, for a pair of nodes at the indices `i ≠ j` with positive radii and
exactly coincident finite centres, resolving the pair divides by the nominal distance 0.01, not
by zero, and yields finite positions: the nodes are pushed apart along the x axis only, the
first toward -x and the second toward +x with `y` unchanged, each by half of
`r1 + r2 + 1.5 - 0.01` when neither is dragged, and the other one by the whole of it when one
of them is the dragged node. -/
theorem coincident_pair_pushed_along_x (sqrt : K → K) (hsqrt : sqrt 0 = 0) (d : Option Nat)
    (i j : Nat) (nodes : List (Node K)) (n1 n2 : Node K) (x y : K)
    (hi : nodes[i]? = some n1) (hj : nodes[j]? = some n2) (hij : i ≠ j)
    (h1x : n1.x = num x) (h1y : n1.y = num y) (h2x : n2.x = num x) (h2y : n2.y = num y)
    (hr1 : 0 < n1.currentRadius) (hr2 : 0 < n2.currentRadius) :
    (d ≠ some i → d ≠ some j →
      (resolvePair sqrt d i j nodes)[i]? =
          some { n1 with
            x := num (x - (n1.currentRadius + n2.currentRadius + padding - 1 / 100) / 2)
            y := num y } ∧
        (resolvePair sqrt d i j nodes)[j]? =
          some { n2 with
            x := num (x + (n1.currentRadius + n2.currentRadius + padding - 1 / 100) / 2)
            y := num y }) ∧
    (d = some i →
      (resolvePair sqrt d i j nodes)[i]? = some n1 ∧
        (resolvePair sqrt d i j nodes)[j]? =
          some { n2 with
            x := num (x + (n1.currentRadius + n2.currentRadius + padding - 1 / 100))
            y := num y }) ∧
    (d = some j →
      (resolvePair sqrt d i j nodes)[i]? =
          some { n1 with
            x := num (x - (n1.currentRadius + n2.currentRadius + padding - 1 / 100))
            y := num y } ∧
        (resolvePair sqrt d i j nodes)[j]? = some n2) :=
  resolvePair_coincident_spec sqrt hsqrt d i j nodes n1 n2 x y hi hj hij h1x h1y h2x h2y hr1 hr2

/-- C14 at a concrete input: two nodes of radius 20 both at (10, 20), neither dragged. -/
theorem coincident_pair_pushed_along_x_witness :
    (resolvePair Rat.sqrt none 0 1
        [sampleNode "a" (10 : ℚ) 20 20 (num 10) (num 20),
          sampleNode "b" (10 : ℚ) 20 20 (num 10) (num 20)])[0]? =
      some { sampleNode "a" (10 : ℚ) 20 20 (num 10) (num 20) with
        x := num (10 - (20 + 20 + padding - 1 / 100) / 2)
        y := num 20 } :=
  ((coincident_pair_pushed_along_x Rat.sqrt (by simp [Rat.sqrt]) none 0 1
    [sampleNode "a" (10 : ℚ) 20 20 (num 10) (num 20),
      sampleNode "b" (10 : ℚ) 20 20 (num 10) (num 20)]
    (sampleNode "a" (10 : ℚ) 20 20 (num 10) (num 20))
    (sampleNode "b" (10 : ℚ) 20 20 (num 10) (num 20)) 10 20 rfl rfl (by decide) rfl rfl rfl rfl
    (by simp [sampleNode]) (by simp [sampleNode])).1 (by decide) (by decide)).1

/-! ## Order of the nodes within a step (C15) -/

theorem collideWith_last (sqrt : K → K) (d : Option Nat) (i : Nat) (nodes : List (Node K))
    (h : nodes.length ≤ i + 1) : collideWith sqrt d i nodes = nodes := by
  unfold collideWith
  have h0 : nodes.length - (i + 1) = 0 := by omega
  rw [h0]
  rfl

theorem collideStep_last (sqrt : K → K) (d : Option Nat) (i : Nat) (nodes : List (Node K))
    (h : nodes.length ≤ i + 1) : collideStep sqrt d nodes i = nodes := by
  unfold collideStep
  split
  · split_ifs
    · rfl
    · exact collideWith_last sqrt d i nodes h
  · rfl

/-- The separation step on two nodes is the resolution of their pair. -/
theorem resolveCollisions_pair (sqrt : K → K) (d : Option Nat) (a b : Node K) :
    resolveCollisions sqrt d [a, b] =
      if a.currentRadius = 0 then [a, b] else resolvePair sqrt d 0 1 [a, b] := by
  have hstep0 : collideStep sqrt d [a, b] 0 =
      if a.currentRadius = 0 then [a, b] else resolvePair sqrt d 0 1 [a, b] := by
    unfold collideStep
    simp only [List.getElem?_cons_zero]
    split_ifs
    · rfl
    · rfl
  have hrange : List.range [a, b].length = [0, 1] := by
    show List.range 2 = [0, 1]
    decide
  unfold resolveCollisions
  rw [hrange]
  simp only [List.foldl_cons, List.foldl_nil, hstep0]
  apply collideStep_last
  split_ifs
  · simp
  · rw [resolvePair_length]
    simp

theorem anchorPullFrom_none (s : Nat) (nodes : List (Node K)) :
    anchorPullFrom none s nodes = nodes.map pullNode := by
  induction nodes generalizing s with
  | nil => rfl
  | cons n rest ih => simp [anchorPullFrom, ih]

/-- C15 as stated fails for the separation step: two coincident nodes of radius 20 at (10, 20)
end at different places depending on their order in the list; node `a` goes toward -x when it
comes first and toward +x when it comes second. -/
theorem separation_depends_on_order :
    ((resolveCollisions Real.sqrt none
        [sampleNode "a" (10 : ℝ) 20 20 (num 10) (num 20),
          sampleNode "b" (10 : ℝ) 20 20 (num 10) (num 20)]).map fun n => (n.id, n.x, n.y)) =
      [("a", num (-2149 / 200), num 20), ("b", num (6149 / 200), num 20)] ∧
    ((resolveCollisions Real.sqrt none
        [sampleNode "b" (10 : ℝ) 20 20 (num 10) (num 20),
          sampleNode "a" (10 : ℝ) 20 20 (num 10) (num 20)]).map fun n => (n.id, n.x, n.y)) =
      [("b", num (-2149 / 200), num 20), ("a", num (6149 / 200), num 20)] := by
  have key : ∀ ida idb : String,
      ((resolveCollisions Real.sqrt none
          [sampleNode ida (10 : ℝ) 20 20 (num 10) (num 20),
            sampleNode idb (10 : ℝ) 20 20 (num 10) (num 20)]).map fun n => (n.id, n.x, n.y)) =
        [(ida, num (-2149 / 200), num 20), (idb, num (6149 / 200), num 20)] := by
    intro ida idb
    have hr : (sampleNode ida (10 : ℝ) 20 20 (num 10) (num 20)).currentRadius ≠ 0 := by
      simp [sampleNode]
    rw [resolveCollisions_pair, if_neg hr]
    have hsep := separation_coincident Real.sqrt Real.sqrt_zero
      (sampleNode ida (10 : ℝ) 20 20 (num 10) (num 20))
      (sampleNode idb (10 : ℝ) 20 20 (num 10) (num 20)) 10 20 rfl rfl rfl rfl
      (by simp only [sampleNode, padding]; norm_num)
    rw [resolvePair_of_separation Real.sqrt none 0 1 _ _ _ _ rfl rfl
      (by simp [sampleNode]) hsep]
    simp only [pushApart, sampleNode, padding, List.set_cons_zero, List.set_cons_succ,
      List.map_cons, List.map_nil, num_sub_num, num_add_num, reduceCtorEq, if_false]
    norm_num
  exact ⟨key "a" "b", key "b" "a"⟩

/-- C15 as amended: the anchor-pull step is order-independent. A node gets the same result at
whatever index it stands, provided it is the dragged node in both lists or in neither; and with
no dragged node, pulling a permutation of a list gives the same permutation of the pulled
list. -/
theorem anchorPull_order_independent (d1 d2 : Option Nat) (l1 l2 : List (Node K)) :
    (∀ (i j : Nat) (n : Node K), l1[i]? = some n → l2[j]? = some n →
      (d1 = some i ↔ d2 = some j) → (anchorPull d1 l1)[i]? = (anchorPull d2 l2)[j]?) ∧
    (l1.Perm l2 → (anchorPull none l1).Perm (anchorPull none l2)) := by
  constructor
  · intro i j n hi hj hd
    rw [anchorPull_getElem?, anchorPull_getElem?, hi, hj]
    by_cases h : d1 = some i
    · simp [h, hd.mp h]
    · have h2 : d2 ≠ some j := fun e => h (hd.mpr e)
      simp [h, h2]
  · intro hp
    unfold anchorPull
    rw [anchorPullFrom_none, anchorPullFrom_none]
    exact hp.map pullNode

/-! ## Two nodes after one tick (C1) -/

theorem eq_pair_of_getElem? {α : Type} (l : List α) (a b : α) (hlen : l.length = 2)
    (h0 : l[0]? = some a) (h1 : l[1]? = some b) : l = [a, b] := by
  match l, hlen with
  | [x, y], _ =>
    simp only [List.getElem?_cons_zero, List.getElem?_cons_succ, Option.some.injEq] at h0 h1
    rw [h0, h1]

theorem node_eta (n : Node K) (a b : K) (hx : n.x = num a) (hy : n.y = num b) :
    { n with x := num a, y := num b } = n := by
  cases n
  simp only at hx hy
  subst hx hy
  rfl

theorem isSqrt_le_of_sq_le (sqrt : K → K) (hsqrt : IsSqrt sqrt) (m v : K) (hv : 0 ≤ v)
    (h : m * m ≤ v) : m ≤ sqrt v := by
  obtain ⟨h0, hss⟩ := hsqrt v hv
  by_contra hlt
  rw [not_le] at hlt
  have := mul_self_lt_mul_self h0 hlt
  rw [hss] at this
  exact absurd h (not_le.mpr this)

theorem isSqrt_zero (sqrt : K → K) (hsqrt : IsSqrt sqrt) : sqrt 0 = 0 :=
  mul_self_eq_zero.mp (hsqrt 0 le_rfl).2

/-- The separation step on two finite nodes of positive radius, neither of them dragged. -/
theorem resolveCollisions_two (sqrt : K → K) (hsqrt : IsSqrt sqrt) (d : Option Nat)
    (p1 p2 : Node K) (u1 v1 u2 v2 : K) (hd0 : d ≠ some 0) (hd1 : d ≠ some 1)
    (hr1 : 0 < p1.currentRadius) (hr2 : 0 < p2.currentRadius)
    (h1x : p1.x = num u1) (h1y : p1.y = num v1) (h2x : p2.x = num u2) (h2y : p2.y = num v2) :
    ∃ a1 b1 a2 b2 : K,
      resolveCollisions sqrt d [p1, p2] =
        [{ p1 with x := num a1, y := num b1 }, { p2 with x := num a2, y := num b2 }] ∧
      p1.currentRadius + p2.currentRadius + padding - 1 / 100 ≤
        sqrt ((a2 - a1) * (a2 - a1) + (b2 - b1) * (b2 - b1)) ∧
      (¬ (u1 = u2 ∧ v1 = v2) → p1.currentRadius + p2.currentRadius + padding ≤
        sqrt ((a2 - a1) * (a2 - a1) + (b2 - b1) * (b2 - b1))) ∧
      (u1 = u2 ∧ v1 = v2 →
        a2 - a1 = p1.currentRadius + p2.currentRadius + padding - 1 / 100 ∧ b2 = b1) := by
  have hpad : (0 : K) < padding := by unfold padding; norm_num
  have hm : 0 < p1.currentRadius + p2.currentRadius + padding := by linarith
  have hv : 0 ≤ (u2 - u1) * (u2 - u1) + (v2 - v1) * (v2 - v1) :=
    add_nonneg (mul_self_nonneg _) (mul_self_nonneg _)
  obtain ⟨hs0, hss⟩ := hsqrt _ hv
  rw [resolveCollisions_pair, if_neg (ne_of_gt hr1)]
  by_cases hlt : (u2 - u1) * (u2 - u1) + (v2 - v1) * (v2 - v1) <
      (p1.currentRadius + p2.currentRadius + padding) *
        (p1.currentRadius + p2.currentRadius + padding)
  · by_cases hz : sqrt ((u2 - u1) * (u2 - u1) + (v2 - v1) * (v2 - v1)) = 0
    · -- coincident centres
      have hv0 : (u2 - u1) * (u2 - u1) + (v2 - v1) * (v2 - v1) = 0 := by
        rw [← hss, hz, mul_zero]
      have hu : u2 - u1 = 0 := by
        have h1 := mul_self_nonneg (u2 - u1)
        have h2 := mul_self_nonneg (v2 - v1)
        exact mul_self_eq_zero.mp (by linarith)
      have hw : v2 - v1 = 0 := by
        have h1 := mul_self_nonneg (u2 - u1)
        have h2 := mul_self_nonneg (v2 - v1)
        exact mul_self_eq_zero.mp (by linarith)
      have hu' : u2 = u1 := sub_eq_zero.mp hu
      have hw' : v2 = v1 := sub_eq_zero.mp hw
      subst hu' hw'
      obtain ⟨q1, q2⟩ := (resolvePair_coincident_spec sqrt (isSqrt_zero sqrt hsqrt) d 0 1
        [p1, p2] p1 p2 u2 v2 rfl rfl (by decide) h1x h1y h2x h2y hr1 hr2).1 hd0 hd1
      refine ⟨_, _, _, _, eq_pair_of_getElem? _ _ _ (by rw [resolvePair_length]; rfl) q1 q2,
        ?_, ?_, ?_⟩
      · have he : (u2 + (p1.currentRadius + p2.currentRadius + padding - 1 / 100) / 2 -
            (u2 - (p1.currentRadius + p2.currentRadius + padding - 1 / 100) / 2)) *
            (u2 + (p1.currentRadius + p2.currentRadius + padding - 1 / 100) / 2 -
            (u2 - (p1.currentRadius + p2.currentRadius + padding - 1 / 100) / 2)) +
            (v2 - v2) * (v2 - v2) =
            (p1.currentRadius + p2.currentRadius + padding - 1 / 100) *
              (p1.currentRadius + p2.currentRadius + padding - 1 / 100) := by ring
        rw [he, isSqrt_mul_self sqrt hsqrt _ (by unfold padding; linarith)]
      · intro h
        exact absurd ⟨rfl, rfl⟩ h
      · intro _
        exact ⟨by ring, rfl⟩
    · -- overlapping centres that are apart
      have hpos : 0 < sqrt ((u2 - u1) * (u2 - u1) + (v2 - v1) * (v2 - v1)) :=
        lt_of_le_of_ne hs0 (Ne.symm hz)
      have hsl : sqrt ((u2 - u1) * (u2 - u1) + (v2 - v1) * (v2 - v1)) <
          p1.currentRadius + p2.currentRadius + padding := by
        by_contra hge
        rw [not_lt] at hge
        have := mul_self_le_mul_self hm.le hge
        rw [hss] at this
        exact absurd hlt (not_lt.mpr this)
      obtain ⟨-, -, -, a1, b1, a2, b2, -, -, -, -, q1, q2, hdist, -⟩ :=
        resolvePair_apart_spec sqrt hsqrt d 0 1 [p1, p2] p1 p2 u1 v1 u2 v2 rfl rfl (by decide)
          h1x h1y h2x h2y hr1 hr2 hpos hsl
      refine ⟨a1, b1, a2, b2, eq_pair_of_getElem? _ _ _ (by rw [resolvePair_length]; rfl) q1 q2,
        ?_, ?_, ?_⟩
      · rw [hdist]; linarith
      · intro _; rw [hdist]
      · rintro ⟨rfl, rfl⟩
        simp only [sub_self, mul_zero, add_zero] at hz
        exact absurd (isSqrt_zero sqrt hsqrt) hz
  · -- no overlap
    have hsep : separation sqrt p1 p2 = none := by
      rw [separation_num sqrt p1 p2 u1 v1 u2 v2 h1x h1y h2x h2y, if_neg hlt]
    rw [resolvePair_of_no_separation sqrt d 0 1 [p1, p2] p1 p2 rfl rfl hsep]
    have hge := isSqrt_le_of_sq_le sqrt hsqrt _ _ hv (not_lt.mp hlt)
    refine ⟨u1, v1, u2, v2, ?_, ?_, ?_, ?_⟩
    · rw [node_eta p1 u1 v1 h1x h1y, node_eta p2 u2 v2 h2x h2y]
    · linarith
    · intro _; exact hge
    · rintro ⟨rfl, rfl⟩
      simp only [sub_self, mul_zero, add_zero] at hlt
      exact absurd (mul_pos hm hm) hlt

theorem relax_succ (sqrt : K → K) (d : Option Nat) (n : Nat) (nodes : List (Node K)) :
    relax sqrt d (n + 1) nodes = relaxOnce sqrt d (relax sqrt d n nodes) := by
  unfold relax
  exact Function.iterate_succ_apply' _ _ _

theorem relax_step (sqrt : K → K) (d : Option Nat) (n : Nat) (nodes : List (Node K)) :
    relax sqrt d (n + 1) nodes = relax sqrt d n (relaxOnce sqrt d nodes) := by
  unfold relax
  exact Function.iterate_succ_apply _ _ _

theorem reproject_currentRadius (proj : JSVal K × JSVal K → K × K) (n : Node K) :
    (reproject proj n).currentRadius = n.currentRadius := by
  unfold reproject
  split_ifs <;> rfl

theorem erase_currentRadius (n m : Node K) (h : erasePosition n = erasePosition m) :
    n.currentRadius = m.currentRadius := by
  show (erasePosition n).currentRadius = (erasePosition m).currentRadius
  rw [h]

theorem anchorPull_erase_relax (sqrt : K → K) (d : Option Nat) (n : Nat) (nodes : List (Node K)) :
    (anchorPull d (relax sqrt d n nodes)).map erasePosition = nodes.map erasePosition := by
  unfold anchorPull
  rw [anchorPullFrom_erase, relax_erase]

theorem anchorPull_sound (d : Option Nat) (nodes : List (Node K))
    (h : ∀ n ∈ nodes, Sound n) : ∀ n ∈ anchorPull d nodes, Sound n :=
  anchorPullFrom_sound d 0 nodes h

theorem relaxedNodes_last (sqrt : K → K) (proj : JSVal K × JSVal K → K × K) (w : World K) :
    relaxedNodes sqrt proj w = resolveCollisions sqrt w.draggedNode
      (anchorPull w.draggedNode
        (relax sqrt w.draggedNode 7 (w.stationNodes.map (reproject proj)))) := by
  unfold relaxedNodes
  show relax sqrt w.draggedNode (7 + 1) _ = _
  rw [relax_succ]
  rfl

/-- C1 as amended: when `sqrt` is the square root, with exactly two nodes, both of positive
radius and with finite positions, neither of them dragged, one tick of `runPhysicsLoop` leaves
the two positions finite and at a distance of at least `r1 + r2 + 1.5 - 0.01`; the distance is
at least `r1 + r2 + 1.5` unless the eighth anchor-pull leaves the two positions `p1`, `p2`
exactly coincident, in which case the nominal vector separates them along x by exactly
`r1 + r2 + 1.5 - 0.01`. -/
theorem two_nodes_separated_after_tick (sqrt : K → K) (hsqrt : IsSqrt sqrt)
    (proj : JSVal K × JSVal K → K × K) (w : World K) (n1 n2 : Node K) (x1 y1 x2 y2 : K)
    (hmap : w.map = some proj) (hz : w.isZooming = false) (hnodes : w.stationNodes = [n1, n2])
    (hd0 : w.draggedNode ≠ some 0) (hd1 : w.draggedNode ≠ some 1)
    (hr1 : 0 < n1.currentRadius) (hr2 : 0 < n2.currentRadius)
    (h1x : n1.x = num x1) (h1y : n1.y = num y1) (h2x : n2.x = num x2) (h2y : n2.y = num y2) :
    ∃ p1 p2 q1 q2 : Node K, ∃ a1 b1 a2 b2 : K,
      anchorPull w.draggedNode
          (relax sqrt w.draggedNode 7 (w.stationNodes.map (reproject proj))) = [p1, p2] ∧
      (runPhysicsLoop sqrt w).world.stationNodes = [q1, q2] ∧
      q1.x = num a1 ∧ q1.y = num b1 ∧ q2.x = num a2 ∧ q2.y = num b2 ∧
      n1.currentRadius + n2.currentRadius + padding - 1 / 100 ≤
        sqrt ((a2 - a1) * (a2 - a1) + (b2 - b1) * (b2 - b1)) ∧
      (¬ (p1.x = p2.x ∧ p1.y = p2.y) → n1.currentRadius + n2.currentRadius + padding ≤
        sqrt ((a2 - a1) * (a2 - a1) + (b2 - b1) * (b2 - b1))) ∧
      (p1.x = p2.x ∧ p1.y = p2.y →
        a2 - a1 = n1.currentRadius + n2.currentRadius + padding - 1 / 100 ∧ b2 = b1) := by
  have hne : w.stationNodes ≠ [] := by rw [hnodes]; simp
  have hsound0 : ∀ m ∈ w.stationNodes.map (reproject proj), Sound m := by
    intro m hm
    obtain ⟨m0, hm0, rfl⟩ := List.mem_map.mp hm
    apply reproject_sound
    rw [hnodes] at hm0
    simp only [List.mem_cons, List.mem_singleton, List.not_mem_nil, or_false] at hm0
    rcases hm0 with rfl | rfl
    · exact Or.inr ⟨by rw [h1x]; rfl, by rw [h1y]; rfl⟩
    · exact Or.inr ⟨by rw [h2x]; rfl, by rw [h2y]; rfl⟩
  have hP_sound := anchorPull_sound w.draggedNode _
    (relax_sound sqrt w.draggedNode 7 _ hsound0)
  have hP_erase := anchorPull_erase_relax sqrt w.draggedNode 7 (w.stationNodes.map (reproject proj))
  rw [runPhysicsLoop_active sqrt proj w hmap hne hz, relaxedNodes_last]
  generalize anchorPull w.draggedNode
    (relax sqrt w.draggedNode 7 (w.stationNodes.map (reproject proj))) = P at hP_sound hP_erase ⊢
  rw [hnodes] at hP_erase
  have hlen : P.length = 2 := by
    have := congrArg List.length hP_erase
    simpa using this
  obtain ⟨p1, p2, rfl⟩ := List.length_eq_two.mp hlen
  simp only [List.map_cons, List.map_nil, List.cons.injEq, and_true] at hP_erase
  obtain ⟨e1, e2⟩ := hP_erase
  have hp1r : p1.currentRadius = n1.currentRadius := by
    rw [erase_currentRadius _ _ e1, reproject_currentRadius]
  have hp2r : p2.currentRadius = n2.currentRadius := by
    rw [erase_currentRadius _ _ e2, reproject_currentRadius]
  obtain ⟨u1, v1, -, -, g1x, g1y, -, -⟩ := hP_sound p1 (by simp)
  obtain ⟨u2, v2, -, -, g2x, g2y, -, -⟩ := hP_sound p2 (by simp)
  obtain ⟨a1, b1, a2, b2, hres, k1, k2, k3⟩ :=
    resolveCollisions_two sqrt hsqrt w.draggedNode p1 p2 u1 v1 u2 v2 hd0 hd1
      (by rw [hp1r]; exact hr1) (by rw [hp2r]; exact hr2) g1x g1y g2x g2y
  rw [hp1r, hp2r] at k1 k2 k3
  refine ⟨p1, p2, commitNode { p1 with x := num a1, y := num b1 },
    commitNode { p2 with x := num a2, y := num b2 }, a1, b1, a2, b2, rfl, ?_, ?_, ?_, ?_, ?_,
    k1, ?_, ?_⟩
  · rw [hres]
    rfl
  · rw [commitNode_x]
  · rw [commitNode_y]
  · rw [commitNode_x]
  · rw [commitNode_y]
  · intro h
    apply k2
    rintro ⟨rfl, rfl⟩
    exact h ⟨by rw [g1x, g2x], by rw [g1y, g2y]⟩
  · rintro ⟨hx, hy⟩
    apply k3
    rw [g1x, g2x] at hx
    rw [g1y, g2y] at hy
    exact ⟨JSVal.num.inj hx, JSVal.num.inj hy⟩

/-- C1 as amended, at a concrete input: two nodes of radius 20 with target pixels (0, 0) and
(50, 0), both starting at their targets. -/
theorem two_nodes_separated_after_tick_witness :
    ∃ q1 q2 : Node ℝ, ∃ a1 b1 a2 b2 : ℝ,
      (runPhysicsLoop Real.sqrt
          (sampleWorld
            [sampleNode "a" (0 : ℝ) 0 20 (num 0) (num 0),
              sampleNode "b" (50 : ℝ) 0 20 (num 50) (num 0)])).world.stationNodes = [q1, q2] ∧
        q1.x = num a1 ∧ q1.y = num b1 ∧ q2.x = num a2 ∧ q2.y = num b2 ∧
        (20 : ℝ) + 20 + padding - 1 / 100 ≤
          Real.sqrt ((a2 - a1) * (a2 - a1) + (b2 - b1) * (b2 - b1)) := by
  obtain ⟨-, -, q1, q2, a1, b1, a2, b2, -, h1, h2, h3, h4, h5, h6, -⟩ :=
    two_nodes_separated_after_tick Real.sqrt isSqrt_real sampleProj
      (sampleWorld
        [sampleNode "a" (0 : ℝ) 0 20 (num 0) (num 0), sampleNode "b" (50 : ℝ) 0 20 (num 50) (num 0)])
      (sampleNode "a" (0 : ℝ) 0 20 (num 0) (num 0)) (sampleNode "b" (50 : ℝ) 0 20 (num 50) (num 0))
      0 0 50 0 rfl rfl rfl (by simp [sampleWorld]) (by simp [sampleWorld])
      (by simp [sampleNode]) (by simp [sampleNode]) rfl rfl rfl rfl
  exact ⟨q1, q2, a1, b1, a2, b2, h1, h2, h3, h4, h5, h6⟩

theorem crossingPair_pull (x x1 : K) (hx : x1 = x * (4 / 5)) :
    anchorPull none (crossingPair x) = crossingPair x1 := by
  subst hx
  unfold anchorPull
  rw [anchorPullFrom_none]
  simp only [crossingPair, sampleNode, pullNode, returnSpeed, List.map_cons, List.map_nil,
    num_sub_num, num_mul_num, num_add_num]
  have e1 : x + (0 - x) * (1 / 5) = x * (4 / 5) := by ring
  have e2 : (0 : K) + (0 - 0) * (1 / 5) = 0 := by ring
  have e3 : (65536 : K) + (65536 - 65536) * (1 / 5) = 65536 := by ring
  rw [e1, e2, e3]

theorem crossingPair_far (sqrt : K → K) (x : K)
    (hfar : (83 / 2 : K) * (83 / 2) ≤ (65536 - x) * (65536 - x)) :
    resolveCollisions sqrt none (crossingPair x) = crossingPair x := by
  unfold crossingPair
  rw [resolveCollisions_pair, if_neg (by simp [sampleNode])]
  apply resolvePair_of_no_separation sqrt none 0 1 _ _ _ rfl rfl
  rw [separation_num sqrt _ _ x 0 65536 0 rfl rfl rfl rfl]
  apply if_neg
  simp only [sampleNode, padding, sub_self, mul_zero, add_zero, not_lt]
  norm_num
  linarith

theorem crossingPair_relaxOnce (sqrt : K → K) (x x1 : K) (hx : x1 = x * (4 / 5))
    (hfar : (83 / 2 : K) * (83 / 2) ≤ (65536 - x1) * (65536 - x1)) :
    relaxOnce sqrt none (crossingPair x) = crossingPair x1 := by
  unfold relaxOnce
  rw [crossingPair_pull x x1 hx, crossingPair_far sqrt x1 hfar]

theorem crossingPair_meet (sqrt : K → K) (hsqrt : sqrt 0 = 0) :
    (resolveCollisions sqrt none (crossingPair 65536)).map (fun n => (n.x, n.y)) =
      [(num (13103051 / 200), num 0), (num (13111349 / 200), num 0)] := by
  unfold crossingPair
  rw [resolveCollisions_pair, if_neg (by simp [sampleNode])]
  have hsep := separation_coincident sqrt hsqrt
    ({ sampleNode "a" 0 0 20 (num 65536) (num 0) with targetX := num 0, targetY := num 0 } : Node K)
    ({ sampleNode "b" 65536 0 20 (num 65536) (num 0) with
        targetX := num 65536, targetY := num 0 } : Node K)
    65536 0 rfl rfl rfl rfl (by simp only [sampleNode, padding]; norm_num)
  rw [resolvePair_of_separation sqrt none 0 1 _ _ _ _ rfl rfl (by simp [sampleNode]) hsep]
  simp only [pushApart, sampleNode, padding, List.set_cons_zero, List.set_cons_succ,
    List.map_cons, List.map_nil, num_sub_num, num_add_num, reduceCtorEq, if_false]
  norm_num

/-- C1 as stated fails: two nodes of radius 20 with target pixels (0, 0) and (65536, 0), the
first starting at (390625, 0) and the second at its target. The eighth anchor-pull lands the
first node exactly on the second, and the tick ends with the nodes 41.49 px apart, less than
`20 + 20 + 1.5`. -/
theorem two_nodes_closer_than_minimum :
    ((runPhysicsLoop Real.sqrt
          (sampleWorld
            [sampleNode "a" (0 : ℝ) 0 20 (num 390625) (num 0),
              sampleNode "b" (65536 : ℝ) 0 20 (num 65536) (num 0)])).world.stationNodes.map
        fun n => (n.x, n.y)) =
        [(num (13103051 / 200), num 0), (num (13111349 / 200), num 0)] ∧
      Real.sqrt ((13111349 / 200 - 13103051 / 200) * (13111349 / 200 - 13103051 / 200) +
          (0 - 0) * (0 - 0)) < 20 + 20 + 3 / 2 := by
  constructor
  · rw [runPhysicsLoop_active Real.sqrt sampleProj _ rfl (by simp [sampleWorld]) rfl]
    have h0 : relaxedNodes Real.sqrt sampleProj
        (sampleWorld
          [sampleNode "a" (0 : ℝ) 0 20 (num 390625) (num 0),
            sampleNode "b" (65536 : ℝ) 0 20 (num 65536) (num 0)]) =
        relax Real.sqrt none 8 (crossingPair 390625) := by
      unfold relaxedNodes
      congr 1
    have h8 : relax Real.sqrt none 8 (crossingPair (390625 : ℝ)) =
        resolveCollisions Real.sqrt none (crossingPair 65536) := by
      rw [relax_step, crossingPair_relaxOnce Real.sqrt 390625 312500 (by norm_num) (by norm_num),
        relax_step, crossingPair_relaxOnce Real.sqrt 312500 250000 (by norm_num) (by norm_num),
        relax_step, crossingPair_relaxOnce Real.sqrt 250000 200000 (by norm_num) (by norm_num),
        relax_step, crossingPair_relaxOnce Real.sqrt 200000 160000 (by norm_num) (by norm_num),
        relax_step, crossingPair_relaxOnce Real.sqrt 160000 128000 (by norm_num) (by norm_num),
        relax_step, crossingPair_relaxOnce Real.sqrt 128000 102400 (by norm_num) (by norm_num),
        relax_step, crossingPair_relaxOnce Real.sqrt 102400 81920 (by norm_num) (by norm_num),
        relax_step]
      show relaxOnce Real.sqrt none (crossingPair 81920) = _
      unfold relaxOnce
      rw [crossingPair_pull 81920 65536 (by norm_num)]
    simp only [h0, h8, List.map_map]
    have hxy : ((fun n : Node ℝ => (n.x, n.y)) ∘ commitNode) = fun n => (n.x, n.y) := by
      funext n
      simp [commitNode_x, commitNode_y]
    rw [hxy]
    exact crossingPair_meet Real.sqrt Real.sqrt_zero
  · rw [show ((13111349 : ℝ) / 200 - 13103051 / 200) * (13111349 / 200 - 13103051 / 200) +
        (0 - 0) * (0 - 0) = (4149 / 100) ^ 2 by norm_num, Real.sqrt_sq (by norm_num)]
    norm_num

/-! ## Anchor-pull as an exponential approach (C12) -/

theorem pullNode_num (m : Node K) (u v tu tv : K) (hx : m.x = num u) (hy : m.y = num v)
    (htx : m.targetX = num tu) (hty : m.targetY = num tv) :
    pullNode m = { m with x := num (u + (tu - u) * (1 / 5)), y := num (v + (tv - v) * (1 / 5)) } := by
  simp [pullNode, hx, hy, htx, hty, returnSpeed]

theorem anchorPull_of_not_dragged (d : Option Nat) (nodes : List (Node K)) (k : Nat) (m : Node K)
    (hk : nodes[k]? = some m) (hd : d ≠ some k) :
    (anchorPull d nodes)[k]? = some (pullNode m) := by
  rw [anchorPull_getElem?, hk]
  simp [hd]

/-- The position of a node that no separation step moves, after `j` turns of the
constraint loop. -/
theorem relax_without_collision (sqrt : K → K) (d : Option Nat) (nodes : List (Node K))
    (k : Nat) (m : Node K) (u v tu tv : K) (hk : nodes[k]? = some m) (hd : d ≠ some k)
    (hx : m.x = num u) (hy : m.y = num v) (htx : m.targetX = num tu) (hty : m.targetY = num tv)
    (j : Nat)
    (hfree : ∀ i < j, (resolveCollisions sqrt d (anchorPull d (relax sqrt d i nodes)))[k]? =
      (anchorPull d (relax sqrt d i nodes))[k]?) :
    (relax sqrt d j nodes)[k]? =
      some { m with
        x := num (tu + (4 / 5) ^ j * (u - tu))
        y := num (tv + (4 / 5) ^ j * (v - tv)) } := by
  induction j with
  | zero =>
    have e1 : tu + (4 / 5) ^ 0 * (u - tu) = u := by ring
    have e2 : tv + (4 / 5) ^ 0 * (v - tv) = v := by ring
    rw [e1, e2, node_eta m u v hx hy]
    exact hk
  | succ j ih =>
    have ihj := ih (fun i hi => hfree i (Nat.lt_succ_of_lt hi))
    rw [relax_succ]
    unfold relaxOnce
    rw [hfree j (Nat.lt_succ_self j), anchorPull_of_not_dragged d _ k _ ihj hd,
      pullNode_num
        { m with x := num (tu + (4 / 5) ^ j * (u - tu)), y := num (tv + (4 / 5) ^ j * (v - tv)) }
        (tu + (4 / 5) ^ j * (u - tu)) (tv + (4 / 5) ^ j * (v - tv)) tu tv rfl rfl htx hty]
    have e1 : tu + (4 / 5) ^ j * (u - tu) + (tu - (tu + (4 / 5) ^ j * (u - tu))) * (1 / 5) =
        tu + (4 / 5) ^ (j + 1) * (u - tu) := by ring
    have e2 : tv + (4 / 5) ^ j * (v - tv) + (tv - (tv + (4 / 5) ^ j * (v - tv))) * (1 / 5) =
        tv + (4 / 5) ^ (j + 1) * (v - tv) := by ring
    rw [e1, e2]

/-- One tick for a node that no separation step moves: its offset from the target pixel is
multiplied by `0.8 ^ 8`. -/
theorem tick_without_collision (sqrt : K → K) (proj : JSVal K × JSVal K → K × K) (w : World K)
    (k : Nat) (n : Node K) (a b : K) (hmap : w.map = some proj) (hz : w.isZooming = false)
    (hk : w.stationNodes[k]? = some n) (hd : w.draggedNode ≠ some k)
    (hx : n.x = num a) (hy : n.y = num b)
    (hfree : ∀ i < 8,
      (resolveCollisions sqrt w.draggedNode (anchorPull w.draggedNode
        (relax sqrt w.draggedNode i (w.stationNodes.map (reproject proj)))))[k]? =
      (anchorPull w.draggedNode
        (relax sqrt w.draggedNode i (w.stationNodes.map (reproject proj))))[k]?) :
    (runPhysicsLoop sqrt w).world.stationNodes[k]? =
      some (commitNode { reproject proj n with
        x := num ((proj n.originalLatLng).1 + tickFactor * (a - (proj n.originalLatLng).1))
        y := num ((proj n.originalLatLng).2 + tickFactor * (b - (proj n.originalLatLng).2)) }) := by
  have hne : w.stationNodes ≠ [] := by
    intro h
    rw [h] at hk
    simp at hk
  have hrep : reproject proj n =
      { n with targetX := num (proj n.originalLatLng).1, targetY := num (proj n.originalLatLng).2 } :=
    reproject_initialised proj n (by rw [hx]; simp) (by rw [hx]; rfl)
  have h0 : (w.stationNodes.map (reproject proj))[k]? = some (reproject proj n) := by
    rw [List.getElem?_map, hk]
    rfl
  have h8 := relax_without_collision sqrt w.draggedNode _ k (reproject proj n) a b
    (proj n.originalLatLng).1 (proj n.originalLatLng).2 h0 hd (by rw [hrep]; exact hx)
    (by rw [hrep]; exact hy) (by rw [hrep]) (by rw [hrep]) 8 hfree
  rw [runPhysicsLoop_active sqrt proj w hmap hne hz]
  simp only [List.getElem?_map]
  unfold relaxedNodes
  rw [show iterations = 8 from rfl, h8]
  rfl

theorem resolveCollisions_short (sqrt : K → K) (d : Option Nat) (nodes : List (Node K))
    (h : nodes.length ≤ 1) : resolveCollisions sqrt d nodes = nodes := by
  unfold resolveCollisions
  apply foldl_invariant_mem (fun l => l = nodes) _ _ _ nodes rfl
  intro acc i _ hacc
  show collideStep sqrt d acc i = nodes
  rw [hacc]
  exact collideStep_last sqrt d i nodes (by omega)

/-- C12 as amended: in exact arithmetic, one anchor-pull step replaces the finite position `p`
of every node that is not the
dragged one by `p + (target - p) * 0.2`: the offset from the target is multiplied by exactly
0.8 on each axis and the new position lies on the segment from the old position to the target;
and a node that no separation step moves during a tick ends the tick with its offset from the
target pixel multiplied by exactly `0.8 ^ 8`. -/
theorem anchor_pull_contracts_offset (sqrt : K → K) (proj : JSVal K × JSVal K → K × K)
    (w : World K) (k : Nat) (n : Node K) (a b : K) (hmap : w.map = some proj)
    (hz : w.isZooming = false) (hk : w.stationNodes[k]? = some n) (hd : w.draggedNode ≠ some k)
    (hx : n.x = num a) (hy : n.y = num b) :
    (∀ (nodes : List (Node K)) (m : Node K) (u v tu tv : K), nodes[k]? = some m →
      m.x = num u → m.y = num v → m.targetX = num tu → m.targetY = num tv →
      ∃ u1 v1 : K,
        (anchorPull w.draggedNode nodes)[k]? = some { m with x := num u1, y := num v1 } ∧
          u1 = u + (tu - u) * (1 / 5) ∧ v1 = v + (tv - v) * (1 / 5) ∧
          u1 - tu = 4 / 5 * (u - tu) ∧ v1 - tv = 4 / 5 * (v - tv) ∧
          Min.min u tu ≤ u1 ∧ u1 ≤ Max.max u tu ∧ Min.min v tv ≤ v1 ∧ v1 ≤ Max.max v tv) ∧
    ((∀ i < 8,
        (resolveCollisions sqrt w.draggedNode (anchorPull w.draggedNode
          (relax sqrt w.draggedNode i (w.stationNodes.map (reproject proj)))))[k]? =
        (anchorPull w.draggedNode
          (relax sqrt w.draggedNode i (w.stationNodes.map (reproject proj))))[k]?) →
      ∃ (n1 : Node K) (a1 b1 : K),
        (runPhysicsLoop sqrt w).world.stationNodes[k]? = some n1 ∧
          n1.x = num a1 ∧ n1.y = num b1 ∧
          a1 - (proj n.originalLatLng).1 = (4 / 5) ^ 8 * (a - (proj n.originalLatLng).1) ∧
          b1 - (proj n.originalLatLng).2 = (4 / 5) ^ 8 * (b - (proj n.originalLatLng).2)) := by
  constructor
  · intro nodes m u v tu tv hm hmx hmy hmtx hmty
    refine ⟨u + (tu - u) * (1 / 5), v + (tv - v) * (1 / 5), ?_, rfl, rfl, by ring, by ring,
      ?_, ?_, ?_, ?_⟩
    · rw [anchorPull_of_not_dragged _ nodes k m hm hd, pullNode_num m u v tu tv hmx hmy hmtx hmty]
    · rcases le_total u tu with h | h
      · rw [min_eq_left h]; linarith
      · rw [min_eq_right h]; linarith
    · rcases le_total u tu with h | h
      · rw [max_eq_right h]; linarith
      · rw [max_eq_left h]; linarith
    · rcases le_total v tv with h | h
      · rw [min_eq_left h]; linarith
      · rw [min_eq_right h]; linarith
    · rcases le_total v tv with h | h
      · rw [max_eq_right h]; linarith
      · rw [max_eq_left h]; linarith
  · intro hfree
    refine ⟨_, (proj n.originalLatLng).1 + tickFactor * (a - (proj n.originalLatLng).1),
      (proj n.originalLatLng).2 + tickFactor * (b - (proj n.originalLatLng).2),
      tick_without_collision sqrt proj w k n a b hmap hz hk hd hx hy hfree, ?_, ?_, ?_, ?_⟩
    · rw [commitNode_x]
    · rw [commitNode_y]
    · unfold tickFactor; ring
    · unfold tickFactor; ring

/-- C12 as amended, at a concrete input: a single node of radius 4 at (3, 5) with target pixel
(10, 20). -/
theorem anchor_pull_contracts_offset_witness :
    ∃ (n1 : Node ℚ) (a1 b1 : ℚ),
      (runPhysicsLoop Rat.sqrt
          (sampleWorld [sampleNode "a" (10 : ℚ) 20 4 (num 3) (num 5)])).world.stationNodes[0]? =
        some n1 ∧
      n1.x = num a1 ∧ n1.y = num b1 ∧
      a1 - (sampleProj (sampleNode "a" (10 : ℚ) 20 4 (num 3) (num 5)).originalLatLng).1 =
        (4 / 5) ^ 8 *
          (3 - (sampleProj (sampleNode "a" (10 : ℚ) 20 4 (num 3) (num 5)).originalLatLng).1) ∧
      b1 - (sampleProj (sampleNode "a" (10 : ℚ) 20 4 (num 3) (num 5)).originalLatLng).2 =
        (4 / 5) ^ 8 *
          (5 - (sampleProj (sampleNode "a" (10 : ℚ) 20 4 (num 3) (num 5)).originalLatLng).2) :=
  (anchor_pull_contracts_offset Rat.sqrt sampleProj
    (sampleWorld [sampleNode "a" (10 : ℚ) 20 4 (num 3) (num 5)]) 0
    (sampleNode "a" (10 : ℚ) 20 4 (num 3) (num 5)) 3 5 rfl rfl rfl (by simp [sampleWorld])
    rfl rfl).2
    (fun i _ => by
      rw [resolveCollisions_short]
      rw [anchorPull_length, relax_length, List.length_map]
      simp [sampleWorld])

/-! ## Convergence of repeated ticks (C8) -/

theorem foldl_fixed {α β : Type} (f : α → β → α) (a : α) (bs : List β)
    (h : ∀ b ∈ bs, f a b = a) : bs.foldl f a = a := by
  induction bs with
  | nil => rfl
  | cons b bs ih =>
    rw [List.foldl_cons, h b (List.mem_cons_self _ _)]
    exact ih (fun c hc => h c (List.mem_cons_of_mem _ hc))

/-- The collision loops leave a list alone in which no pair is subject to the separation
step. -/
theorem resolveCollisions_clear (sqrt : K → K) (d : Option Nat) (nodes : List (Node K))
    (h : Clear sqrt nodes) : resolveCollisions sqrt d nodes = nodes := by
  unfold resolveCollisions
  apply foldl_fixed
  intro i _
  unfold collideStep
  split
  · next n1 h1 =>
    split_ifs with hr
    · rfl
    · unfold collideWith
      apply foldl_fixed
      intro j hj
      have hij : i < j := by
        have := (List.mem_range'_1.mp hj).1
        omega
      cases h2 : nodes[j]? with
      | none =>
        unfold resolvePair
        rw [h1, h2]
      | some n2 =>
        rcases h i j n1 n2 hij h1 h2 with h0 | h0 | h0
        · exact absurd h0 hr
        · exact resolvePair_zero_right sqrt d i j nodes n2 h2 h0
        · exact resolvePair_of_no_separation sqrt d i j nodes n1 n2 h1 h2 h0
  · rfl

theorem anchorPull_none (nodes : List (Node K)) : anchorPull none nodes = nodes.map pullNode :=
  anchorPullFrom_none 0 nodes

/-- While no separation step fires, the constraint loop is a sequence of anchor pulls. -/
theorem relax_clear (sqrt : K → K) (nodes : List (Node K)) (j : Nat)
    (h : ∀ i < j, Clear sqrt (nodes.map (pullNode^[i + 1]))) :
    relax sqrt none j nodes = nodes.map (pullNode^[j]) := by
  induction j with
  | zero =>
    show nodes = nodes.map (pullNode^[0])
    simp
  | succ j ih =>
    rw [relax_succ, ih (fun i hi => h i (Nat.lt_succ_of_lt hi))]
    unfold relaxOnce
    rw [anchorPull_none, List.map_map, ← Function.iterate_succ']
    exact resolveCollisions_clear sqrt none _ (h j (Nat.lt_succ_self j))

theorem forgetPrev_commitNode (n : Node K) : forgetPrev (commitNode n) = forgetPrev n := by
  unfold commitNode
  split_ifs <;> rfl

theorem forgetPrev_iterate (j : Nat) (n : Node K) :
    forgetPrev (pullNode^[j] n) = pullNode^[j] (forgetPrev n) := by
  induction j generalizing n with
  | zero => rfl
  | succ j ih =>
    rw [Function.iterate_succ_apply, Function.iterate_succ_apply, ih]
    rfl

theorem clear_forgetPrev (sqrt : K → K) (l : List (Node K)) :
    Clear sqrt (l.map forgetPrev) ↔ Clear sqrt l := by
  constructor
  · intro h i j n1 n2 hij h1 h2
    exact h i j (forgetPrev n1) (forgetPrev n2) hij (by rw [List.getElem?_map, h1]; rfl)
      (by rw [List.getElem?_map, h2]; rfl)
  · intro h i j m1 m2 hij h1 h2
    rw [List.getElem?_map] at h1 h2
    cases g1 : l[i]? with
    | none => rw [g1] at h1; cases h1
    | some n1 =>
      cases g2 : l[j]? with
      | none => rw [g2] at h2; cases h2
      | some n2 =>
        rw [g1] at h1
        rw [g2] at h2
        have e1 : forgetPrev n1 = m1 := Option.some.inj h1
        have e2 : forgetPrev n2 = m2 := Option.some.inj h2
        rw [← e1, ← e2]
        exact h i j n1 n2 hij g1 g2

theorem clear_congr (sqrt : K → K) (l1 l2 : List (Node K))
    (h : l1.map forgetPrev = l2.map forgetPrev) (h2 : Clear sqrt l2) : Clear sqrt l1 := by
  apply (clear_forgetPrev sqrt l1).mp
  rw [h]
  exact (clear_forgetPrev sqrt l2).mpr h2

theorem anchored_reproject (proj : JSVal K × JSVal K → K × K) (n : Node K)
    (h : isNaN n.x = true ∨ ∃ a b : K, n.x = num a ∧ n.y = num b) :
    Anchored proj (reproject proj n) := by
  unfold reproject
  split_ifs with hc
  · exact ⟨⟨_, _, rfl, rfl⟩, rfl, rfl⟩
  · rcases h with h | ⟨a, b, hx, hy⟩
    · exact absurd (Or.inr h) hc
    · exact ⟨⟨a, b, hx, hy⟩, rfl, rfl⟩

theorem anchored_pullNode (proj : JSVal K × JSVal K → K × K) (n : Node K)
    (h : Anchored proj n) : Anchored proj (pullNode n) := by
  obtain ⟨⟨a, b, hx, hy⟩, htx, hty⟩ := h
  rw [pullNode_num n a b _ _ hx hy htx hty]
  exact ⟨⟨_, _, rfl, rfl⟩, htx, hty⟩

theorem anchored_iterate (proj : JSVal K × JSVal K → K × K) (j : Nat) (n : Node K)
    (h : Anchored proj n) : Anchored proj (pullNode^[j] n) := by
  induction j generalizing n with
  | zero => exact h
  | succ j ih =>
    rw [Function.iterate_succ_apply]
    exact ih _ (anchored_pullNode proj n h)

theorem anchored_commitNode (proj : JSVal K × JSVal K → K × K) (n : Node K)
    (h : Anchored proj n) : Anchored proj (commitNode n) := by
  unfold commitNode
  split_ifs
  · exact h
  · exact h

/-- Step 1 changes nothing in a node that holds a finite position and its target pixel. -/
theorem reproject_anchored (proj : JSVal K × JSVal K → K × K) (n : Node K)
    (h : Anchored proj n) : reproject proj n = n := by
  obtain ⟨⟨a, b, hx, _⟩, htx, hty⟩ := h
  rw [reproject_initialised proj n (by rw [hx]; simp) (by rw [hx]; rfl)]
  cases n
  simp only at htx hty
  simp only [htx, hty]

theorem runPhysicsLoop_active_world (sqrt : K → K) (proj : JSVal K × JSVal K → K × K)
    (w : World K) (hmap : w.map = some proj) (hne : w.stationNodes ≠ [])
    (hz : w.isZooming = false) :
    (runPhysicsLoop sqrt w).world.stationNodes = (relaxedNodes sqrt proj w).map commitNode ∧
      (runPhysicsLoop sqrt w).world.map = w.map ∧
      (runPhysicsLoop sqrt w).world.isZooming = w.isZooming ∧
      (runPhysicsLoop sqrt w).world.draggedNode = w.draggedNode := by
  rw [runPhysicsLoop_active sqrt proj w hmap hne hz]
  refine ⟨?_, ?_, ?_, ?_⟩ <;> dsimp only

/-- The nodes after steps 1 and 2 of a tick in which no separation step fires. -/
theorem relaxedNodes_clear (sqrt : K → K) (proj : JSVal K × JSVal K → K × K) (w : World K)
    (hd : w.draggedNode = none) (hcp : ClearPath sqrt (w.stationNodes.map (reproject proj))) :
    relaxedNodes sqrt proj w = (w.stationNodes.map (reproject proj)).map (pullNode^[8]) := by
  unfold relaxedNodes
  rw [hd, show iterations = 8 from rfl]
  exact relax_clear sqrt _ 8 (fun i _ => hcp i)

/-- One tick of a list with no dragged node on which no separation step fires. -/
theorem tick_clear_path (sqrt : K → K) (proj : JSVal K × JSVal K → K × K) (w : World K)
    (hmap : w.map = some proj) (hz : w.isZooming = false) (hd : w.draggedNode = none)
    (hwf : ∀ m ∈ w.stationNodes, WellFormed m)
    (hcp : ClearPath sqrt (w.stationNodes.map (reproject proj))) (k : Nat) (n : Node K) (a b : K)
    (hk : w.stationNodes[k]? = some n) (hx : n.x = num a) (hy : n.y = num b) :
    (runPhysicsLoop sqrt w).world.map = some proj ∧
      (runPhysicsLoop sqrt w).world.isZooming = false ∧
      (runPhysicsLoop sqrt w).world.draggedNode = none ∧
      (∀ m ∈ (runPhysicsLoop sqrt w).world.stationNodes, WellFormed m) ∧
      ClearPath sqrt ((runPhysicsLoop sqrt w).world.stationNodes.map (reproject proj)) ∧
      ∃ n1 : Node K, (runPhysicsLoop sqrt w).world.stationNodes[k]? = some n1 ∧
        n1.originalLatLng = n.originalLatLng ∧
        n1.x = num ((proj n.originalLatLng).1 + tickFactor * (a - (proj n.originalLatLng).1)) ∧
        n1.y = num ((proj n.originalLatLng).2 + tickFactor * (b - (proj n.originalLatLng).2)) := by
  have hne : w.stationNodes ≠ [] := by
    intro h
    rw [h] at hk
    simp at hk
  obtain ⟨w1, w2, w3, w4⟩ := runPhysicsLoop_active_world sqrt proj w hmap hne hz
  have hrel := relaxedNodes_clear sqrt proj w hd hcp
  have hfree : ∀ i < 8,
      (resolveCollisions sqrt w.draggedNode (anchorPull w.draggedNode
        (relax sqrt w.draggedNode i (w.stationNodes.map (reproject proj)))))[k]? =
      (anchorPull w.draggedNode
        (relax sqrt w.draggedNode i (w.stationNodes.map (reproject proj))))[k]? := by
    intro i _
    rw [hd, relax_clear sqrt _ i (fun i1 _ => hcp i1), anchorPull_none, List.map_map,
      ← Function.iterate_succ', resolveCollisions_clear sqrt none _ (hcp i)]
  have hnode := tick_without_collision sqrt proj w k n a b hmap hz hk (by rw [hd]; simp) hx hy hfree
  have hanch : ∀ m ∈ w.stationNodes, Anchored proj (reproject proj m) :=
    fun m hm => anchored_reproject proj m (hwf m hm).2
  refine ⟨?_, ?_, ?_, ?_, ?_, _, hnode, ?_, ?_, ?_⟩
  · rw [w2]
    exact hmap
  · rw [w3]
    exact hz
  · rw [w4]
    exact hd
  · intro m hm
    rw [w1] at hm
    obtain ⟨m0, hm0, rfl⟩ := List.mem_map.mp hm
    obtain ⟨x0, y0, pa, pb, e1, e2, e3, e4⟩ := relaxedNodes_wellFormed sqrt proj w hwf m0 hm0
    unfold commitNode
    split_ifs
    · exact ⟨⟨x0, y0, e1, e2⟩, Or.inr ⟨x0, y0, e1, e2⟩⟩
    · exact ⟨⟨pa, pb, e3, e4⟩, Or.inr ⟨x0, y0, e1, e2⟩⟩
  · intro j
    rw [w1, hrel]
    apply clear_congr sqrt _ _ _ (hcp (j + 8))
    simp only [List.map_map]
    apply List.map_congr_left
    intro m hm
    have ha := anchored_commitNode proj _ (anchored_iterate proj 8 _ (hanch m hm))
    simp only [Function.comp_apply]
    rw [reproject_anchored proj _ ha, forgetPrev_iterate, forgetPrev_commitNode,
      ← forgetPrev_iterate, ← Function.iterate_add_apply]
  · rw [commitNode_originalLatLng]
    unfold reproject
    split_ifs <;> rfl
  · rw [commitNode_x]
  · rw [commitNode_y]

/-- The position of a node after `t` ticks of a list with no dragged node on which no
separation step fires. -/
theorem ticks_clear_path (sqrt : K → K) (proj : JSVal K × JSVal K → K × K) (k : Nat)
    (latlng : JSVal K × JSVal K) (t : Nat) (w : World K)
    (hmap : w.map = some proj) (hz : w.isZooming = false) (hd : w.draggedNode = none)
    (hwf : ∀ m ∈ w.stationNodes, WellFormed m)
    (hcp : ClearPath sqrt (w.stationNodes.map (reproject proj))) (n : Node K) (a b : K)
    (hk : w.stationNodes[k]? = some n) (hl : n.originalLatLng = latlng)
    (hx : n.x = num a) (hy : n.y = num b) :
    ∃ n1 : Node K, (ticks sqrt t w).stationNodes[k]? = some n1 ∧
      n1.x = num ((proj latlng).1 + tickFactor ^ t * (a - (proj latlng).1)) ∧
      n1.y = num ((proj latlng).2 + tickFactor ^ t * (b - (proj latlng).2)) := by
  induction t generalizing w n a b with
  | zero =>
    refine ⟨n, hk, ?_, ?_⟩
    · rw [hx]; congr 1; ring
    · rw [hy]; congr 1; ring
  | succ t ih =>
    obtain ⟨g1, g2, g3, g4, g5, n1, g6, g7, g8, g9⟩ :=
      tick_clear_path sqrt proj w hmap hz hd hwf hcp k n a b hk hx hy
    rw [hl] at g7 g8 g9
    obtain ⟨n2, f1, f2, f3⟩ :=
      ih (runPhysicsLoop sqrt w).world g1 g2 g3 g4 g5 n1 _ _ g6 g7 g8 g9
    have hticks : ticks sqrt (t + 1) w = ticks sqrt t (runPhysicsLoop sqrt w).world := by
      unfold ticks
      exact Function.iterate_succ_apply _ _ _
    rw [hticks]
    refine ⟨n2, f1, ?_, ?_⟩
    · rw [f2]; congr 1; ring
    · rw [f3]; congr 1; ring

theorem tickFactor_pos : (0 : K) < tickFactor := by
  unfold tickFactor
  norm_num

theorem tickFactor_lt_one : (tickFactor : K) < 1 := by
  unfold tickFactor
  norm_num

/-- The displacement of a node between consecutive ticks of a list on which no separation step
fires. -/
theorem displacement_clear_path (sqrt : K → K) (proj : JSVal K × JSVal K → K × K)
    (w : World K) (hmap : w.map = some proj) (hz : w.isZooming = false)
    (hd : w.draggedNode = none) (hwf : ∀ m ∈ w.stationNodes, WellFormed m)
    (hcp : ClearPath sqrt (w.stationNodes.map (reproject proj))) (k : Nat) (n : Node K)
    (a b : K) (hk : w.stationNodes[k]? = some n) (hx : n.x = num a) (hy : n.y = num b) (t : Nat) :
    displacement sqrt w k t =
      some (tickFactor ^ t * ((1 - tickFactor) *
        Max.max |a - (proj n.originalLatLng).1| |b - (proj n.originalLatLng).2|)) := by
  obtain ⟨n0, h0, h0x, h0y⟩ :=
    ticks_clear_path sqrt proj k n.originalLatLng t w hmap hz hd hwf hcp n a b hk rfl hx hy
  obtain ⟨n1, h1, h1x, h1y⟩ :=
    ticks_clear_path sqrt proj k n.originalLatLng (t + 1) w hmap hz hd hwf hcp n a b hk rfl hx hy
  have hc0 : (0 : K) ≤ tickFactor ^ t := pow_nonneg tickFactor_pos.le t
  have hc1 : (0 : K) ≤ 1 - tickFactor := by linarith [@tickFactor_lt_one K _]
  have gap : ∀ c tc : K,
      |tc + tickFactor ^ (t + 1) * (c - tc) - (tc + tickFactor ^ t * (c - tc))| =
        tickFactor ^ t * ((1 - tickFactor) * |c - tc|) := by
    intro c tc
    have e : tc + tickFactor ^ (t + 1) * (c - tc) - (tc + tickFactor ^ t * (c - tc)) =
        -(tickFactor ^ t * (1 - tickFactor) * (c - tc)) := by ring
    rw [e, abs_neg, abs_mul, abs_of_nonneg (mul_nonneg hc0 hc1), mul_assoc]
  unfold displacement positionAt
  rw [h0, h1]
  simp only [Option.map_some', h0x, h0y, h1x, h1y, axisGap, gap]
  rw [← mul_max_of_nonneg _ _ hc0, ← mul_max_of_nonneg _ _ hc1]

/-- C8 as amended: for a node list with fixed targets and radii, no dragged node and no pointer
or zoom event, on which the separation step never fires (after any number of anchor pulls no
two nodes of non-zero radius are closer than `r1 + r2 + 1.5`), in exact arithmetic every node
with a finite position has, between consecutive ticks, a displacement that is multiplied by
exactly `0.8 ^ 8` from one tick to the next; so it strictly decreases while it is not 0 and
stays 0 afterwards; and for every bound `B` on the starting offsets from the target pixel there
is a number of ticks `N`, depending on `B` only, from which on the displacement is below the
0.1 px emission threshold. -/
theorem collision_free_ticks_converge [Archimedean K] (sqrt : K → K)
    (proj : JSVal K × JSVal K → K × K) :
    (∀ (w : World K) (k : Nat) (n : Node K) (a b : K), w.map = some proj → w.isZooming = false →
      w.draggedNode = none → (∀ m ∈ w.stationNodes, WellFormed m) →
      ClearPath sqrt (w.stationNodes.map (reproject proj)) → w.stationNodes[k]? = some n →
      n.x = num a → n.y = num b →
      ∀ t : Nat, ∃ D0 D1 : K,
        displacement sqrt w k t = some D0 ∧ displacement sqrt w k (t + 1) = some D1 ∧
          D1 = tickFactor * D0 ∧ (D0 ≠ 0 → D1 < D0) ∧ (D0 = 0 → D1 = 0)) ∧
    ∀ B : K, ∃ N : Nat,
      ∀ (w : World K) (k : Nat) (n : Node K) (a b : K), w.map = some proj → w.isZooming = false →
        w.draggedNode = none → (∀ m ∈ w.stationNodes, WellFormed m) →
        ClearPath sqrt (w.stationNodes.map (reproject proj)) → w.stationNodes[k]? = some n →
        n.x = num a → n.y = num b →
        |a - (proj n.originalLatLng).1| ≤ B → |b - (proj n.originalLatLng).2| ≤ B →
        ∀ t : Nat, N ≤ t → ∃ D : K, displacement sqrt w k t = some D ∧ D < 1 / 10 := by
  have hc0 : (0 : K) < tickFactor := tickFactor_pos
  have hc1 : (tickFactor : K) < 1 := tickFactor_lt_one
  constructor
  · intro w k n a b hmap hz hd hwf hcp hk hx hy t
    have hE : (0 : K) ≤ (1 - tickFactor) *
        Max.max |a - (proj n.originalLatLng).1| |b - (proj n.originalLatLng).2| :=
      mul_nonneg (by linarith) (le_max_of_le_left (abs_nonneg _))
    have hD0 : (0 : K) ≤ tickFactor ^ t * ((1 - tickFactor) *
        Max.max |a - (proj n.originalLatLng).1| |b - (proj n.originalLatLng).2|) :=
      mul_nonneg (pow_nonneg hc0.le t) hE
    refine ⟨_, _, displacement_clear_path sqrt proj w hmap hz hd hwf hcp k n a b hk hx hy t,
      displacement_clear_path sqrt proj w hmap hz hd hwf hcp k n a b hk hx hy (t + 1), ?_, ?_, ?_⟩
    · ring
    · intro hne
      have hpos := lt_of_le_of_ne hD0 (Ne.symm hne)
      have e : tickFactor ^ (t + 1) * ((1 - tickFactor) *
          Max.max |a - (proj n.originalLatLng).1| |b - (proj n.originalLatLng).2|) =
          tickFactor * (tickFactor ^ t * ((1 - tickFactor) *
            Max.max |a - (proj n.originalLatLng).1| |b - (proj n.originalLatLng).2|)) := by ring
      rw [e]
      exact mul_lt_of_lt_one_left hpos hc1
    · intro h0
      have e : tickFactor ^ (t + 1) * ((1 - tickFactor) *
          Max.max |a - (proj n.originalLatLng).1| |b - (proj n.originalLatLng).2|) =
          tickFactor * (tickFactor ^ t * ((1 - tickFactor) *
            Max.max |a - (proj n.originalLatLng).1| |b - (proj n.originalLatLng).2|)) := by ring
      rw [e, h0, mul_zero]
  · intro B
    have hB1 : (0 : K) < |B| + 1 := by linarith [abs_nonneg B]
    obtain ⟨N, hN⟩ := exists_pow_lt_of_lt_one (div_pos (by norm_num : (0 : K) < 1 / 10) hB1) hc1
    refine ⟨N, ?_⟩
    intro w k n a b hmap hz hd hwf hcp hk hx hy hBa hBb t ht
    refine ⟨_, displacement_clear_path sqrt proj w hmap hz hd hwf hcp k n a b hk hx hy t, ?_⟩
    have hmax : Max.max |a - (proj n.originalLatLng).1| |b - (proj n.originalLatLng).2| ≤ |B| :=
      le_trans (max_le hBa hBb) (le_abs_self B)
    have hmax0 : (0 : K) ≤ Max.max |a - (proj n.originalLatLng).1|
        |b - (proj n.originalLatLng).2| := le_max_of_le_left (abs_nonneg _)
    have hE : (1 - tickFactor) *
        Max.max |a - (proj n.originalLatLng).1| |b - (proj n.originalLatLng).2| ≤ |B| := by
      calc (1 - tickFactor) *
            Max.max |a - (proj n.originalLatLng).1| |b - (proj n.originalLatLng).2|
          ≤ 1 * Max.max |a - (proj n.originalLatLng).1| |b - (proj n.originalLatLng).2| :=
            mul_le_mul_of_nonneg_right (by linarith) hmax0
        _ ≤ |B| := by rw [one_mul]; exact hmax
    have hE0 : (0 : K) ≤ (1 - tickFactor) *
        Max.max |a - (proj n.originalLatLng).1| |b - (proj n.originalLatLng).2| :=
      mul_nonneg (by linarith) hmax0
    have hpow : (tickFactor : K) ^ t ≤ tickFactor ^ N :=
      pow_le_pow_of_le_one hc0.le hc1.le ht
    calc tickFactor ^ t * ((1 - tickFactor) *
          Max.max |a - (proj n.originalLatLng).1| |b - (proj n.originalLatLng).2|)
        ≤ tickFactor ^ N * |B| :=
          mul_le_mul hpow hE hE0 (pow_nonneg hc0.le N)
      _ ≤ tickFactor ^ N * (|B| + 1) :=
          mul_le_mul_of_nonneg_left (by linarith) (pow_nonneg hc0.le N)
      _ < 1 / 10 / (|B| + 1) * (|B| + 1) := mul_lt_mul_of_pos_right hN hB1
      _ = 1 / 10 := div_mul_cancel₀ _ (ne_of_gt hB1)

/-- The position of a node with a finite position and target after `j` anchor pulls. -/
theorem pullNode_iterate_num (m : Node K) (u v tu tv : K) (hx : m.x = num u) (hy : m.y = num v)
    (htx : m.targetX = num tu) (hty : m.targetY = num tv) (j : Nat) :
    pullNode^[j] m =
      { m with x := num (tu + (4 / 5) ^ j * (u - tu)), y := num (tv + (4 / 5) ^ j * (v - tv)) } := by
  induction j with
  | zero =>
    have e1 : tu + (4 / 5) ^ 0 * (u - tu) = u := by ring
    have e2 : tv + (4 / 5) ^ 0 * (v - tv) = v := by ring
    rw [e1, e2, node_eta m u v hx hy]
    rfl
  | succ j ih =>
    rw [Function.iterate_succ_apply', ih,
      pullNode_num
        { m with x := num (tu + (4 / 5) ^ j * (u - tu)), y := num (tv + (4 / 5) ^ j * (v - tv)) }
        (tu + (4 / 5) ^ j * (u - tu)) (tv + (4 / 5) ^ j * (v - tv)) tu tv rfl rfl htx hty]
    have e1 : tu + (4 / 5) ^ j * (u - tu) + (tu - (tu + (4 / 5) ^ j * (u - tu))) * (1 / 5) =
        tu + (4 / 5) ^ (j + 1) * (u - tu) := by ring
    have e2 : tv + (4 / 5) ^ j * (v - tv) + (tv - (tv + (4 / 5) ^ j * (v - tv))) * (1 / 5) =
        tv + (4 / 5) ^ (j + 1) * (v - tv) := by ring
    rw [e1, e2]

/-- The two nodes of `distantPair` never come within reach of each other. -/
theorem distantPair_clearPath :
    ClearPath Rat.sqrt ((distantPair : List (Node ℚ)).map (reproject sampleProj)) := by
  intro j i i1 n1 n2 hij h1 h2
  have hlen : (((distantPair : List (Node ℚ)).map (reproject sampleProj)).map (pullNode^[j + 1])).length = 2 := rfl
  have hi1 := lt_length_of_getElem? _ i1 n2 h2
  rw [hlen] at hi1
  have hi0 : i = 0 := by omega
  have hi2 : i1 = 1 := by omega
  subst hi0 hi2
  have ea : reproject sampleProj (sampleNode "a" (0 : ℚ) 0 20 (num 10) (num 0)) =
      { sampleNode "a" (0 : ℚ) 0 20 (num 10) (num 0) with targetX := num 0, targetY := num 0 } :=
    reproject_initialised _ _ (by simp [sampleNode]) rfl
  have eb : reproject sampleProj (sampleNode "b" (100 : ℚ) 0 20 (num 110) (num 0)) =
      { sampleNode "b" (100 : ℚ) 0 20 (num 110) (num 0) with
        targetX := num 100, targetY := num 0 } :=
    reproject_initialised _ _ (by simp [sampleNode]) rfl
  have g1 : n1 = pullNode^[j + 1] (reproject sampleProj
      (sampleNode "a" (0 : ℚ) 0 20 (num 10) (num 0))) := by
    have : (((distantPair : List (Node ℚ)).map (reproject sampleProj)).map (pullNode^[j + 1]))[0]? =
        some (pullNode^[j + 1] (reproject sampleProj
          (sampleNode "a" (0 : ℚ) 0 20 (num 10) (num 0)))) := rfl
    rw [this] at h1
    exact (Option.some.inj h1).symm
  have g2 : n2 = pullNode^[j + 1] (reproject sampleProj
      (sampleNode "b" (100 : ℚ) 0 20 (num 110) (num 0))) := by
    have : (((distantPair : List (Node ℚ)).map (reproject sampleProj)).map (pullNode^[j + 1]))[1]? =
        some (pullNode^[j + 1] (reproject sampleProj
          (sampleNode "b" (100 : ℚ) 0 20 (num 110) (num 0)))) := rfl
    rw [this] at h2
    exact (Option.some.inj h2).symm
  rw [ea, pullNode_iterate_num _ 10 0 0 0 rfl rfl rfl rfl (j + 1)] at g1
  rw [eb, pullNode_iterate_num _ 110 0 100 0 rfl rfl rfl rfl (j + 1)] at g2
  right
  right
  rw [separation_num Rat.sqrt n1 n2 _ _ _ _ (by rw [g1]) (by rw [g1]) (by rw [g2]) (by rw [g2])]
  have hr1 : n1.currentRadius = 20 := by rw [g1]; rfl
  have hr2 : n2.currentRadius = 20 := by rw [g2]; rfl
  rw [hr1, hr2, if_neg]
  unfold padding
  have e : (100 : ℚ) + (4 / 5) ^ (j + 1) * (110 - 100) - (0 + (4 / 5) ^ (j + 1) * (10 - 0)) =
      100 := by ring
  rw [e]
  norm_num

/-- C8 as amended, at a concrete input: two nodes of radius 20 at (10, 0) and (110, 0) with the
target pixels (0, 0) and (100, 0); they stay 100 px apart on their way. -/
theorem collision_free_ticks_converge_witness :
    ∃ D0 D1 : ℚ,
      displacement Rat.sqrt (sampleWorld distantPair) 0 0 = some D0 ∧
        displacement Rat.sqrt (sampleWorld distantPair) 0 1 = some D1 ∧
        D1 = tickFactor * D0 ∧ (D0 ≠ 0 → D1 < D0) ∧ (D0 = 0 → D1 = 0) :=
  (collision_free_ticks_converge Rat.sqrt sampleProj).1
    (sampleWorld distantPair) 0
    (sampleNode "a" (0 : ℚ) 0 20 (num 10) (num 0)) 10 0 rfl rfl rfl
    (by
      intro m hm
      have hm2 : m = sampleNode "a" (0 : ℚ) 0 20 (num 10) (num 0) ∨
          m = sampleNode "b" (100 : ℚ) 0 20 (num 110) (num 0) := by
        simpa [sampleWorld, distantPair] using hm
      rcases hm2 with rfl | rfl
      · exact ⟨⟨0, 0, rfl, rfl⟩, Or.inr ⟨10, 0, rfl, rfl⟩⟩
      · exact ⟨⟨0, 0, rfl, rfl⟩, Or.inr ⟨110, 0, rfl, rfl⟩⟩)
    distantPair_clearPath
    rfl rfl rfl 0

/-! ## The constraint loop in binary64 arithmetic (C8, C12, C13) -/

/-- C12 as stated fails in the binary64 arithmetic of the code.  A node at
x = 10.000000000000002 (the double next to 10) with target pixel x = 10 is not moved by the
anchor pull at all: its offset from the target is multiplied by 1, not by 0.8, and it is still
there after a tick of 8 iterations.  And a lone node at (3, 5) with target pixel (10, 20) ends a
tick at y = 17.483417600000003, which is not the double 17.4834176 = 20 - 15 * 0.8 ^ 8. -/
theorem anchor_pull_rounds_in_doubles :
    Binary64.pullNode ⟨4, 10, 20, 10.000000000000002, 20⟩ =
        ⟨4, 10, 20, 10.000000000000002, 20⟩ ∧
      Float64.eq 10.000000000000002 10 = false ∧
      Binary64.tick [⟨4, 10, 20, 10.000000000000002, 20⟩] =
        [⟨4, 10, 20, 10.000000000000002, 20⟩] ∧
      Binary64.tick [⟨4, 10, 20, 3, 5⟩] = [⟨4, 10, 20, 8.82559488, 17.483417600000003⟩] ∧
      Float64.eq 17.483417600000003 17.4834176 = false := by
  decide!

/-- C13 as stated fails in the binary64 arithmetic of the code.  Two nodes of radius 20 on the
x axis whose centres are `d = 2.409919865102884e-181` (that is `2^-600`) apart, so that
`0 < d < 41.5`: `dx * dx` underflows to 0, the pair is treated as coincident and ends
`20.745 + 20.745 = 41.49 < 41.5` apart.  And two nodes of radius 20 at (0, 0) and (10, 3): the
square root and the divisions are rounded, and after the pair is resolved the test
`distSq < minDist * minDist` of the code still holds for it, so the distance is not 41.5. -/
theorem resolvePair_rounds_in_doubles :
    Float64.lt 0 2.409919865102884e-181 = true ∧
      Binary64.resolvePair none 0 1
          [⟨20, 0, 0, 0, 0⟩, ⟨20, 0, 0, 2.409919865102884e-181, 0⟩] =
        [⟨20, 0, 0, -20.745, 0⟩, ⟨20, 0, 0, 20.745, 0⟩] ∧
      (20.745 : Float64) - (-20.745) = 41.49 ∧
      Float64.lt 41.49 41.5 = true ∧
      Binary64.resolvePair none 0 1 [⟨20, 0, 0, 0, 0⟩, ⟨20, 0, 0, 10, 3⟩] =
        [⟨20, 0, 0, -14.87489541833889, -4.462468625501667⟩,
          ⟨20, 0, 0, 24.874895418338888, 7.462468625501667⟩] ∧
      (Binary64.separation ⟨20, 0, 0, -14.87489541833889, -4.462468625501667⟩
        ⟨20, 0, 0, 24.874895418338888, 7.462468625501667⟩).isSome = true := by
  decide!

/-- C8 as stated fails when nodes collide.  Four nodes of radii 20, 5, 20, 20 start at their
target pixels (1, 6), (6, 0), (6, 6), (3, 6).  Between the first and the second tick no node
moves by as much as 3 px; between the second and the third tick a node moves by more than
13 px: the largest displacement does not decrease from one tick to the next. -/
theorem colliding_nodes_displacement_grows :
    Binary64.tick Binary64.fourNodes = Binary64.fourNodesAfter1 ∧
      Binary64.tick Binary64.fourNodesAfter1 = Binary64.fourNodesAfter2 ∧
      Binary64.tick Binary64.fourNodesAfter2 = Binary64.fourNodesAfter3 ∧
      Float64.lt (Binary64.largestDisplacement Binary64.fourNodesAfter1 Binary64.fourNodesAfter2)
        3 = true ∧
      Float64.lt 13
        (Binary64.largestDisplacement Binary64.fourNodesAfter2 Binary64.fourNodesAfter3) = true := by
  decide!

end Lemmas

end AlguesVertes
